import Mathlib

/-!
# PalletOptimizer: the packing-and-framing engine

A shallow embedding of `runOptimization` from `src/src/PalletOptimizer.jsx`
(lines 111-338) together with the lumber factory `createLumber` (lines 101-105).

Modelling conventions.

* Two embeddings of the same code. In the first, JavaScript numbers are exact
  rationals `ℚ` and every operator is exact. In the second (the definitions
  whose names end in `64`), numbers are still rationals but every arithmetic
  operator of the source rounds its exact result to the nearest binary64 value
  (`fl`: 53-bit significand, ties to even), in the evaluation order of
  JavaScript. Overflow, gradual underflow and `NaN` are outside both.
  The second embedding is used wherever a statement sets coordinates, sums or
  counts recomputed from the output against the values the code computes.
* The item objects are shared between the React state `items` and the working
  array `sortedQueue`; the embedding passes the queue explicitly, each entry
  carrying its own `isPlaced` flag, and every loop returns the updated queue.
* `Array.prototype.sort` is modelled as a stable insertion sort driven by the
  comparator of lines 115-118. A stable sort is determined by its comparator
  when the comparator is a consistent order; the comparator here is not
  one (its 5-unit tolerance is not transitive), and on inconsistent comparisons
  the order an engine returns is its own.
* The three loops that are not bounded by a list (`while` over crates, `while
  (palletActive)`, and the cradle-point `for` loop) are defined by recursion on
  a counter; `none` means that the counter ran out before the loop ended.
* `pallet.woodUsage` (a `Math.sqrt` sum formatted by `toFixed`) is not modelled.
-/

namespace PalletOptimizer

/-! ## Data model -/

/-- A triple `{ x, y, z }` as used for dimensions and positions. -/
structure Vec3 where
  x : ℚ
  y : ℚ
  z : ℚ
deriving DecidableEq, Repr

/-- The configuration record `config` (lines 13-24). -/
structure Config where
  palletLength : ℚ
  palletWidth : ℚ
  maxHeight : ℚ
  maxWeight : ℚ
  safetyGap : ℚ
  framingSpacing : ℚ
  lumberWidth : ℚ
  lumberThick : ℚ
  addBracing : Bool
  allowVertical : Bool
deriving DecidableEq, Repr

/-- A unit item as built by `processItems` (lines 80-94), with the `isPlaced`
flag that `runOptimization` writes on it (line 200). A freshly loaded item has
no `isPlaced` property, which reads as `false`. -/
structure Item where
  itemNumber : String
  height : ℚ
  width : ℚ
  length : ℚ
  weight : ℚ
  qty : ℚ
  uniqueId : String
  colorIndex : Nat
  isPlaced : Bool
deriving DecidableEq, Repr

/-- An entry of `pallet.items` (lines 221-226): the item object spread together
with `position`, `rotation` and `finalDims`. -/
structure PlacedItem extends Item where
  position : Vec3
  rotation : Vec3
  finalDims : Vec3
deriving DecidableEq, Repr

/-- A wood piece: the axis-aligned box built by `createLumber`, or the diagonal
brace literal of lines 263-278 (`start`, `end`, and a two-dimensional `dims`). -/
inductive Lumber where
  | box (type : String) (dims : Vec3) (pos : Vec3)
  | diagonal (start : Vec3) (endPt : Vec3) (dimX : ℚ) (dimY : ℚ)
deriving DecidableEq, Repr

/-- The crate record `pallet` (lines 129-136), without `woodUsage`. -/
structure Pallet where
  id : Nat
  items : List PlacedItem
  woodFrames : List Lumber
  totalWeight : ℚ
  currentHeight : ℚ
deriving DecidableEq, Repr

/-- What one call of `runOptimization` hands to the state setters: the argument
of `setPallets` and the messages given to `setErrors` (none when it is not
called). -/
structure Result where
  pallets : List Pallet
  errors : List String
deriving DecidableEq, Repr

/-- An element of `rowItems` (line 194). `item` is the queue object
`sortedQueue[index]` as it is read back when the row is placed (line 222), that
is, with its `isPlaced` flag already set. -/
structure RowItem where
  index : Nat
  item : Item
  dims : Vec3
  vertical : Bool
deriving DecidableEq, Repr

/-- The mutable variables of one row scan (lines 148-152) together with
`pallet.totalWeight`, which the scan updates as it goes (line 201). -/
structure RowScan where
  rowItems : List RowItem
  rowWidthUsed : ℚ
  rowMaxHeight : ℚ
  rowMaxLength : ℚ
  isVerticalRow : Bool
  totalWeight : ℚ
deriving DecidableEq, Repr

/-! ## Lumber factory and effective footprint -/

/-- The function `createLumber` (lines 101-105). -/
def createLumber (type : String) (dimX dimY dimZ posX posY posZ : ℚ) : Lumber :=
  Lumber.box type ⟨dimX, dimY, dimZ⟩ ⟨posX, posY, posZ⟩

/-- The constant `effWidth` (line 123). -/
def effWidth (config : Config) : ℚ := config.palletWidth - config.safetyGap * 2

/-- The constant `effLength` (line 124). -/
def effLength (config : Config) : ℚ := config.palletLength - config.safetyGap * 2

/-- The error message of line 322. -/
def fitFailure : String := "Item fits failed. Check max dimensions."

/-! ## Queue seeding (lines 114-118) -/

/-- The comparator passed to `sort` (lines 115-118). -/
def compareItems (a b : Item) : ℚ :=
  if |b.length - a.length| > 5 then b.length - a.length else b.weight - a.weight

/-- The array `sortedQueue` of line 115: a stable insertion sort in which `a`
stays in front of `b` when the comparator is not positive. -/
def sortedQueue (items : List Item) : List Item :=
  items.insertionSort (fun a b => compareItems a b ≤ 0)

/-! ## Orientation and footprint (lines 162-188) -/

/-- The flag `vertical` of lines 164-168. -/
def vertical (config : Config) (item : Item) : Bool :=
  config.allowVertical && decide (item.length < config.maxHeight) && decide (item.length < 90)

/-- The oriented dimensions `dims` of lines 163-171. -/
def dims (config : Config) (item : Item) : Vec3 :=
  if vertical config item then ⟨item.width, item.length, item.height⟩
  else if item.width > item.height then ⟨item.height, item.width, item.length⟩
  else ⟨item.width, item.height, item.length⟩

/-- The value `itemFootprintWidth` of lines 181-188, for a row that already
holds `rowLength` items. -/
def itemFootprintWidth (config : Config) (rowLength : Nat) (item : Item) : ℚ :=
  if vertical config item then (dims config item).x + 0.5
  else if rowLength = 0 then (dims config item).x + config.lumberWidth * 2
  else (dims config item).x + config.lumberWidth

/-! ## Row scan (lines 155-202) -/

/-- The assignment `item.isPlaced = true` (line 200). -/
def markPlaced (item : Item) : Item := { item with isPlaced := true }

/-- One iteration of the row-filling loop for the queue entry `item` at index
`i`. Returns the entry (flagged when accepted) and the updated scan state. -/
def scanItem (config : Config) (layerY : ℚ) (i : Nat) (item : Item) (st : RowScan) :
    Item × RowScan :=
  if item.isPlaced then (item, st)
  else if st.totalWeight + item.weight > config.maxWeight then (item, st)
  else if vertical config item = true ∧ layerY > config.lumberThick then (item, st)
  else if st.rowItems.length > 0 ∧ st.isVerticalRow ≠ vertical config item then (item, st)
  else
    let st1 : RowScan :=
      if st.rowItems.length = 0 then { st with isVerticalRow := vertical config item } else st
    let fp := itemFootprintWidth config st.rowItems.length item
    if (dims config item).z > effLength config ∧ vertical config item = false then (item, st1)
    else if layerY + (dims config item).y > config.maxHeight then (item, st1)
    else if st1.rowWidthUsed + fp > effWidth config then (item, st1)
    else
      let placed : Item := markPlaced item
      (placed,
        { rowItems := st1.rowItems ++ [⟨i, placed, dims config item, vertical config item⟩]
          rowWidthUsed := st1.rowWidthUsed + fp
          rowMaxHeight := max st1.rowMaxHeight (dims config item).y
          rowMaxLength := max st1.rowMaxLength (dims config item).z
          isVerticalRow := st1.isVerticalRow
          totalWeight := st1.totalWeight + item.weight })

/-- The row-filling `for` loop (lines 155-202) over the part of the queue that
starts at index `i`. Returns that part with the new flags and the final scan
state. -/
def fillRow (config : Config) (layerY : ℚ) : List Item → Nat → RowScan → List Item × RowScan
  | [], _, st => ([], st)
  | item :: rest, i, st =>
    let r := scanItem config layerY i item st
    let rs := fillRow config layerY rest (i + 1) r.2
    (r.1 :: rs.1, rs.2)

/-- The scan state at the top of the `while (palletActive)` body (lines 148-152). -/
def newRow (totalWeight : ℚ) : RowScan :=
  { rowItems := [], rowWidthUsed := 0, rowMaxHeight := 0, rowMaxLength := 0,
    isVerticalRow := false, totalWeight := totalWeight }

/-! ## Row placement and framing (lines 207-294) -/

/-- The cradle-point loop `for (let z = 0; z <= frameLen; z += framingSpacing)`
(lines 238-280), started at `z` with `fuel` iterations allowed. -/
def cradleLoop (config : Config) (frameLen pocketHeight zStartGlobal leftPostX rightPostX
    layerY : ℚ) : Nat → ℚ → Option (List Lumber)
  | 0, z => if z ≤ frameLen then none else some []
  | fuel + 1, z =>
    if z ≤ frameLen then
      let zPos := zStartGlobal + z
      let posts : List Lumber :=
        [ createLumber "post" config.lumberWidth pocketHeight config.lumberWidth
            leftPostX (layerY + pocketHeight / 2) zPos,
          createLumber "post" config.lumberWidth pocketHeight config.lumberWidth
            rightPostX (layerY + pocketHeight / 2) zPos,
          createLumber "rung" ((rightPostX - leftPostX) + config.lumberWidth)
            config.lumberThick config.lumberWidth
            ((leftPostX + rightPostX) / 2) (layerY + pocketHeight) zPos ]
      let nextZ := zStartGlobal + z + config.framingSpacing
      let braces : List Lumber :=
        if config.addBracing = true ∧ z + config.framingSpacing ≤ frameLen then
          [ Lumber.diagonal ⟨leftPostX, layerY, zPos⟩ ⟨leftPostX, layerY + pocketHeight, nextZ⟩
              config.lumberWidth config.lumberThick,
            Lumber.diagonal ⟨rightPostX, layerY, zPos⟩ ⟨rightPostX, layerY + pocketHeight, nextZ⟩
              config.lumberWidth config.lumberThick ]
        else []
      match cradleLoop config frameLen pocketHeight zStartGlobal leftPostX rightPostX layerY
          fuel (z + config.framingSpacing) with
      | none => none
      | some more => some (posts ++ braces ++ more)
    else some []

/-- The framing block of one row item (lines 229-287): nothing for a standing
item, the cradle pieces followed by the two rails for a flat one. -/
def framing (config : Config) (fuel : Nat) (layerY itemX : ℚ) (ri : RowItem) :
    Option (List Lumber) :=
  if ri.vertical then some []
  else
    let frameLen := ri.dims.z
    let pocketHeight := ri.dims.y + config.lumberThick
    let zStartGlobal := (config.palletLength - frameLen) / 2
    let leftPostX := itemX - config.lumberWidth / 2
    let rightPostX := itemX + ri.dims.x + config.lumberWidth / 2
    match cradleLoop config frameLen pocketHeight zStartGlobal leftPostX rightPostX layerY
        fuel 0 with
    | none => none
    | some cradle =>
      some (cradle ++
        [ createLumber "rail" config.lumberWidth config.lumberThick frameLen leftPostX
            (layerY + pocketHeight + config.lumberThick) (config.palletLength / 2),
          createLumber "rail" config.lumberWidth config.lumberThick frameLen rightPostX
            (layerY + pocketHeight + config.lumberThick) (config.palletLength / 2) ])

/-- The `itemX` of lines 212-215 for a row item met at cursor `currentX`. -/
def itemX (config : Config) (currentX : ℚ) (ri : RowItem) : ℚ :=
  if ri.vertical then currentX else currentX + config.lumberWidth

/-- The object pushed on `pallet.items` (lines 217-226). -/
def placedItem (config : Config) (layerY currentX : ℚ) (ri : RowItem) : PlacedItem :=
  { ri.item with
    position := ⟨itemX config currentX ri + ri.dims.x / 2, layerY + ri.dims.y / 2,
      config.palletLength / 2⟩
    rotation := ⟨0, 0, 0⟩
    finalDims := ri.dims }

/-- The cursor `currentX` after a row item (lines 289-293). -/
def advanceX (config : Config) (currentX : ℚ) (ri : RowItem) : ℚ :=
  if ri.vertical then currentX + ri.dims.x + 0.5
  else currentX + ri.dims.x + config.lumberWidth

/-- The `rowItems.forEach` of lines 211-294, started with cursor `currentX`:
the placed items and the wood pieces it pushes, in order. -/
def placeRow (config : Config) (fuel : Nat) (layerY : ℚ) :
    List RowItem → ℚ → Option (List PlacedItem × List Lumber)
  | [], _ => some ([], [])
  | ri :: rest, currentX =>
    match framing config fuel layerY (itemX config currentX ri) ri with
    | none => none
    | some wood =>
      match placeRow config fuel layerY rest (advanceX config currentX ri) with
      | none => none
      | some (ps, ws) => some (placedItem config layerY currentX ri :: ps, wood ++ ws)

/-! ## Crate builder (lines 147-304) and scheduler (lines 128-334) -/

/-- The row cursor `startX` of line 208. -/
def startX (config : Config) (row : RowScan) : ℚ :=
  (config.palletWidth - row.rowWidthUsed) / 2

/-- The height cursor `layerY` after a placed row (lines 296-300). -/
def nextLayerY (config : Config) (layerY : ℚ) (row : RowScan) : ℚ :=
  if row.isVerticalRow then layerY + row.rowMaxHeight
  else layerY + (row.rowMaxHeight + config.lumberThick * 2)

/-- The crate after a row has been placed: the pushes of lines 221 and 242-286,
the weight committed during the scan (line 201) and `currentHeight` (line 302). -/
def withRow (pallet : Pallet) (ps : List PlacedItem) (ws : List Lumber) (row : RowScan)
    (layerY1 : ℚ) : Pallet :=
  { pallet with
    items := pallet.items ++ ps
    woodFrames := pallet.woodFrames ++ ws
    totalWeight := row.totalWeight
    currentHeight := layerY1 }

/-- The loop `while (palletActive)` (lines 147-304) with `n` iterations
allowed; `fuel` bounds each cradle-point loop. Returns the queue with its new
flags and the finished crate. -/
def palletLoop (config : Config) (fuel : Nat) :
    Nat → List Item → Pallet → ℚ → Option (List Item × Pallet)
  | 0, _, _, _ => none
  | n + 1, queue, pallet, layerY =>
    let r := fillRow config layerY queue 0 (newRow pallet.totalWeight)
    if r.2.rowItems.length = 0 then some (r.1, pallet)
    else
      match placeRow config fuel layerY r.2.rowItems (startX config r.2) with
      | none => none
      | some (ps, ws) =>
        palletLoop config fuel n r.1 (withRow pallet ps ws r.2 (nextLayerY config layerY r.2))
          (nextLayerY config layerY r.2)

/-- The fresh crate of lines 129-145: empty, with its three base runners. -/
def newPallet (config : Config) (newPallets : List Pallet) : Pallet :=
  { id := newPallets.length + 1
    items := []
    woodFrames := [0.2, 0.5, 0.8].map fun factor =>
      createLumber "base-runner" config.lumberWidth config.lumberThick config.palletLength
        (config.palletWidth * factor) (config.lumberThick / 2) (config.palletLength / 2)
    totalWeight := 0
    currentHeight := 0 }

/-- The loop `while (currentItemIndex < sortedQueue.length)` (lines 128-334)
with `passes` iterations allowed; `currentItemIndex` is never written and stays
`0`. `fuel` bounds every inner loop. -/
def crateLoop (config : Config) (fuel : Nat) :
    Nat → List Item → List Pallet → Option Result
  | 0, queue, newPallets => if 0 < queue.length then none else some ⟨newPallets, []⟩
  | passes + 1, queue, newPallets =>
    if 0 < queue.length then
      match palletLoop config fuel fuel queue (newPallet config newPallets) config.lumberThick with
      | none => none
      | some (queue1, pallet) =>
        let remaining := queue1.filter fun i => !i.isPlaced
        if remaining.length = queue1.length then some ⟨newPallets, [fitFailure]⟩
        else if remaining.length = 0 then some ⟨newPallets ++ [pallet], []⟩
        else crateLoop config fuel passes remaining (newPallets ++ [pallet])
    else some ⟨newPallets, []⟩

/-- The function `runOptimization` (lines 111-338) on the loaded list `items`,
allowed `passes` crate-building passes and `fuel` iterations of every inner
loop. On an empty list it returns at once without touching the state. -/
def runOptimization (passes fuel : Nat) (config : Config) (items : List Item) : Option Result :=
  if items.length = 0 then some ⟨[], []⟩
  else crateLoop config fuel passes (sortedQueue items) []

/-! ## Acceptance test, accounting and the predicates of the statements -/

/-- The conjunction of the tests an unplaced queue entry passes to be accepted
into the row (lines 157-192). -/
def Accepts (config : Config) (layerY : ℚ) (item : Item) (st : RowScan) : Prop :=
  item.isPlaced = false ∧
  st.totalWeight + item.weight ≤ config.maxWeight ∧
  (vertical config item = true → layerY ≤ config.lumberThick) ∧
  (st.rowItems ≠ [] → st.isVerticalRow = vertical config item) ∧
  (vertical config item = false → (dims config item).z ≤ effLength config) ∧
  layerY + (dims config item).y ≤ config.maxHeight ∧
  st.rowWidthUsed + itemFootprintWidth config st.rowItems.length item ≤ effWidth config

/-- The scan state after `item` has been accepted at index `i`. -/
def acceptState (config : Config) (i : Nat) (item : Item) (st : RowScan) : RowScan :=
  { rowItems := st.rowItems ++ [⟨i, markPlaced item, dims config item, vertical config item⟩]
    rowWidthUsed := st.rowWidthUsed + itemFootprintWidth config st.rowItems.length item
    rowMaxHeight := max st.rowMaxHeight (dims config item).y
    rowMaxLength := max st.rowMaxLength (dims config item).z
    isVerticalRow := vertical config item
    totalWeight := st.totalWeight + item.weight }

/-- The summed footprint of a row as the accounting of lines 181-188 counts it:
`dims.x` plus two `lumberWidth` for the first flat item, one `lumberWidth` for
each later flat item, and `0.5` for each standing item. `flatSeen` tells
whether a flat item came earlier. -/
def footprintSum (config : Config) : Bool → List RowItem → ℚ
  | _, [] => 0
  | flatSeen, ri :: rest =>
    if ri.vertical then ri.dims.x + 0.5 + footprintSum config flatSeen rest
    else ri.dims.x + (if flatSeen then config.lumberWidth else config.lumberWidth * 2)
      + footprintSum config true rest

/-- What holds of the scan state throughout a row scan that started from
`newRow w0` at height `layerY`. -/
structure RowInv (config : Config) (layerY w0 : ℚ) (st : RowScan) : Prop where
  weight : st.totalWeight = w0 + (st.rowItems.map fun ri => ri.item.weight).sum
  width : st.rowWidthUsed = footprintSum config false st.rowItems
  fits : st.rowItems ≠ [] → st.rowWidthUsed ≤ effWidth config
  homogeneous : ∀ ri ∈ st.rowItems, ri.vertical = st.isVerticalRow
  capped : w0 ≤ config.maxWeight → st.totalWeight ≤ config.maxWeight
  heightNonneg : 0 ≤ st.rowMaxHeight
  entries : ∀ ri ∈ st.rowItems, ri.dims = dims config ri.item ∧
    ri.vertical = vertical config ri.item ∧ ri.item.isPlaced = true ∧
    layerY + ri.dims.y ≤ config.maxHeight ∧
    (ri.vertical = true → layerY ≤ config.lumberThick) ∧
    ri.dims.y ≤ st.rowMaxHeight

/-- The entries of a queue that are not flagged placed: the array `remaining`
of line 320 and the array `nextQueue` of lines 327-330. -/
def unplaced (queue : List Item) : List Item := queue.filter fun i => !i.isPlaced

/-- All placed items of a list of crates, crate after crate. -/
def placedItems (pallets : List Pallet) : List PlacedItem := pallets.flatMap Pallet.items

/-- The order the seeding is meant to give between an earlier item `a` and a
later item `b`: if the lengths differ by more than 5 then `a` is the longer
one, otherwise `a` is at least as heavy. -/
def SeededBefore (a b : Item) : Prop :=
  if |a.length - b.length| > 5 then a.length > b.length else a.weight ≥ b.weight

instance (a b : Item) : Decidable (SeededBefore a b) := by
  unfold SeededBefore
  infer_instance

/-- An item with positive dimensions. -/
def PositiveDims (i : Item) : Prop := 0 < i.height ∧ 0 < i.width ∧ 0 < i.length

/-- An item with positive dimensions and weight, as the ingestion is to deliver. -/
def Positive (i : Item) : Prop := PositiveDims i ∧ 0 < i.weight

/-- The item passes the tests of the row scan as the first item of the first
row of an empty crate, in the orientation the selection rule gives it: its
weight does not exceed `maxWeight`, `lumberThick` plus its occupied height does
not exceed `maxHeight`, its footprint width with the first-item allowance does
not exceed `effWidth`, and, when flat, its depth does not exceed `effLength`. -/
def FitsAlone (config : Config) (item : Item) : Prop :=
  ¬ (item.weight > config.maxWeight) ∧
  ¬ (config.lumberThick + (dims config item).y > config.maxHeight) ∧
  ¬ (itemFootprintWidth config 0 item > effWidth config) ∧
  ¬ (vertical config item = false ∧ (dims config item).z > effLength config)

instance (config : Config) (item : Item) : Decidable (FitsAlone config item) := by
  unfold FitsAlone
  infer_instance

instance (i : Item) : Decidable (PositiveDims i) := by
  unfold PositiveDims
  infer_instance

instance (i : Item) : Decidable (Positive i) := by
  unfold Positive
  infer_instance

/-- What holds of the scan state when the unplaced queue entries are positive,
`lumberWidth` is not negative, the crate weight is not negative and the height
cursor is not below `lumberThick`. -/
structure RowPos (config : Config) (st : RowScan) : Prop where
  weightNonneg : 0 ≤ st.totalWeight
  widthNonneg : 0 ≤ st.rowWidthUsed
  flatWidth : st.rowItems ≠ [] → st.isVerticalRow = false →
    config.lumberWidth ≤ st.rowWidthUsed
  fitAlone : ∀ ri ∈ st.rowItems, FitsAlone config ri.item

/-! ## Sample data (lines 13-24 and 41-46) and sample inputs -/

/-- The default configuration of lines 13-24. -/
def defaultConfig : Config :=
  { palletLength := 250, palletWidth := 84, maxHeight := 80, maxWeight := 2500,
    safetyGap := 1.0, framingSpacing := 48, lumberWidth := 3.5, lumberThick := 1.5,
    addBracing := true, allowVertical := true }

/-- A freshly loaded unit item of a manifest line with quantity one. -/
def unitItem (itemNumber : String) (height width length weight : ℚ) : Item :=
  { itemNumber := itemNumber, height := height, width := width, length := length,
    weight := weight, qty := 1, uniqueId := itemNumber ++ "-0", colorIndex := 0,
    isPlaced := false }

/-- Three items whose comparator outcomes form a cycle: each is within 5 of the
next in length, the first and the last are 8 apart, and the shorter ones are
heavier. -/
def cyclicItems : List Item :=
  [unitItem "C" 4 4 2 3, unitItem "B" 4 4 6 2, unitItem "A" 4 4 10 1]

/-- The default configuration with the post spacing set to zero. -/
def zeroSpacingConfig : Config := { defaultConfig with framingSpacing := 0 }

/-- The first unit of the demo manifest line `PIPE-240-HVY` (line 42). -/
def pipeItem : Item := unitItem "PIPE-240-HVY" 4.5 4.5 240 180

/-- What the first run on the single item `pipeItem` returns. -/
def firstRun : Result := (runOptimization 1 6 defaultConfig [pipeItem]).getD ⟨[], []⟩

/-- Three unit items of the demo manifest (lines 42-45). -/
def sampleItems : List Item :=
  [unitItem "PIPE-240-HVY" 4.5 4.5 240 180, unitItem "SHORT-POST-60" 4 4 60 45,
    unitItem "CURVED-96" 8 12 96 65]

/-- What the run on `sampleItems` under the default configuration returns. -/
def sampleRun : Result := (runOptimization 3 6 defaultConfig sampleItems).getD ⟨[], []⟩

/-- The first crate-building pass of the run on `sampleItems`. -/
def samplePass : List Item × Pallet :=
  (palletLoop defaultConfig 6 6 (sortedQueue sampleItems) (newPallet defaultConfig [])
    defaultConfig.lumberThick).getD ([], newPallet defaultConfig [])

/-- The pipe of the demo manifest and an item too wide for the pallet. -/
def wideItems : List Item :=
  [unitItem "PIPE-240-HVY" 4.5 4.5 240 180, unitItem "WIDE" 100 90 240 50]

/-- What the run on `wideItems` under the default configuration returns. -/
def wideRun : Result := (runOptimization 2 6 defaultConfig wideItems).getD ⟨[], []⟩

/-- The default configuration with the height limit raised to 200. -/
def tallConfig : Config := { defaultConfig with maxHeight := 200 }

/-- An item wider than the effective pallet width (100 against 82) and 4 high. -/
def turnedItem : Item := unitItem "WIDE-100" 4 100 240 50

/-- What the run on the single item `turnedItem` under `tallConfig` returns. -/
def turnedRun : Result := (runOptimization 1 6 tallConfig [turnedItem]).getD ⟨[], []⟩

/-- A flat item that reaches almost to the height limit: width 78, height 8. -/
def tallItem : Item := unitItem "TALL-78" 8 78 96 65

/-- Fifteen units of the demo manifest line `SHORT-POST-60` (line 44). -/
def postItems : List Item := List.replicate 15 (unitItem "SHORT-POST-60" 4 4 60 45)

/-- The left end `position.x - finalDims.x / 2` of a placed item's x interval. -/
def leftEdge (p : PlacedItem) : ℚ := p.position.x - p.finalDims.x / 2

/-- The right end `position.x + finalDims.x / 2` of a placed item's x interval. -/
def rightEdge (p : PlacedItem) : ℚ := p.position.x + p.finalDims.x / 2

/-- The lower end `position.y - finalDims.y / 2` of a placed item's y interval. -/
def bottomFace (p : PlacedItem) : ℚ := p.position.y - p.finalDims.y / 2

/-- The upper end `position.y + finalDims.y / 2` of a placed item's y interval. -/
def topFace (p : PlacedItem) : ℚ := p.position.y + p.finalDims.y / 2

/-- Two closed intervals `[lo1, hi1]` and `[lo2, hi2]` (each with `lo ≤ hi`)
have no point in common. -/
def ClosedDisjoint (lo1 hi1 lo2 hi2 : ℚ) : Prop := hi1 < lo2 ∨ hi2 < lo1

instance (lo1 hi1 lo2 hi2 : ℚ) : Decidable (ClosedDisjoint lo1 hi1 lo2 hi2) := by
  unfold ClosedDisjoint
  infer_instance

/-- The number `floor (d / framingSpacing) + 1` of cradle points along a depth
`d`. -/
def cradleCount (config : Config) (d : ℚ) : Nat := ⌊d / config.framingSpacing⌋₊ + 1

/-- The wood piece is an axis-aligned box with the type tag `kind`. -/
def isKind (kind : String) : Lumber → Bool
  | Lumber.box type _ _ => type == kind
  | Lumber.diagonal _ _ _ _ => false

/-- The wood piece is a diagonal brace. -/
def isDiagonal : Lumber → Bool
  | Lumber.box _ _ _ => false
  | Lumber.diagonal _ _ _ _ => true

/-- The depth `pos.z` at which a post or a rung sits; nothing for other pieces. -/
def cradleDepth : Lumber → Option ℚ
  | Lumber.box type _ pos => if type = "post" ∨ type = "rung" then some pos.z else none
  | Lumber.diagonal _ _ _ _ => none

/-- One unit of the demo manifest line `PIPE-120-STD` (line 43). -/
def halfPipe : Item := unitItem "PIPE-120-STD" 4 4 120 80

/-- A single item wider than the default effective width 82 whose width (90) is
below its height (100), so the flat orientation keeps the width across. -/
def overWideItem : Item := unitItem "WIDE" 100 90 240 50

/-- The row entry the scan makes for `pipeItem` under the default
configuration: flat, 4.5 wide, 4.5 high, 240 deep. -/
def pipeRowItem : RowItem := ⟨0, markPlaced pipeItem, dims defaultConfig pipeItem, false⟩

/-- The row entry the scan makes for `halfPipe` under the default
configuration: flat, 4 wide, 4 high, 120 deep. -/
def halfRowItem : RowItem := ⟨0, markPlaced halfPipe, dims defaultConfig halfPipe, false⟩

/-! ## Binary64 arithmetic

JavaScript numbers are IEEE 754 binary64 values and every arithmetic operator
rounds its exact result to the nearest one, ties to the even significand. The
definitions below model that rounding on `ℚ` for the normal range (53-bit
significand, unbounded exponent): overflow to `Infinity`, gradual underflow and
`NaN` are outside the model. -/

/-- Round to the nearest integer, a tie going to the even one. -/
def roundHalfEven (q : ℚ) : ℤ :=
  if q - ⌊q⌋ < 1 / 2 then ⌊q⌋
  else if 1 / 2 < q - ⌊q⌋ then ⌊q⌋ + 1
  else if ⌊q⌋ % 2 = 0 then ⌊q⌋ else ⌊q⌋ + 1

/-- The number of halvings that bring `n` below 2, with `fuel` halvings
allowed: `⌊log₂ n⌋` for `1 ≤ n ≤ fuel`. -/
def log2Fuel : Nat → Nat → Nat
  | 0, _ => 0
  | fuel + 1, n => if n < 2 then 0 else log2Fuel fuel (n / 2) + 1

/-- The binary exponent of a positive rational `q = a / b`: the `e` with
`2 ^ e ≤ q < 2 ^ (e + 1)`, which is `⌊log₂ a⌋ - ⌊log₂ b⌋` or one less. -/
def binade (q : ℚ) : ℤ :=
  if q.den * 2 ^ log2Fuel q.num.natAbs q.num.natAbs ≤ q.num.natAbs * 2 ^ log2Fuel q.den q.den
  then (log2Fuel q.num.natAbs q.num.natAbs : ℤ) - (log2Fuel q.den q.den : ℤ)
  else (log2Fuel q.num.natAbs q.num.natAbs : ℤ) - (log2Fuel q.den q.den : ℤ) - 1

/-- The nearest double to a non-negative rational: with `e` the binary exponent
of `q`, `q` is rounded to a multiple of `2 ^ (e - 52)`. -/
def flAbs (q : ℚ) : ℚ :=
  if q = 0 then 0
  else (roundHalfEven (q / 2 ^ (binade q - 52)) : ℚ) * 2 ^ (binade q - 52)

/-- The nearest double to a rational (round to nearest, ties to even); it is
what a decimal literal or an input field parsed by `Number` denotes, and what
each arithmetic operator returns for its exact result. -/
def fl (q : ℚ) : ℚ := if q < 0 then -flAbs (-q) else flAbs q

/-- The rational is a double. -/
def IsDouble (q : ℚ) : Prop := fl q = q

instance (q : ℚ) : Decidable (IsDouble q) := by
  unfold IsDouble
  infer_instance

/-- The operator `+` on doubles. -/
def add64 (a b : ℚ) : ℚ := fl (a + b)

/-- The operator `-` on doubles. -/
def sub64 (a b : ℚ) : ℚ := fl (a - b)

/-- The operator `*` on doubles. -/
def mul64 (a b : ℚ) : ℚ := fl (a * b)

/-- The operator `/` on doubles (the code divides by the literal 2 only). -/
def div64 (a b : ℚ) : ℚ := fl (a / b)

/-! ## The engine in binary64 arithmetic

The same functions as above with every arithmetic operator of the source
replaced by its rounding counterpart, in the evaluation order of JavaScript
(`a += b + c` adds `b + c` first). Comparisons, `Math.max`, `Math.abs` and
copies are exact. The orientation rule `vertical`, `dims` has no arithmetic and
is shared with the exact embedding. -/

/-- The constant `effWidth` (line 123) in doubles. -/
def effWidth64 (config : Config) : ℚ := sub64 config.palletWidth (mul64 config.safetyGap 2)

/-- The constant `effLength` (line 124) in doubles. -/
def effLength64 (config : Config) : ℚ := sub64 config.palletLength (mul64 config.safetyGap 2)

/-- The comparator passed to `sort` (lines 115-118) in doubles. -/
def compareItems64 (a b : Item) : ℚ :=
  if |sub64 b.length a.length| > 5 then sub64 b.length a.length else sub64 b.weight a.weight

/-- The array `sortedQueue` of line 115 under the comparator in doubles, as a
stable insertion sort. The statements about the binary64 engine use only that
the result holds the same items; where the order matters they are stated for
every order of the queue. -/
def sortedQueue64 (items : List Item) : List Item :=
  items.insertionSort (fun a b => compareItems64 a b ≤ 0)

/-- The value `itemFootprintWidth` of lines 181-188 in doubles. -/
def itemFootprintWidth64 (config : Config) (rowLength : Nat) (item : Item) : ℚ :=
  if vertical config item then add64 (dims config item).x 0.5
  else if rowLength = 0 then add64 (dims config item).x (mul64 config.lumberWidth 2)
  else add64 (dims config item).x config.lumberWidth

/-- One iteration of the row-filling loop (lines 156-201) in doubles. -/
def scanItem64 (config : Config) (layerY : ℚ) (i : Nat) (item : Item) (st : RowScan) :
    Item × RowScan :=
  if item.isPlaced then (item, st)
  else if add64 st.totalWeight item.weight > config.maxWeight then (item, st)
  else if vertical config item = true ∧ layerY > config.lumberThick then (item, st)
  else if st.rowItems.length > 0 ∧ st.isVerticalRow ≠ vertical config item then (item, st)
  else
    let st1 : RowScan :=
      if st.rowItems.length = 0 then { st with isVerticalRow := vertical config item } else st
    let fp := itemFootprintWidth64 config st.rowItems.length item
    if (dims config item).z > effLength64 config ∧ vertical config item = false then (item, st1)
    else if add64 layerY (dims config item).y > config.maxHeight then (item, st1)
    else if add64 st1.rowWidthUsed fp > effWidth64 config then (item, st1)
    else
      let placed : Item := markPlaced item
      (placed,
        { rowItems := st1.rowItems ++ [⟨i, placed, dims config item, vertical config item⟩]
          rowWidthUsed := add64 st1.rowWidthUsed fp
          rowMaxHeight := max st1.rowMaxHeight (dims config item).y
          rowMaxLength := max st1.rowMaxLength (dims config item).z
          isVerticalRow := st1.isVerticalRow
          totalWeight := add64 st1.totalWeight item.weight })

/-- The row-filling `for` loop (lines 155-202) in doubles. -/
def fillRow64 (config : Config) (layerY : ℚ) :
    List Item → Nat → RowScan → List Item × RowScan
  | [], _, st => ([], st)
  | item :: rest, i, st =>
    let r := scanItem64 config layerY i item st
    let rs := fillRow64 config layerY rest (i + 1) r.2
    (r.1 :: rs.1, rs.2)

/-- The cradle-point loop `for (let z = 0; z <= frameLen; z += framingSpacing)`
(lines 238-280) in doubles, started at `z` with `fuel` iterations allowed. -/
def cradleLoop64 (config : Config) (frameLen pocketHeight zStartGlobal leftPostX rightPostX
    layerY : ℚ) : Nat → ℚ → Option (List Lumber)
  | 0, z => if z ≤ frameLen then none else some []
  | fuel + 1, z =>
    if z ≤ frameLen then
      let zPos := add64 zStartGlobal z
      let posts : List Lumber :=
        [ createLumber "post" config.lumberWidth pocketHeight config.lumberWidth
            leftPostX (add64 layerY (div64 pocketHeight 2)) zPos,
          createLumber "post" config.lumberWidth pocketHeight config.lumberWidth
            rightPostX (add64 layerY (div64 pocketHeight 2)) zPos,
          createLumber "rung" (add64 (sub64 rightPostX leftPostX) config.lumberWidth)
            config.lumberThick config.lumberWidth
            (div64 (add64 leftPostX rightPostX) 2) (add64 layerY pocketHeight) zPos ]
      let nextZ := add64 (add64 zStartGlobal z) config.framingSpacing
      let braces : List Lumber :=
        if config.addBracing = true ∧ add64 z config.framingSpacing ≤ frameLen then
          [ Lumber.diagonal ⟨leftPostX, layerY, zPos⟩
              ⟨leftPostX, add64 layerY pocketHeight, nextZ⟩
              config.lumberWidth config.lumberThick,
            Lumber.diagonal ⟨rightPostX, layerY, zPos⟩
              ⟨rightPostX, add64 layerY pocketHeight, nextZ⟩
              config.lumberWidth config.lumberThick ]
        else []
      match cradleLoop64 config frameLen pocketHeight zStartGlobal leftPostX rightPostX layerY
          fuel (add64 z config.framingSpacing) with
      | none => none
      | some more => some (posts ++ braces ++ more)
    else some []

/-- The framing block of one row item (lines 229-287) in doubles. -/
def framing64 (config : Config) (fuel : Nat) (layerY itemX : ℚ) (ri : RowItem) :
    Option (List Lumber) :=
  if ri.vertical then some []
  else
    let frameLen := ri.dims.z
    let pocketHeight := add64 ri.dims.y config.lumberThick
    let zStartGlobal := div64 (sub64 config.palletLength frameLen) 2
    let leftPostX := sub64 itemX (div64 config.lumberWidth 2)
    let rightPostX := add64 (add64 itemX ri.dims.x) (div64 config.lumberWidth 2)
    match cradleLoop64 config frameLen pocketHeight zStartGlobal leftPostX rightPostX layerY
        fuel 0 with
    | none => none
    | some cradle =>
      some (cradle ++
        [ createLumber "rail" config.lumberWidth config.lumberThick frameLen leftPostX
            (add64 (add64 layerY pocketHeight) config.lumberThick)
            (div64 config.palletLength 2),
          createLumber "rail" config.lumberWidth config.lumberThick frameLen rightPostX
            (add64 (add64 layerY pocketHeight) config.lumberThick)
            (div64 config.palletLength 2) ])

/-- The `itemX` of lines 212-215 in doubles. -/
def itemX64 (config : Config) (currentX : ℚ) (ri : RowItem) : ℚ :=
  if ri.vertical then currentX else add64 currentX config.lumberWidth

/-- The object pushed on `pallet.items` (lines 217-226) in doubles. -/
def placedItem64 (config : Config) (layerY currentX : ℚ) (ri : RowItem) : PlacedItem :=
  { ri.item with
    position := ⟨add64 (itemX64 config currentX ri) (div64 ri.dims.x 2),
      add64 layerY (div64 ri.dims.y 2), div64 config.palletLength 2⟩
    rotation := ⟨0, 0, 0⟩
    finalDims := ri.dims }

/-- The cursor `currentX` after a row item (lines 289-293) in doubles. -/
def advanceX64 (config : Config) (currentX : ℚ) (ri : RowItem) : ℚ :=
  if ri.vertical then add64 currentX (add64 ri.dims.x 0.5)
  else add64 currentX (add64 ri.dims.x config.lumberWidth)

/-- The `rowItems.forEach` of lines 211-294 in doubles. -/
def placeRow64 (config : Config) (fuel : Nat) (layerY : ℚ) :
    List RowItem → ℚ → Option (List PlacedItem × List Lumber)
  | [], _ => some ([], [])
  | ri :: rest, currentX =>
    match framing64 config fuel layerY (itemX64 config currentX ri) ri with
    | none => none
    | some wood =>
      match placeRow64 config fuel layerY rest (advanceX64 config currentX ri) with
      | none => none
      | some (ps, ws) => some (placedItem64 config layerY currentX ri :: ps, wood ++ ws)

/-- The row cursor `startX` of line 208 in doubles. -/
def startX64 (config : Config) (row : RowScan) : ℚ :=
  div64 (sub64 config.palletWidth row.rowWidthUsed) 2

/-- The height cursor `layerY` after a placed row (lines 296-300) in doubles. -/
def nextLayerY64 (config : Config) (layerY : ℚ) (row : RowScan) : ℚ :=
  if row.isVerticalRow then add64 layerY row.rowMaxHeight
  else add64 layerY (add64 row.rowMaxHeight (mul64 config.lumberThick 2))

/-- The loop `while (palletActive)` (lines 147-304) in doubles. -/
def palletLoop64 (config : Config) (fuel : Nat) :
    Nat → List Item → Pallet → ℚ → Option (List Item × Pallet)
  | 0, _, _, _ => none
  | n + 1, queue, pallet, layerY =>
    let r := fillRow64 config layerY queue 0 (newRow pallet.totalWeight)
    if r.2.rowItems.length = 0 then some (r.1, pallet)
    else
      match placeRow64 config fuel layerY r.2.rowItems (startX64 config r.2) with
      | none => none
      | some (ps, ws) =>
        palletLoop64 config fuel n r.1
          (withRow pallet ps ws r.2 (nextLayerY64 config layerY r.2))
          (nextLayerY64 config layerY r.2)

/-- The fresh crate of lines 129-145 in doubles; the factors are the doubles the
literals `0.2`, `0.5`, `0.8` denote. -/
def newPallet64 (config : Config) (newPallets : List Pallet) : Pallet :=
  { id := newPallets.length + 1
    items := []
    woodFrames := [fl 0.2, fl 0.5, fl 0.8].map fun factor =>
      createLumber "base-runner" config.lumberWidth config.lumberThick config.palletLength
        (mul64 config.palletWidth factor) (div64 config.lumberThick 2)
        (div64 config.palletLength 2)
    totalWeight := 0
    currentHeight := 0 }

/-- The loop `while (currentItemIndex < sortedQueue.length)` (lines 128-334) in
doubles. -/
def crateLoop64 (config : Config) (fuel : Nat) :
    Nat → List Item → List Pallet → Option Result
  | 0, queue, newPallets => if 0 < queue.length then none else some ⟨newPallets, []⟩
  | passes + 1, queue, newPallets =>
    if 0 < queue.length then
      match palletLoop64 config fuel fuel queue (newPallet64 config newPallets)
          config.lumberThick with
      | none => none
      | some (queue1, pallet) =>
        let remaining := queue1.filter fun i => !i.isPlaced
        if remaining.length = queue1.length then some ⟨newPallets, [fitFailure]⟩
        else if remaining.length = 0 then some ⟨newPallets ++ [pallet], []⟩
        else crateLoop64 config fuel passes remaining (newPallets ++ [pallet])
    else some ⟨newPallets, []⟩

/-- The function `runOptimization` (lines 111-338) in doubles, allowed `passes`
crate-building passes and `fuel` iterations of every inner loop. -/
def runOptimization64 (passes fuel : Nat) (config : Config) (items : List Item) :
    Option Result :=
  if items.length = 0 then some ⟨[], []⟩
  else crateLoop64 config fuel passes (sortedQueue64 items) []

/-- The conjunction of the tests an unplaced queue entry passes in the binary64
engine to be accepted into the row (lines 157-192). -/
def Accepts64 (config : Config) (layerY : ℚ) (item : Item) (st : RowScan) : Prop :=
  item.isPlaced = false ∧
  add64 st.totalWeight item.weight ≤ config.maxWeight ∧
  (vertical config item = true → layerY ≤ config.lumberThick) ∧
  (st.rowItems ≠ [] → st.isVerticalRow = vertical config item) ∧
  (vertical config item = false → (dims config item).z ≤ effLength64 config) ∧
  add64 layerY (dims config item).y ≤ config.maxHeight ∧
  add64 st.rowWidthUsed (itemFootprintWidth64 config st.rowItems.length item)
    ≤ effWidth64 config

/-- The scan state of the binary64 engine after `item` has been accepted at
index `i`. -/
def acceptState64 (config : Config) (i : Nat) (item : Item) (st : RowScan) : RowScan :=
  { rowItems := st.rowItems ++ [⟨i, markPlaced item, dims config item, vertical config item⟩]
    rowWidthUsed := add64 st.rowWidthUsed (itemFootprintWidth64 config st.rowItems.length item)
    rowMaxHeight := max st.rowMaxHeight (dims config item).y
    rowMaxLength := max st.rowMaxLength (dims config item).z
    isVerticalRow := vertical config item
    totalWeight := add64 st.totalWeight item.weight }

/-- The placed items of a row in the binary64 engine, without the wood: the
row items taken in order, the cursor moved on by `advanceX64` after each. -/
def placedRow64 (config : Config) (layerY : ℚ) : List RowItem → ℚ → List PlacedItem
  | [], _ => []
  | ri :: rest, currentX =>
    placedItem64 config layerY currentX ri ::
      placedRow64 config layerY rest (advanceX64 config currentX ri)

/-- What holds of the scan state of the binary64 engine throughout a row scan
at height `layerY` over a queue whose entries satisfy `R`. -/
structure RowOk64 (config : Config) (layerY : ℚ) (R : Item → Prop) (st : RowScan) : Prop where
  heightNonneg : 0 ≤ st.rowMaxHeight
  attained : st.rowMaxHeight = 0 ∨ ∃ ri ∈ st.rowItems, ri.dims.y = st.rowMaxHeight
  entries : ∀ ri ∈ st.rowItems, R ri.item ∧ ri.dims = dims config ri.item ∧
    ri.vertical = vertical config ri.item ∧ ri.vertical = st.isVerticalRow ∧
    add64 layerY ri.dims.y ≤ config.maxHeight ∧
    (ri.vertical = true → layerY ≤ config.lumberThick) ∧
    ri.dims.y ≤ st.rowMaxHeight

/-! ## Predicates and sample inputs for the binary64 engine -/

/-- The default configuration with `maxHeight` typed as 62.9. -/
def lowConfig : Config := { defaultConfig with maxHeight := fl 62.9 }

/-- A post typed with length 61.4 (4 by 4, weight 10); it stands. -/
def post614 : Item := unitItem "POST-61.4" 4 4 (fl 61.4) 10

/-- What the binary64 run on the single item `post614` under `lowConfig`
returns. -/
def lowRun : Result := (runOptimization64 1 6 lowConfig [post614]).getD ⟨[], []⟩

/-- What the binary64 run on the single item `tallItem` under the default
configuration returns. -/
def tallRun64 : Result := (runOptimization64 1 6 defaultConfig [tallItem]).getD ⟨[], []⟩

/-- The default configuration with `palletWidth` 32 and `maxHeight` typed as
33.98. -/
def narrowConfig : Config := { defaultConfig with palletWidth := 32, maxHeight := fl 33.98 }

/-- Two flat items typed as 22.29 by 22.29 by 100 and 7.19 by 7.19 by 100. -/
def narrowItems : List Item :=
  [unitItem "BOX-22.29" (fl 22.29) (fl 22.29) 100 20,
    unitItem "BOX-7.19" (fl 7.19) (fl 7.19) 100 10]

/-- Three posts 40 wide and 4 high whose length is typed as `1e-18`: they
stand, two to a row. -/
def tinyPosts : List Item :=
  [unitItem "PIN-A" 4 40 (fl 1e-18) 3, unitItem "PIN-B" 4 40 (fl 1e-18) 2,
    unitItem "PIN-C" 4 40 (fl 1e-18) 1]

/-- The item's height, width and length are doubles. -/
def DoubleDims (i : Item) : Prop := IsDouble i.height ∧ IsDouble i.width ∧ IsDouble i.length

instance (i : Item) : Decidable (DoubleDims i) := by
  unfold DoubleDims
  infer_instance

/-- The occupied height of the item is not lost when it is added to
`lumberThick` in doubles: the height cursor moves after a first row that holds
the item. -/
def RaisesCursor (config : Config) (i : Item) : Prop :=
  config.lumberThick < add64 config.lumberThick (dims config i).y

instance (config : Config) (i : Item) : Decidable (RaisesCursor config i) := by
  unfold RaisesCursor
  infer_instance

/-- The place the row loop gave a placed item: the x cursor `cx` the item was
met at (`currentX` of line 212) and the height `cy` its row stands on
(`layerY`). -/
structure Slot where
  cx : ℚ
  cy : ℚ
  item : PlacedItem

/-- The `position` lines 212-219 compute in doubles for an item met at the
cursor of its slot: a standing item starts at the cursor, a flat one
`lumberWidth` after it, and the centre lies half the dimension further. -/
def SlotPosition (config : Config) (s : Slot) : Prop :=
  s.item.position =
    ⟨add64 (if vertical config s.item.toItem then s.cx else add64 s.cx config.lumberWidth)
        (div64 s.item.finalDims.x 2),
      add64 s.cy (div64 s.item.finalDims.y 2), div64 config.palletLength 2⟩

/-- The slot of an earlier item `a` ends where or before the slot of a later
item `b` begins: in x when both are on the same row height, the cursor of `b`
being at or past the cursor after `a` (`currentX += dims.x + lumberWidth` for a
flat item, `+ 0.5` for a standing one, lines 289-293); and otherwise in y, the
row height of `b` being at or past the row height of `a` plus its occupied
height. Sums are rounded as the code rounds them. -/
def SlotsApart (config : Config) (a b : Slot) : Prop :=
  (a.cy = b.cy ∧ add64 a.cx (add64 a.item.finalDims.x
      (if vertical config a.item.toItem then 0.5 else config.lumberWidth)) ≤ b.cx) ∨
    add64 a.cy a.item.finalDims.y ≤ b.cy

/-- The boxes of an earlier placed item `a` and a later one `b` are apart up to
rounding: along x or along y, the far face of `a` passes the near face of `b`
by at most one part in `2 ^ 49` of the far face of `b`. -/
def ApartUpToRounding (a b : PlacedItem) : Prop :=
  rightEdge a ≤ leftEdge b + rightEdge b / 2 ^ 49 ∨
    topFace a ≤ bottomFace b + topFace b / 2 ^ 49

instance (a b : PlacedItem) : Decidable (ApartUpToRounding a b) := by
  unfold ApartUpToRounding
  infer_instance

/-- The default configuration with `maxHeight` 63. -/
def config63 : Config := { defaultConfig with maxHeight := 63 }

/-- The standing post typed with length 61.4 and a thin flat bar typed as 0.1
by 0.1 by 63; the post is the heavier and is seeded first. -/
def crossItems : List Item := [post614, unitItem "BAR-63" (fl 0.1) (fl 0.1) 63 5]

/-- What the binary64 run on `crossItems` under `config63` returns. -/
def crossRun : Result := (runOptimization64 2 6 config63 crossItems).getD ⟨[], []⟩

/-- The value of `rowWidthUsed` after the standing items of `queue` have been
added, in queue order, to a row that uses `used`: `rowWidthUsed += width + 0.5`
(lines 187 and 195), each sum rounded. -/
def standingWidth64 (used : ℚ) (queue : List Item) : ℚ :=
  queue.foldl (fun a i => add64 a (add64 i.width 0.5)) used

/-- The value of `pallet.totalWeight` after the items of `queue` have been
added, in queue order (line 201), each sum rounded. -/
def queueWeight64 (total : ℚ) (queue : List Item) : ℚ :=
  queue.foldl (fun a i => add64 a i.weight) total

/-- Twenty-five posts typed as 4 high, 2.78 wide, 60 long, weight 45. -/
def slimPosts : List Item := List.replicate 25 (unitItem "POST-2.78" 4 (fl 2.78) 60 45)

/-- The loop variable `z` of the cradle-point loop of line 238 after `j` steps
in doubles: 0, then `framingSpacing` added `j` times, each sum rounded. -/
def zStep64 (config : Config) : Nat → ℚ
  | 0 => 0
  | j + 1 => add64 (zStep64 config j) config.framingSpacing

/-- The cradle pieces of the `j`-th cradle point, out of `k`, of a flat row
item met at `itemX` in a row standing on `layerY`, with the values that
lines 230-278 compute in doubles: the point lies at the depth `lead + z`, `z`
the loop variable after `j` steps and `lead = (palletLength - dims.z) / 2`; a
left and a right post of height `pocket = dims.y + lumberThick`, centred
`lumberWidth / 2` outside `itemX` and `itemX + dims.x` and at the height
`layerY + pocket / 2`; a rung at the height `layerY + pocket`; and, with
bracing on and a further cradle point behind, a diagonal on each side from this
point's post base (`y = layerY`) to the height `layerY + pocket` of the post
tops at the depth `(lead + z) + framingSpacing` of line 264, which is the next
point's depth `lead + (z + framingSpacing)` up to rounding. -/
def cradleSpecAt64 (config : Config) (layerY itemX : ℚ) (ri : RowItem) (k j : Nat) :
    List Lumber :=
  [ Lumber.box "post"
      ⟨config.lumberWidth, add64 ri.dims.y config.lumberThick, config.lumberWidth⟩
      ⟨sub64 itemX (div64 config.lumberWidth 2),
        add64 layerY (div64 (add64 ri.dims.y config.lumberThick) 2),
        add64 (div64 (sub64 config.palletLength ri.dims.z) 2) (zStep64 config j)⟩,
    Lumber.box "post"
      ⟨config.lumberWidth, add64 ri.dims.y config.lumberThick, config.lumberWidth⟩
      ⟨add64 (add64 itemX ri.dims.x) (div64 config.lumberWidth 2),
        add64 layerY (div64 (add64 ri.dims.y config.lumberThick) 2),
        add64 (div64 (sub64 config.palletLength ri.dims.z) 2) (zStep64 config j)⟩,
    Lumber.box "rung"
      ⟨add64 (sub64 (add64 (add64 itemX ri.dims.x) (div64 config.lumberWidth 2))
          (sub64 itemX (div64 config.lumberWidth 2))) config.lumberWidth,
        config.lumberThick, config.lumberWidth⟩
      ⟨div64 (add64 (sub64 itemX (div64 config.lumberWidth 2))
          (add64 (add64 itemX ri.dims.x) (div64 config.lumberWidth 2))) 2,
        add64 layerY (add64 ri.dims.y config.lumberThick),
        add64 (div64 (sub64 config.palletLength ri.dims.z) 2) (zStep64 config j)⟩ ] ++
  (if config.addBracing = true ∧ j + 1 < k then
    [ Lumber.diagonal
        ⟨sub64 itemX (div64 config.lumberWidth 2), layerY,
          add64 (div64 (sub64 config.palletLength ri.dims.z) 2) (zStep64 config j)⟩
        ⟨sub64 itemX (div64 config.lumberWidth 2),
          add64 layerY (add64 ri.dims.y config.lumberThick),
          add64 (add64 (div64 (sub64 config.palletLength ri.dims.z) 2) (zStep64 config j))
            config.framingSpacing⟩
        config.lumberWidth config.lumberThick,
      Lumber.diagonal
        ⟨add64 (add64 itemX ri.dims.x) (div64 config.lumberWidth 2), layerY,
          add64 (div64 (sub64 config.palletLength ri.dims.z) 2) (zStep64 config j)⟩
        ⟨add64 (add64 itemX ri.dims.x) (div64 config.lumberWidth 2),
          add64 layerY (add64 ri.dims.y config.lumberThick),
          add64 (add64 (div64 (sub64 config.palletLength ri.dims.z) 2) (zStep64 config j))
            config.framingSpacing⟩
        config.lumberWidth config.lumberThick ]
  else [])

/-- The two side rails of a flat row item: as long as the item is deep, one
`lumberThick` above the rungs. -/
def railSpec64 (config : Config) (layerY itemX : ℚ) (ri : RowItem) : List Lumber :=
  [ Lumber.box "rail" ⟨config.lumberWidth, config.lumberThick, ri.dims.z⟩
      ⟨sub64 itemX (div64 config.lumberWidth 2),
        add64 (add64 layerY (add64 ri.dims.y config.lumberThick)) config.lumberThick,
        div64 config.palletLength 2⟩,
    Lumber.box "rail" ⟨config.lumberWidth, config.lumberThick, ri.dims.z⟩
      ⟨add64 (add64 itemX ri.dims.x) (div64 config.lumberWidth 2),
        add64 (add64 layerY (add64 ri.dims.y config.lumberThick)) config.lumberThick,
        div64 config.palletLength 2⟩ ]

/-- The framing of a flat row item with `k` cradle points: their pieces, front
to back, then the two rails. -/
def cradleSpec64 (config : Config) (layerY itemX : ℚ) (ri : RowItem) (k : Nat) : List Lumber :=
  (List.range k).flatMap (cradleSpecAt64 config layerY itemX ri k) ++
    railSpec64 config layerY itemX ri

/-- The default configuration with the post spacing typed as 4.8. -/
def fineConfig : Config := { defaultConfig with framingSpacing := fl 4.8 }

/-- The post the framing pushes at `(x, z)` for a flat row item in a row
standing on `layerY` (lines 242 and 245, in doubles): as high as the pocket
`dims.y + lumberThick`, its centre half a pocket above `layerY`. -/
def postAt64 (config : Config) (layerY : ℚ) (ri : RowItem) (x z : ℚ) : Lumber :=
  Lumber.box "post"
    ⟨config.lumberWidth, add64 ri.dims.y config.lumberThick, config.lumberWidth⟩
    ⟨x, add64 layerY (div64 (add64 ri.dims.y config.lumberThick) 2), z⟩

/-- The depth of the leading edge of a flat row item as line 233 computes it in
doubles: `(palletLength - dims.z) / 2`. -/
def leadDepth64 (config : Config) (ri : RowItem) : ℚ :=
  div64 (sub64 config.palletLength ri.dims.z) 2

/-- What the binary64 run on the single item `halfPipe` under the default
configuration returns. -/
def halfRun64 : Result := (runOptimization64 1 6 defaultConfig [halfPipe]).getD ⟨[], []⟩

/-! ## Facts about one scan step -/

theorem scanItem_of_accepts (config : Config) (layerY : ℚ) (i : Nat) (item : Item)
    (st : RowScan) (h : Accepts config layerY item st) :
    scanItem config layerY i item st = (markPlaced item, acceptState config i item st) := by
  obtain ⟨h1, h2, h3, h4, h5, h6, h7⟩ := h
  have e1 : ¬ (st.totalWeight + item.weight > config.maxWeight) := not_lt.mpr h2
  have e2 : ¬ (vertical config item = true ∧ layerY > config.lumberThick) :=
    fun ⟨a, b⟩ => absurd (h3 a) (not_le.mpr b)
  have e3 : ¬ (st.rowItems.length > 0 ∧ st.isVerticalRow ≠ vertical config item) :=
    fun ⟨a, b⟩ => b (h4 (List.ne_nil_of_length_pos a))
  have e4 : ¬ ((dims config item).z > effLength config ∧ vertical config item = false) :=
    fun ⟨a, b⟩ => absurd (h5 b) (not_le.mpr a)
  have e5 : ¬ (layerY + (dims config item).y > config.maxHeight) := not_lt.mpr h6
  unfold scanItem
  rw [if_neg (by simp [h1]), if_neg e1, if_neg e2, if_neg e3]
  by_cases hl : st.rowItems.length = 0
  · have e6 : ¬ (st.rowWidthUsed + itemFootprintWidth config st.rowItems.length item
        > effWidth config) := not_lt.mpr h7
    simp only [hl, if_true] at e6 ⊢
    rw [if_neg e4, if_neg e5, if_neg e6]
    simp [acceptState, hl]
  · have e6 : ¬ (st.rowWidthUsed + itemFootprintWidth config st.rowItems.length item
        > effWidth config) := not_lt.mpr h7
    have hv : st.isVerticalRow = vertical config item :=
      h4 (fun hn => hl (by simp [hn]))
    simp only [hl, if_false]
    rw [if_neg e4, if_neg e5, if_neg e6]
    simp [acceptState, hv]

theorem scanItem_of_not_accepts (config : Config) (layerY : ℚ) (i : Nat) (item : Item)
    (st : RowScan) (h : ¬ Accepts config layerY item st) :
    (scanItem config layerY i item st).1 = item ∧
    (scanItem config layerY i item st).2.rowItems = st.rowItems ∧
    (scanItem config layerY i item st).2.rowWidthUsed = st.rowWidthUsed ∧
    (scanItem config layerY i item st).2.rowMaxHeight = st.rowMaxHeight ∧
    (scanItem config layerY i item st).2.rowMaxLength = st.rowMaxLength ∧
    (scanItem config layerY i item st).2.totalWeight = st.totalWeight ∧
    (st.rowItems ≠ [] →
      (scanItem config layerY i item st).2.isVerticalRow = st.isVerticalRow) := by
  unfold scanItem
  by_cases c0 : item.isPlaced = true
  · simp [c0]
  rw [if_neg c0]
  by_cases c1 : st.totalWeight + item.weight > config.maxWeight
  · simp [c1]
  rw [if_neg c1]
  by_cases c2 : vertical config item = true ∧ layerY > config.lumberThick
  · simp [c2]
  rw [if_neg c2]
  by_cases c3 : st.rowItems.length > 0 ∧ st.isVerticalRow ≠ vertical config item
  · rw [if_pos c3]; simp
  rw [if_neg c3]
  have hrow : ∀ (b : Bool), (if st.rowItems.length = 0 then
      ({ st with isVerticalRow := b } : RowScan) else st).rowItems = st.rowItems ∧
      (if st.rowItems.length = 0 then
      ({ st with isVerticalRow := b } : RowScan) else st).rowWidthUsed = st.rowWidthUsed ∧
      (if st.rowItems.length = 0 then
      ({ st with isVerticalRow := b } : RowScan) else st).rowMaxHeight = st.rowMaxHeight ∧
      (if st.rowItems.length = 0 then
      ({ st with isVerticalRow := b } : RowScan) else st).rowMaxLength = st.rowMaxLength ∧
      (if st.rowItems.length = 0 then
      ({ st with isVerticalRow := b } : RowScan) else st).totalWeight = st.totalWeight ∧
      (st.rowItems ≠ [] → (if st.rowItems.length = 0 then
      ({ st with isVerticalRow := b } : RowScan) else st).isVerticalRow = st.isVerticalRow) := by
    intro b
    by_cases hl : st.rowItems.length = 0
    · rw [if_pos hl]
      exact ⟨rfl, rfl, rfl, rfl, rfl, fun hn => absurd (List.length_eq_zero.mp hl) hn⟩
    · rw [if_neg hl]
      exact ⟨rfl, rfl, rfl, rfl, rfl, fun _ => rfl⟩
  by_cases c4 : (dims config item).z > effLength config ∧ vertical config item = false
  · rw [if_pos c4]; exact ⟨rfl, hrow _⟩
  rw [if_neg c4]
  by_cases c5 : layerY + (dims config item).y > config.maxHeight
  · rw [if_pos c5]; exact ⟨rfl, hrow _⟩
  rw [if_neg c5]
  by_cases c6 : (if st.rowItems.length = 0 then
      ({ st with isVerticalRow := vertical config item } : RowScan) else st).rowWidthUsed +
      itemFootprintWidth config st.rowItems.length item > effWidth config
  · rw [if_pos c6]; exact ⟨rfl, hrow _⟩
  exfalso
  apply h
  rw [(hrow _).2.1] at c6
  refine ⟨by simpa using c0, not_lt.mp c1, ?_, ?_, ?_, not_lt.mp c5, not_lt.mp c6⟩
  · intro hv
    exact not_lt.mp (fun hlt => c2 ⟨hv, hlt⟩)
  · intro hne
    by_contra hv
    exact c3 ⟨List.length_pos.mpr hne, hv⟩
  · intro hv
    exact not_lt.mp (fun hlt => c4 ⟨hlt, hv⟩)

/-! ## Invariants of the row scan -/

theorem footprintSum_cons (config : Config) (seen : Bool) (t : RowItem) (l : List RowItem) :
    footprintSum config seen (t :: l) =
      if t.vertical then t.dims.x + 0.5 + footprintSum config seen l
      else t.dims.x + (if seen then config.lumberWidth else config.lumberWidth * 2)
        + footprintSum config true l := rfl

theorem footprintSum_append (config : Config) (r : RowItem) :
    ∀ (l : List RowItem) (seen : Bool),
    footprintSum config seen (l ++ [r]) = footprintSum config seen l +
      (if r.vertical then r.dims.x + 0.5
       else r.dims.x + (if (seen || l.any fun t => !t.vertical) then config.lumberWidth
        else config.lumberWidth * 2)) := by
  intro l
  induction l with
  | nil =>
    intro seen
    by_cases hv : r.vertical = true <;> simp [footprintSum, hv]
  | cons t l ih =>
    intro seen
    rw [List.cons_append, footprintSum_cons, footprintSum_cons, ih seen, ih true]
    by_cases ht : t.vertical = true
    · simp only [ht, if_true, List.any_cons, Bool.not_true, Bool.false_or]
      ring
    · have ht' : t.vertical = false := by simpa using ht
      simp only [ht', List.any_cons, Bool.not_false, Bool.true_or, Bool.or_true,
        Bool.false_eq_true, if_false]
      ring

theorem vertical_markPlaced (config : Config) (item : Item) :
    vertical config (markPlaced item) = vertical config item := rfl

theorem rowInv_newRow (config : Config) (layerY w0 : ℚ) :
    RowInv config layerY w0 (newRow w0) where
  weight := by simp [newRow]
  width := by simp [newRow, footprintSum]
  fits := by simp [newRow]
  homogeneous := by simp [newRow]
  capped := by simp [newRow]
  heightNonneg := by simp [newRow]
  entries := by simp [newRow]

theorem itemFootprintWidth_eq (config : Config) (l : List RowItem) (item : Item)
    (hl : ∀ ri ∈ l, ri.vertical = vertical config item) :
    itemFootprintWidth config l.length item =
      (if vertical config item then (dims config item).x + 0.5
       else (dims config item).x +
        (if (false || l.any fun t => !t.vertical) then config.lumberWidth
          else config.lumberWidth * 2)) := by
  unfold itemFootprintWidth
  by_cases hv : vertical config item = true
  · simp [hv]
  · have hv' : vertical config item = false := by simpa using hv
    simp only [hv', Bool.false_eq_true, if_false, Bool.false_or]
    cases l with
    | nil => simp
    | cons t l =>
      have : t.vertical = false := by rw [hl t (List.mem_cons_self _ _), hv']
      simp [this]

theorem scanItem_rowInv (config : Config) (layerY w0 : ℚ) (i : Nat) (item : Item)
    (st : RowScan) (h : RowInv config layerY w0 st) :
    RowInv config layerY w0 (scanItem config layerY i item st).2 := by
  by_cases ha : Accepts config layerY item st
  · rw [scanItem_of_accepts config layerY i item st ha]
    obtain ⟨a1, a2, a3, a4, a5, a6, a7⟩ := ha
    have hom : ∀ ri ∈ st.rowItems, ri.vertical = vertical config item := by
      intro ri hri
      rw [h.homogeneous ri hri]
      exact a4 (List.ne_nil_of_mem hri)
    refine ⟨?_, ?_, ?_, ?_, ?_, ?_, ?_⟩
    · simp only [acceptState, List.map_append, List.sum_append, List.map_cons, List.map_nil,
        List.sum_cons, List.sum_nil, h.weight]
      simp [markPlaced]; ring
    · simp only [acceptState]
      rw [footprintSum_append, ← h.width, itemFootprintWidth_eq config st.rowItems item hom]
    · intro _
      exact a7
    · intro ri hri
      simp only [acceptState, List.mem_append, List.mem_singleton] at hri ⊢
      rcases hri with hri | hri
      · exact hom ri hri
      · rw [hri]
    · intro _
      exact a2
    · exact le_max_of_le_left h.heightNonneg
    · intro ri hri
      simp only [acceptState, List.mem_append, List.mem_singleton] at hri ⊢
      rcases hri with hri | hri
      · obtain ⟨b1, b2, b3, b4, b5, b6⟩ := h.entries ri hri
        exact ⟨b1, b2, b3, b4, b5, le_max_of_le_left b6⟩
      · subst hri
        exact ⟨rfl, rfl, rfl, a6, a3, le_max_right _ _⟩
  · obtain ⟨_, e2, e3, e4, _, e6, e7⟩ := scanItem_of_not_accepts config layerY i item st ha
    refine ⟨?_, ?_, ?_, ?_, ?_, ?_, ?_⟩
    · rw [e6, e2]; exact h.weight
    · rw [e3, e2]; exact h.width
    · rw [e3, e2]; exact h.fits
    · rw [e2]
      intro ri hri
      rw [e7 (List.ne_nil_of_mem hri)]
      exact h.homogeneous ri hri
    · rw [e6]; exact h.capped
    · rw [e4]; exact h.heightNonneg
    · rw [e2, e4]; exact h.entries

theorem fillRow_rowInv (config : Config) (layerY w0 : ℚ) :
    ∀ (queue : List Item) (i : Nat) (st : RowScan), RowInv config layerY w0 st →
      RowInv config layerY w0 (fillRow config layerY queue i st).2 := by
  intro queue
  induction queue with
  | nil => intro i st h; exact h
  | cons item rest ih =>
    intro i st h
    exact ih (i + 1) _ (scanItem_rowInv config layerY w0 i item st h)

/-! ## The queue across a row scan -/

theorem unplaced_cons_placed (item : Item) (rest : List Item) (h : item.isPlaced = true) :
    unplaced (item :: rest) = unplaced rest := by
  simp [unplaced, h]

theorem unplaced_cons_unplaced (item : Item) (rest : List Item) (h : item.isPlaced = false) :
    unplaced (item :: rest) = item :: unplaced rest := by
  simp [unplaced, h]

theorem unplaced_eq_self (queue : List Item) (h : ∀ i ∈ queue, i.isPlaced = false) :
    unplaced queue = queue := by
  unfold unplaced
  rw [List.filter_eq_self]
  intro i hi
  simp [h i hi]

theorem unplaced_idem (queue : List Item) : unplaced (unplaced queue) = unplaced queue := by
  simp [unplaced]

theorem mem_unplaced {queue : List Item} {i : Item} :
    i ∈ unplaced queue ↔ i ∈ queue ∧ i.isPlaced = false := by
  simp [unplaced]

theorem fillRow_length (config : Config) (layerY : ℚ) :
    ∀ (queue : List Item) (i : Nat) (st : RowScan),
      (fillRow config layerY queue i st).1.length = queue.length := by
  intro queue
  induction queue with
  | nil => intro i st; rfl
  | cons item rest ih =>
    intro i st
    simp [fillRow, ih]

theorem scanItem_rowItems_ne_nil (config : Config) (layerY : ℚ) (i : Nat) (item : Item)
    (st : RowScan) (h : st.rowItems ≠ []) :
    (scanItem config layerY i item st).2.rowItems ≠ [] := by
  by_cases ha : Accepts config layerY item st
  · rw [scanItem_of_accepts config layerY i item st ha]
    simp [acceptState]
  · rw [(scanItem_of_not_accepts config layerY i item st ha).2.1]
    exact h

theorem fillRow_rowItems_ne_nil (config : Config) (layerY : ℚ) :
    ∀ (queue : List Item) (i : Nat) (st : RowScan), st.rowItems ≠ [] →
      (fillRow config layerY queue i st).2.rowItems ≠ [] := by
  intro queue
  induction queue with
  | nil => intro i st h; exact h
  | cons item rest ih =>
    intro i st h
    exact ih (i + 1) _ (scanItem_rowItems_ne_nil config layerY i item st h)

theorem fillRow_accepts_head (config : Config) (layerY : ℚ) (item : Item) (rest : List Item)
    (i : Nat) (st : RowScan) (h : Accepts config layerY item st) :
    (fillRow config layerY (item :: rest) i st).2.rowItems ≠ [] := by
  show (fillRow config layerY rest (i + 1) (scanItem config layerY i item st).2).2.rowItems ≠ []
  apply fillRow_rowItems_ne_nil
  rw [scanItem_of_accepts config layerY i item st h]
  simp [acceptState]

/-- Conservation across one row scan: the accepted entries together with the
entries still unplaced are the entries that were unplaced before. -/
theorem fillRow_perm (config : Config) (layerY : ℚ) :
    ∀ (queue : List Item) (i : Nat) (st : RowScan),
      ((fillRow config layerY queue i st).2.rowItems.map RowItem.item ++
        (unplaced (fillRow config layerY queue i st).1).map markPlaced).Perm
      (st.rowItems.map RowItem.item ++ (unplaced queue).map markPlaced) := by
  intro queue
  induction queue with
  | nil => intro i st; exact List.Perm.refl _
  | cons item rest ih =>
    intro i st
    have IH := ih (i + 1) (scanItem config layerY i item st).2
    show ((fillRow config layerY rest (i + 1) (scanItem config layerY i item st).2).2.rowItems.map
        RowItem.item ++ (unplaced ((scanItem config layerY i item st).1 ::
        (fillRow config layerY rest (i + 1) (scanItem config layerY i item st).2).1)).map
        markPlaced).Perm _
    by_cases ha : Accepts config layerY item st
    · rw [scanItem_of_accepts config layerY i item st ha] at IH ⊢
      rw [unplaced_cons_placed _ _ (by rfl), unplaced_cons_unplaced _ _ ha.1]
      refine IH.trans ?_
      simp [acceptState]
    · obtain ⟨e1, e2, _⟩ := scanItem_of_not_accepts config layerY i item st ha
      rw [e2] at IH
      rw [e1]
      by_cases hp : item.isPlaced = true
      · rw [unplaced_cons_placed _ _ hp, unplaced_cons_placed _ _ hp]
        exact IH
      · have hp' : item.isPlaced = false := by simpa using hp
        rw [unplaced_cons_unplaced _ _ hp', unplaced_cons_unplaced _ _ hp']
        simp only [List.map_cons]
        exact (List.perm_middle.trans ((List.Perm.cons _ IH).trans List.perm_middle.symm))

theorem fillRow_unplaced_sublist (config : Config) (layerY : ℚ) :
    ∀ (queue : List Item) (i : Nat) (st : RowScan),
      (unplaced (fillRow config layerY queue i st).1).Sublist (unplaced queue) := by
  intro queue
  induction queue with
  | nil => intro i st; exact List.Sublist.refl _
  | cons item rest ih =>
    intro i st
    have IH := ih (i + 1) (scanItem config layerY i item st).2
    show (unplaced ((scanItem config layerY i item st).1 ::
        (fillRow config layerY rest (i + 1) (scanItem config layerY i item st).2).1)).Sublist _
    by_cases ha : Accepts config layerY item st
    · rw [scanItem_of_accepts config layerY i item st ha] at IH ⊢
      rw [unplaced_cons_placed _ _ (by rfl), unplaced_cons_unplaced _ _ ha.1]
      exact List.Sublist.cons _ IH
    · rw [(scanItem_of_not_accepts config layerY i item st ha).1]
      by_cases hp : item.isPlaced = true
      · rw [unplaced_cons_placed _ _ hp, unplaced_cons_placed _ _ hp]
        exact IH
      · have hp' : item.isPlaced = false := by simpa using hp
        rw [unplaced_cons_unplaced _ _ hp', unplaced_cons_unplaced _ _ hp']
        exact List.Sublist.cons₂ _ IH

theorem fillRow_eq_of_empty (config : Config) (layerY : ℚ) :
    ∀ (queue : List Item) (i : Nat) (st : RowScan),
      (fillRow config layerY queue i st).2.rowItems = [] →
      (fillRow config layerY queue i st).1 = queue := by
  intro queue
  induction queue with
  | nil => intro i st _; rfl
  | cons item rest ih =>
    intro i st h
    by_cases ha : Accepts config layerY item st
    · exact absurd h (fillRow_accepts_head config layerY item rest i st ha)
    · show (scanItem config layerY i item st).1 ::
        (fillRow config layerY rest (i + 1) (scanItem config layerY i item st).2).1 = item :: rest
      rw [(scanItem_of_not_accepts config layerY i item st ha).1]
      rw [ih (i + 1) _ h]

/-! ## Row placement -/

theorem placeRow_items (config : Config) (fuel : Nat) (layerY : ℚ) :
    ∀ (rows : List RowItem) (x : ℚ) (ps : List PlacedItem) (ws : List Lumber),
      placeRow config fuel layerY rows x = some (ps, ws) →
      List.Forall₂ (fun p ri => p.toItem = ri.item ∧ p.finalDims = ri.dims ∧
        p.position.y = layerY + ri.dims.y / 2) ps rows := by
  intro rows
  induction rows with
  | nil =>
    intro x ps ws h
    simp only [placeRow, Option.some.injEq, Prod.mk.injEq] at h
    rw [← h.1]
    exact List.Forall₂.nil
  | cons ri rest ih =>
    intro x ps ws h
    simp only [placeRow] at h
    cases hf : framing config fuel layerY (itemX config x ri) ri with
    | none => simp [hf] at h
    | some wood =>
      cases hr : placeRow config fuel layerY rest (advanceX config x ri) with
      | none => simp [hf, hr] at h
      | some pw =>
        obtain ⟨ps1, ws1⟩ := pw
        simp only [hf, hr, Option.some.injEq, Prod.mk.injEq] at h
        rw [← h.1]
        exact List.Forall₂.cons ⟨rfl, rfl, rfl⟩ (ih _ _ _ hr)

theorem placeRow_map_toItem (config : Config) (fuel : Nat) (layerY : ℚ)
    (rows : List RowItem) (x : ℚ) (ps : List PlacedItem) (ws : List Lumber)
    (h : placeRow config fuel layerY rows x = some (ps, ws)) :
    ps.map PlacedItem.toItem = rows.map RowItem.item := by
  have H := placeRow_items config fuel layerY rows x ps ws h
  clear h
  induction H with
  | nil => rfl
  | cons hab _ ih => simp [hab.1, ih]

theorem placeRow_mem (config : Config) (fuel : Nat) (layerY : ℚ)
    (rows : List RowItem) (x : ℚ) (ps : List PlacedItem) (ws : List Lumber)
    (h : placeRow config fuel layerY rows x = some (ps, ws)) :
    ∀ p ∈ ps, ∃ ri ∈ rows, p.toItem = ri.item ∧ p.finalDims = ri.dims ∧
      p.position.y = layerY + ri.dims.y / 2 := by
  have H := placeRow_items config fuel layerY rows x ps ws h
  clear h
  induction H with
  | nil => intro p hp; simp at hp
  | cons hab _ ih =>
    intro p hp
    rcases List.mem_cons.mp hp with hp | hp
    · subst hp
      exact ⟨_, List.mem_cons_self _ _, hab⟩
    · obtain ⟨ri, hri, hh⟩ := ih p hp
      exact ⟨ri, List.mem_cons_of_mem _ hri, hh⟩

/-! ## Induction over the crate builder and the scheduler -/

/-- Invariant rule for `palletLoop`: a property of (queue, crate, height cursor)
kept by every placed row holds when the loop ends, and the scan that ended it
accepted nothing. -/
theorem palletLoop_induct (config : Config) (fuel : Nat)
    (Inv : List Item → Pallet → ℚ → Prop)
    (step : ∀ (queue : List Item) (pallet : Pallet) (layerY : ℚ) (ps : List PlacedItem)
      (ws : List Lumber), Inv queue pallet layerY →
      (fillRow config layerY queue 0 (newRow pallet.totalWeight)).2.rowItems ≠ [] →
      placeRow config fuel layerY
        (fillRow config layerY queue 0 (newRow pallet.totalWeight)).2.rowItems
        (startX config (fillRow config layerY queue 0 (newRow pallet.totalWeight)).2)
        = some (ps, ws) →
      Inv (fillRow config layerY queue 0 (newRow pallet.totalWeight)).1
        (withRow pallet ps ws (fillRow config layerY queue 0 (newRow pallet.totalWeight)).2
          (nextLayerY config layerY
            (fillRow config layerY queue 0 (newRow pallet.totalWeight)).2))
        (nextLayerY config layerY
          (fillRow config layerY queue 0 (newRow pallet.totalWeight)).2)) :
    ∀ (n : Nat) (queue : List Item) (pallet : Pallet) (layerY : ℚ) (q1 : List Item)
      (p1 : Pallet), Inv queue pallet layerY →
      palletLoop config fuel n queue pallet layerY = some (q1, p1) →
      ∃ y1, Inv q1 p1 y1 ∧
        (fillRow config y1 q1 0 (newRow p1.totalWeight)).2.rowItems = [] := by
  intro n
  induction n with
  | zero => intro queue pallet layerY q1 p1 _ h; simp [palletLoop] at h
  | succ n ih =>
    intro queue pallet layerY q1 p1 hinv h
    simp only [palletLoop] at h
    by_cases he : (fillRow config layerY queue 0 (newRow pallet.totalWeight)).2.rowItems.length = 0
    · rw [if_pos he] at h
      simp only [Option.some.injEq, Prod.mk.injEq] at h
      have hnil := List.length_eq_zero.mp he
      have hq := fillRow_eq_of_empty config layerY queue 0 (newRow pallet.totalWeight) hnil
      rw [hq] at h
      rw [← h.1, ← h.2]
      exact ⟨layerY, hinv, hnil⟩
    · rw [if_neg he] at h
      have hne : (fillRow config layerY queue 0 (newRow pallet.totalWeight)).2.rowItems ≠ [] :=
        fun hn => he (by rw [hn]; rfl)
      cases hp : placeRow config fuel layerY
          (fillRow config layerY queue 0 (newRow pallet.totalWeight)).2.rowItems
          (startX config (fillRow config layerY queue 0 (newRow pallet.totalWeight)).2) with
      | none => simp [hp] at h
      | some pw =>
        obtain ⟨ps, ws⟩ := pw
        simp only [hp] at h
        exact ih _ _ _ q1 p1 (step queue pallet layerY ps ws hinv hne hp) h

/-- Invariant rule for `crateLoop`: `Inv` is kept from one pass to the next and
`Post` holds of whatever the loop returns. -/
theorem crateLoop_induct (config : Config) (fuel : Nat)
    (Inv : List Item → List Pallet → Prop) (Post : Result → Prop)
    (done : ∀ (queue : List Item) (acc : List Pallet), Inv queue acc → queue = [] →
      Post ⟨acc, []⟩)
    (step : ∀ (queue : List Item) (acc : List Pallet) (q1 : List Item) (pallet : Pallet),
      Inv queue acc → queue ≠ [] →
      palletLoop config fuel fuel queue (newPallet config acc) config.lumberThick
        = some (q1, pallet) →
      ((unplaced q1).length = q1.length → Post ⟨acc, [fitFailure]⟩) ∧
      ((unplaced q1).length ≠ q1.length → unplaced q1 = [] → Post ⟨acc ++ [pallet], []⟩) ∧
      ((unplaced q1).length ≠ q1.length → unplaced q1 ≠ [] →
        Inv (unplaced q1) (acc ++ [pallet]))) :
    ∀ (passes : Nat) (queue : List Item) (acc : List Pallet) (r : Result),
      Inv queue acc → crateLoop config fuel passes queue acc = some r → Post r := by
  intro passes
  induction passes with
  | zero =>
    intro queue acc r hinv h
    simp only [crateLoop] at h
    by_cases hq : 0 < queue.length
    · simp [hq] at h
    · rw [if_neg hq] at h
      simp only [Option.some.injEq] at h
      rw [← h]
      exact done queue acc hinv (List.length_eq_zero.mp (Nat.eq_zero_of_not_pos hq))
  | succ passes ih =>
    intro queue acc r hinv h
    simp only [crateLoop] at h
    by_cases hq : 0 < queue.length
    · rw [if_pos hq] at h
      cases hp : palletLoop config fuel fuel queue (newPallet config acc) config.lumberThick with
      | none => simp [hp] at h
      | some qp =>
        obtain ⟨q1, pallet⟩ := qp
        simp only [hp] at h
        obtain ⟨s1, s2, s3⟩ := step queue acc q1 pallet hinv (List.length_pos.mp hq) hp
        change (if (unplaced q1).length = q1.length then some ⟨acc, [fitFailure]⟩
          else if (unplaced q1).length = 0 then some ⟨acc ++ [pallet], []⟩
          else crateLoop config fuel passes (unplaced q1) (acc ++ [pallet])) = some r at h
        by_cases c1 : (unplaced q1).length = q1.length
        · rw [if_pos c1] at h
          simp only [Option.some.injEq] at h
          rw [← h]; exact s1 c1
        · rw [if_neg c1] at h
          by_cases c2 : (unplaced q1).length = 0
          · rw [if_pos c2] at h
            simp only [Option.some.injEq] at h
            rw [← h]; exact s2 c1 (List.length_eq_zero.mp c2)
          · rw [if_neg c2] at h
            exact ih _ _ r (s3 c1 (fun hn => c2 (by rw [hn]; rfl))) h
    · rw [if_neg hq] at h
      simp only [Option.some.injEq] at h
      rw [← h]
      exact done queue acc hinv (List.length_eq_zero.mp (Nat.eq_zero_of_not_pos hq))

/-! ## What one crate-building pass keeps -/

theorem palletLoop_perm (config : Config) (fuel n : Nat) (queue : List Item) (pallet : Pallet)
    (layerY : ℚ) (q1 : List Item) (p1 : Pallet)
    (h : palletLoop config fuel n queue pallet layerY = some (q1, p1)) :
    (p1.items.map PlacedItem.toItem ++ (unplaced q1).map markPlaced).Perm
      (pallet.items.map PlacedItem.toItem ++ (unplaced queue).map markPlaced) := by
  obtain ⟨_, hy, _⟩ := palletLoop_induct config fuel
    (fun q p _ => (p.items.map PlacedItem.toItem ++ (unplaced q).map markPlaced).Perm
      (pallet.items.map PlacedItem.toItem ++ (unplaced queue).map markPlaced))
    (by
      intro q p y ps ws hinv _ hp
      have h1 := placeRow_map_toItem config fuel y _ _ ps ws hp
      have h2 := fillRow_perm config y q 0 (newRow p.totalWeight)
      simp only [withRow, List.map_append, List.append_assoc, h1]
      refine (List.Perm.append_left _ h2).trans ?_
      simpa [newRow] using hinv)
    n queue pallet layerY q1 p1 (List.Perm.refl _) h
  exact hy

theorem palletLoop_length (config : Config) (fuel n : Nat) (queue : List Item) (pallet : Pallet)
    (layerY : ℚ) (q1 : List Item) (p1 : Pallet)
    (h : palletLoop config fuel n queue pallet layerY = some (q1, p1)) :
    q1.length = queue.length := by
  obtain ⟨_, hy, _⟩ := palletLoop_induct config fuel
    (fun q _ _ => q.length = queue.length)
    (by
      intro q p y ps ws hinv _ _
      rw [fillRow_length]; exact hinv)
    n queue pallet layerY q1 p1 rfl h
  exact hy

theorem palletLoop_sublist (config : Config) (fuel n : Nat) (queue : List Item) (pallet : Pallet)
    (layerY : ℚ) (q1 : List Item) (p1 : Pallet)
    (h : palletLoop config fuel n queue pallet layerY = some (q1, p1)) :
    (unplaced q1).Sublist (unplaced queue) := by
  obtain ⟨_, hy, _⟩ := palletLoop_induct config fuel
    (fun q _ _ => (unplaced q).Sublist (unplaced queue))
    (by
      intro q p y ps ws hinv _ _
      exact (fillRow_unplaced_sublist config y q 0 _).trans hinv)
    n queue pallet layerY q1 p1 (List.Sublist.refl _) h
  exact hy

theorem palletLoop_weight (config : Config) (fuel n : Nat) (queue : List Item) (pallet : Pallet)
    (layerY : ℚ) (q1 : List Item) (p1 : Pallet)
    (h0 : pallet.totalWeight = (pallet.items.map fun p => p.weight).sum)
    (h1 : pallet.totalWeight ≤ config.maxWeight)
    (h : palletLoop config fuel n queue pallet layerY = some (q1, p1)) :
    p1.totalWeight = (p1.items.map fun p => p.weight).sum ∧
      p1.totalWeight ≤ config.maxWeight := by
  obtain ⟨_, hy, _⟩ := palletLoop_induct config fuel
    (fun _ p _ => p.totalWeight = (p.items.map fun p => p.weight).sum ∧
      p.totalWeight ≤ config.maxWeight)
    (by
      intro q p y ps ws hinv _ hp
      have hr := fillRow_rowInv config y p.totalWeight q 0 _ (rowInv_newRow config y p.totalWeight)
      have hm := placeRow_map_toItem config fuel y _ _ ps ws hp
      have hw : (ps.map fun p => p.weight) =
          ((fillRow config y q 0 (newRow p.totalWeight)).2.rowItems.map
            fun ri => ri.item.weight) := by
        have := congrArg (List.map Item.weight) hm
        simpa [List.map_map, Function.comp] using this
      refine ⟨?_, hr.capped hinv.2⟩
      simp only [withRow, List.map_append, List.sum_append, hw]
      rw [hr.weight, hinv.1])
    n queue pallet layerY q1 p1 ⟨h0, h1⟩ h
  exact hy

/-- A property of crates that every finished pass establishes holds of every
crate the scheduler returns. -/
theorem crateLoop_forall (config : Config) (fuel : Nat) (Q : Pallet → Prop)
    (hQ : ∀ (queue : List Item) (acc : List Pallet) (q1 : List Item) (pallet : Pallet),
      palletLoop config fuel fuel queue (newPallet config acc) config.lumberThick
        = some (q1, pallet) → Q pallet) :
    ∀ (passes : Nat) (queue : List Item) (acc : List Pallet) (r : Result),
      (∀ c ∈ acc, Q c) → crateLoop config fuel passes queue acc = some r →
      ∀ c ∈ r.pallets, Q c := by
  intro passes queue acc r hacc h
  refine crateLoop_induct config fuel (fun _ acc => ∀ c ∈ acc, Q c)
    (fun r => ∀ c ∈ r.pallets, Q c) (fun _ _ hinv _ => hinv) ?_ passes queue acc r hacc h
  intro queue acc q1 pallet hinv _ hp
  have hall : ∀ c ∈ acc ++ [pallet], Q c := by
    intro c hc
    rcases List.mem_append.mp hc with hc | hc
    · exact hinv c hc
    · rw [List.mem_singleton.mp hc]; exact hQ queue acc q1 pallet hp
  exact ⟨fun _ => hinv, fun _ _ => hall, fun _ _ => hall⟩

theorem crateLoop_perm (config : Config) (fuel : Nat) :
    ∀ (passes : Nat) (queue : List Item) (acc : List Pallet) (r : Result),
      crateLoop config fuel passes queue acc = some r → r.errors = [] →
      ((placedItems r.pallets).map PlacedItem.toItem).Perm
        ((placedItems acc).map PlacedItem.toItem ++ (unplaced queue).map markPlaced) := by
  intro passes queue acc r h
  refine crateLoop_induct config fuel
    (fun q a => ((placedItems a).map PlacedItem.toItem ++ (unplaced q).map markPlaced).Perm
      ((placedItems acc).map PlacedItem.toItem ++ (unplaced queue).map markPlaced))
    (fun r => r.errors = [] → ((placedItems r.pallets).map PlacedItem.toItem).Perm
      ((placedItems acc).map PlacedItem.toItem ++ (unplaced queue).map markPlaced))
    ?_ ?_ passes queue acc r (List.Perm.refl _) h
  · intro q a hinv hq _
    subst hq
    simpa [unplaced] using hinv
  · intro q a q1 pallet hinv _ hp
    have hperm := palletLoop_perm config fuel fuel q _ _ q1 pallet hp
    have hnew : (newPallet config a).items = [] := rfl
    rw [hnew] at hperm
    simp only [List.map_nil, List.nil_append] at hperm
    have hstep : ((placedItems (a ++ [pallet])).map PlacedItem.toItem ++
        (unplaced q1).map markPlaced).Perm
        ((placedItems acc).map PlacedItem.toItem ++ (unplaced queue).map markPlaced) := by
      refine List.Perm.trans ?_ hinv
      simp only [placedItems, List.flatMap_append, List.flatMap_cons, List.flatMap_nil,
        List.append_nil, List.map_append, List.append_assoc]
      exact List.Perm.append_left _ hperm
    refine ⟨fun _ he => by simp [fitFailure] at he, fun _ hnil _ => ?_, fun _ _ => ?_⟩
    · rw [hnil] at hstep
      simpa using hstep
    · show ((placedItems (a ++ [pallet])).map PlacedItem.toItem ++
        (unplaced (unplaced q1)).map markPlaced).Perm _
      rw [unplaced_idem]
      exact hstep

theorem sortedQueue_perm (items : List Item) : (sortedQueue items).Perm items :=
  List.perm_insertionSort _ items

/-! ## Conservation and weight bound -/

/-- Without the fit-failure error, the placed items of a run are the entries of
the seeded queue that were unplaced at the start. -/
theorem runOptimization_perm (passes fuel : Nat) (config : Config) (items : List Item)
    (r : Result) (hrun : runOptimization passes fuel config items = some r)
    (hok : r.errors = []) :
    ((placedItems r.pallets).map PlacedItem.toItem).Perm
      ((unplaced (sortedQueue items)).map markPlaced) := by
  unfold runOptimization at hrun
  by_cases he : items.length = 0
  · rw [if_pos he] at hrun
    simp only [Option.some.injEq] at hrun
    rw [← hrun, List.length_eq_zero.mp he]
    exact List.Perm.refl _
  · rw [if_neg he] at hrun
    have h := crateLoop_perm config fuel passes _ _ r hrun hok
    simpa [placedItems] using h

/-- C1 (conservation). When every input item is still unplaced and the run ends
without the fit-failure error, the items of all returned crates, read as item
objects, are exactly the input items, each once, each carrying the placed flag
the run has set on it. -/
theorem conservation (passes fuel : Nat) (config : Config) (items : List Item) (r : Result)
    (hfresh : ∀ i ∈ items, i.isPlaced = false)
    (hrun : runOptimization passes fuel config items = some r)
    (hok : r.errors = []) :
    ((placedItems r.pallets).map PlacedItem.toItem).Perm (items.map markPlaced) := by
  have hs : ∀ i ∈ sortedQueue items, i.isPlaced = false :=
    fun i hi => hfresh i ((sortedQueue_perm items).subset hi)
  have h := runOptimization_perm passes fuel config items r hrun hok
  rw [unplaced_eq_self _ hs] at h
  exact h.trans (List.Perm.map _ (sortedQueue_perm items))

/-- C2 (weight bound). With `maxWeight > 0`, every returned crate records as
`totalWeight` the sum of the weights of its placed items, and that total is at
most `maxWeight`. -/
theorem weight_bound (passes fuel : Nat) (config : Config) (items : List Item) (r : Result)
    (hmax : 0 < config.maxWeight)
    (hrun : runOptimization passes fuel config items = some r) :
    ∀ c ∈ r.pallets, c.totalWeight = (c.items.map fun p => p.weight).sum ∧
      c.totalWeight ≤ config.maxWeight := by
  unfold runOptimization at hrun
  by_cases he : items.length = 0
  · rw [if_pos he] at hrun
    simp only [Option.some.injEq] at hrun
    rw [← hrun]
    intro c hc
    simp at hc
  · rw [if_neg he] at hrun
    refine crateLoop_forall config fuel _ ?_ passes _ [] r (by simp) hrun
    intro queue acc q1 pallet hp
    exact palletLoop_weight config fuel fuel queue _ _ q1 pallet (by simp [newPallet])
      (by simpa [newPallet] using hmax.le) hp

/-! ## Progress of the scheduler -/

theorem palletLoop_count (config : Config) (fuel n : Nat) (queue : List Item)
    (acc : List Pallet) (layerY : ℚ) (q1 : List Item) (p1 : Pallet)
    (h : palletLoop config fuel n queue (newPallet config acc) layerY = some (q1, p1)) :
    p1.items.length + (unplaced q1).length = (unplaced queue).length := by
  have hp := (palletLoop_perm config fuel n queue _ layerY q1 p1 h).length_eq
  simpa [newPallet] using hp

theorem palletLoop_fresh_count (config : Config) (fuel n : Nat) (queue : List Item)
    (acc : List Pallet) (layerY : ℚ) (q1 : List Item) (p1 : Pallet)
    (hfresh : ∀ i ∈ queue, i.isPlaced = false)
    (h : palletLoop config fuel n queue (newPallet config acc) layerY = some (q1, p1)) :
    p1.items.length + (unplaced q1).length = q1.length := by
  rw [palletLoop_count config fuel n queue acc layerY q1 p1 h, unplaced_eq_self queue hfresh,
    palletLoop_length config fuel n queue _ layerY q1 p1 h]

theorem unplaced_fresh (queue : List Item) : ∀ i ∈ unplaced queue, i.isPlaced = false :=
  fun _ hi => (mem_unplaced.mp hi).2

theorem crateLoop_succ (config : Config) (fuel passes : Nat) (queue : List Item)
    (acc : List Pallet) (q1 : List Item) (pallet : Pallet) (hne : queue ≠ [])
    (hp : palletLoop config fuel fuel queue (newPallet config acc) config.lumberThick
      = some (q1, pallet)) :
    crateLoop config fuel (passes + 1) queue acc =
      if (unplaced q1).length = q1.length then some ⟨acc, [fitFailure]⟩
      else if (unplaced q1).length = 0 then some ⟨acc ++ [pallet], []⟩
      else crateLoop config fuel passes (unplaced q1) (acc ++ [pallet]) := by
  simp only [crateLoop, List.length_pos.mpr hne, if_true, hp]
  rfl

/-- C3 (progress law). First part: a crate-building pass over a fresh, non-empty
queue either places at least one item, in which case fewer items stay unplaced,
its crate is appended and the scheduler goes on with the unplaced rest (or
returns when none is left); or it places none, in which case the scheduler
returns at once the crates of the earlier passes with the fit-failure error.
Second part: on an input of fresh items every returned crate holds an item. -/
theorem progress_law (config : Config) (fuel : Nat) :
    (∀ (passes : Nat) (queue : List Item) (newPallets : List Pallet) (q1 : List Item)
      (pallet : Pallet), (∀ i ∈ queue, i.isPlaced = false) → queue ≠ [] →
      palletLoop config fuel fuel queue (newPallet config newPallets) config.lumberThick
        = some (q1, pallet) →
      (pallet.items ≠ [] ∧ (unplaced q1).length < queue.length ∧
        crateLoop config fuel (passes + 1) queue newPallets =
          (if (unplaced q1).length = 0 then some ⟨newPallets ++ [pallet], []⟩
           else crateLoop config fuel passes (unplaced q1) (newPallets ++ [pallet]))) ∨
      (pallet.items = [] ∧ (unplaced q1).length = queue.length ∧
        crateLoop config fuel (passes + 1) queue newPallets
          = some ⟨newPallets, [fitFailure]⟩)) ∧
    (∀ (passes : Nat) (items : List Item) (r : Result), (∀ i ∈ items, i.isPlaced = false) →
      runOptimization passes fuel config items = some r →
      ∀ c ∈ r.pallets, c.items ≠ []) := by
  constructor
  · intro passes queue newPallets q1 pallet hfresh hne hp
    have hc := palletLoop_fresh_count config fuel fuel queue newPallets _ q1 pallet hfresh hp
    have hl := palletLoop_length config fuel fuel queue _ _ q1 pallet hp
    rw [crateLoop_succ config fuel passes queue newPallets q1 pallet hne hp]
    by_cases hz : pallet.items = []
    · right
      have : (unplaced q1).length = q1.length := by simpa [hz] using hc
      exact ⟨hz, by rw [this, hl], by rw [if_pos this]⟩
    · left
      have hpos : 0 < pallet.items.length := List.length_pos.mpr hz
      have hlt : (unplaced q1).length ≠ q1.length := by omega
      exact ⟨hz, by omega, by rw [if_neg hlt]⟩
  · intro passes items r hfresh hrun
    unfold runOptimization at hrun
    by_cases he : items.length = 0
    · rw [if_pos he] at hrun
      simp only [Option.some.injEq] at hrun
      rw [← hrun]
      intro c hc
      simp at hc
    · rw [if_neg he] at hrun
      have hs : ∀ i ∈ sortedQueue items, i.isPlaced = false :=
        fun i hi => hfresh i ((sortedQueue_perm items).subset hi)
      refine crateLoop_induct config fuel
        (fun q acc => (∀ i ∈ q, i.isPlaced = false) ∧ ∀ c ∈ acc, c.items ≠ [])
        (fun r => ∀ c ∈ r.pallets, c.items ≠ []) (fun _ _ hinv _ => hinv.2) ?_
        passes _ [] r ⟨hs, by simp⟩ hrun
      intro queue acc q1 pallet hinv _ hp
      have hc := palletLoop_fresh_count config fuel fuel queue acc _ q1 pallet hinv.1 hp
      have hall : (unplaced q1).length ≠ q1.length → ∀ c ∈ acc ++ [pallet], c.items ≠ [] := by
        intro hlt c hc'
        rcases List.mem_append.mp hc' with hc' | hc'
        · exact hinv.2 c hc'
        · rw [List.mem_singleton.mp hc']
          intro hz
          apply hlt
          simpa [hz] using hc
      exact ⟨fun _ => hinv.2, fun h1 _ => hall h1, fun h1 _ => ⟨unplaced_fresh q1, hall h1⟩⟩

/-! ## Width bound -/

/-- C8 (width bound). Every non-empty row the scan builds, from whatever queue,
height cursor and crate weight, has a summed footprint (with the framing
allowance of `footprintSum`) equal to the accumulated `rowWidthUsed` and at
most `palletWidth - 2 * safetyGap`. Every row of every crate is the result of
such a scan (`palletLoop`). -/
theorem width_bound (config : Config) (layerY totalWeight : ℚ) (queue : List Item)
    (hrow : (fillRow config layerY queue 0 (newRow totalWeight)).2.rowItems ≠ []) :
    footprintSum config false (fillRow config layerY queue 0 (newRow totalWeight)).2.rowItems
      = (fillRow config layerY queue 0 (newRow totalWeight)).2.rowWidthUsed ∧
    footprintSum config false (fillRow config layerY queue 0 (newRow totalWeight)).2.rowItems
      ≤ config.palletWidth - 2 * config.safetyGap := by
  have hr := fillRow_rowInv config layerY totalWeight queue 0 _
    (rowInv_newRow config layerY totalWeight)
  refine ⟨hr.width.symm, ?_⟩
  rw [← hr.width]
  have := hr.fits hrow
  unfold effWidth at this
  linarith

/-! ## Termination of the loops -/

/-- Invariant rule for the row scan: a property of the scan state kept by the
step of every queue entry holds at the end of the scan. -/
theorem fillRow_induct (config : Config) (layerY : ℚ) (P : RowScan → Prop) :
    ∀ (queue : List Item) (i : Nat) (st : RowScan),
      (∀ item ∈ queue, ∀ (k : Nat) (st1 : RowScan), P st1 →
        P (scanItem config layerY k item st1).2) →
      P st → P (fillRow config layerY queue i st).2 := by
  intro queue
  induction queue with
  | nil => intro i st _ h; exact h
  | cons item rest ih =>
    intro i st hstep h
    exact ih (i + 1) _ (fun x hx => hstep x (List.mem_cons_of_mem _ hx))
      (hstep item (List.mem_cons_self _ _) i st h)

/-- Every row item comes from an unplaced queue entry, with the orientation the
selection rule gives that entry. -/
theorem fillRow_rowItems_source (config : Config) (layerY w0 : ℚ) (queue : List Item) :
    ∀ ri ∈ (fillRow config layerY queue 0 (newRow w0)).2.rowItems,
      ∃ j ∈ unplaced queue, ri.item = markPlaced j ∧ ri.dims = dims config j ∧
        ri.vertical = vertical config j := by
  refine fillRow_induct config layerY
    (fun st => ∀ ri ∈ st.rowItems, ∃ j ∈ unplaced queue, ri.item = markPlaced j ∧
      ri.dims = dims config j ∧ ri.vertical = vertical config j)
    queue 0 (newRow w0) ?_ (by simp [newRow])
  intro item hitem k st1 hst ri hri
  by_cases ha : Accepts config layerY item st1
  · rw [scanItem_of_accepts config layerY k item st1 ha] at hri
    simp only [acceptState, List.mem_append, List.mem_singleton] at hri
    rcases hri with hri | hri
    · exact hst ri hri
    · exact ⟨item, mem_unplaced.mpr ⟨hitem, ha.1⟩, by rw [hri], by rw [hri], by rw [hri]⟩
  · rw [(scanItem_of_not_accepts config layerY k item st1 ha).2.1] at hri
    exact hst ri hri

theorem dims_z_of_flat (config : Config) (item : Item) (h : vertical config item = false) :
    (dims config item).z = item.length := by
  unfold dims
  rw [h]
  by_cases hw : item.width > item.height
  · simp [hw]
  · simp [hw]

theorem cradleLoop_isSome (config : Config) (frameLen pocketHeight zStartGlobal leftPostX
    rightPostX layerY : ℚ) :
    ∀ (fuel : Nat) (z : ℚ), frameLen < z + fuel * config.framingSpacing →
      (cradleLoop config frameLen pocketHeight zStartGlobal leftPostX rightPostX layerY
        fuel z).isSome = true := by
  intro fuel
  induction fuel with
  | zero =>
    intro z hz
    have : ¬ z ≤ frameLen := by
      simp only [Nat.cast_zero, zero_mul, add_zero] at hz
      exact not_le.mpr hz
    simp [cradleLoop, this]
  | succ fuel ih =>
    intro z hz
    by_cases hle : z ≤ frameLen
    · have hrec := ih (z + config.framingSpacing) (by push_cast at hz; linarith)
      obtain ⟨more, hmore⟩ := Option.isSome_iff_exists.mp hrec
      simp [cradleLoop, hle, hmore]
    · simp [cradleLoop, hle]

theorem framing_isSome (config : Config) (fuel : Nat) (layerY x : ℚ) (ri : RowItem)
    (hri : ri.vertical = false → ri.dims.z < fuel * config.framingSpacing) :
    (framing config fuel layerY x ri).isSome = true := by
  unfold framing
  by_cases hv : ri.vertical = true
  · simp [hv]
  · have hv' : ri.vertical = false := by simpa using hv
    have hc := cradleLoop_isSome config ri.dims.z (ri.dims.y + config.lumberThick)
      ((config.palletLength - ri.dims.z) / 2) (x - config.lumberWidth / 2)
      (x + ri.dims.x + config.lumberWidth / 2) layerY fuel 0 (by simpa using hri hv')
    obtain ⟨cradle, hcradle⟩ := Option.isSome_iff_exists.mp hc
    simp [hv', hcradle]

theorem placeRow_isSome (config : Config) (fuel : Nat) (layerY : ℚ) :
    ∀ (rows : List RowItem) (x : ℚ),
      (∀ ri ∈ rows, ri.vertical = false → ri.dims.z < fuel * config.framingSpacing) →
      (placeRow config fuel layerY rows x).isSome = true := by
  intro rows
  induction rows with
  | nil => intro x _; rfl
  | cons ri rest ih =>
    intro x h
    obtain ⟨wood, hw⟩ := Option.isSome_iff_exists.mp
      (framing_isSome config fuel layerY (itemX config x ri) ri
        (h ri (List.mem_cons_self _ _)))
    obtain ⟨pw, hpw⟩ := Option.isSome_iff_exists.mp
      (ih (advanceX config x ri) (fun r hr => h r (List.mem_cons_of_mem _ hr)))
    simp [placeRow, hw, hpw]

theorem fillRow_unplaced_length (config : Config) (layerY w0 : ℚ) (queue : List Item) :
    (fillRow config layerY queue 0 (newRow w0)).2.rowItems.length +
      (unplaced (fillRow config layerY queue 0 (newRow w0)).1).length
      = (unplaced queue).length := by
  have h := (fillRow_perm config layerY queue 0 (newRow w0)).length_eq
  simpa [newRow] using h

theorem palletLoop_isSome (config : Config) (fuel : Nat) :
    ∀ (n : Nat) (queue : List Item) (pallet : Pallet) (layerY : ℚ),
      (∀ j ∈ unplaced queue, j.length < fuel * config.framingSpacing) →
      (unplaced queue).length < n →
      (palletLoop config fuel n queue pallet layerY).isSome = true := by
  intro n
  induction n with
  | zero => intro queue pallet layerY _ h; omega
  | succ n ih =>
    intro queue pallet layerY hb hn
    simp only [palletLoop]
    by_cases he : (fillRow config layerY queue 0 (newRow pallet.totalWeight)).2.rowItems.length = 0
    · rw [if_pos he]; rfl
    · rw [if_neg he]
      have hrows : ∀ ri ∈ (fillRow config layerY queue 0 (newRow pallet.totalWeight)).2.rowItems,
          ri.vertical = false → ri.dims.z < fuel * config.framingSpacing := by
        intro ri hri hv
        obtain ⟨j, hj, _, e2, e3⟩ :=
          fillRow_rowItems_source config layerY pallet.totalWeight queue ri hri
        rw [e2, dims_z_of_flat config j (by rw [← e3]; exact hv)]
        exact hb j hj
      obtain ⟨pw, hpw⟩ := Option.isSome_iff_exists.mp
        (placeRow_isSome config fuel layerY _
          (startX config (fillRow config layerY queue 0 (newRow pallet.totalWeight)).2) hrows)
      obtain ⟨ps, ws⟩ := pw
      simp only [hpw]
      have hlen := fillRow_unplaced_length config layerY pallet.totalWeight queue
      apply ih
      · intro j hj
        exact hb j ((fillRow_unplaced_sublist config layerY queue 0 _).subset hj)
      · omega

theorem crateLoop_isSome (config : Config) (fuel : Nat) :
    ∀ (passes : Nat) (queue : List Item) (acc : List Pallet),
      (∀ j ∈ unplaced queue, j.length < fuel * config.framingSpacing) →
      (unplaced queue).length < fuel → queue.length ≤ passes →
      (crateLoop config fuel passes queue acc).isSome = true := by
  intro passes
  induction passes with
  | zero =>
    intro queue acc _ _ hq
    have : ¬ 0 < queue.length := by omega
    simp [crateLoop, this]
  | succ passes ih =>
    intro queue acc hb hf hq
    by_cases hne : queue = []
    · simp [crateLoop, hne]
    · obtain ⟨qp, hqp⟩ := Option.isSome_iff_exists.mp
        (palletLoop_isSome config fuel fuel queue (newPallet config acc) config.lumberThick
          hb hf)
      obtain ⟨q1, pallet⟩ := qp
      rw [crateLoop_succ config fuel passes queue acc q1 pallet hne hqp]
      have hsub := palletLoop_sublist config fuel fuel queue _ _ q1 pallet hqp
      have hlen := palletLoop_length config fuel fuel queue _ _ q1 pallet hqp
      have hle : (unplaced q1).length ≤ q1.length := List.length_filter_le _ _
      by_cases c1 : (unplaced q1).length = q1.length
      · rw [if_pos c1]; rfl
      · rw [if_neg c1]
        by_cases c2 : (unplaced q1).length = 0
        · rw [if_pos c2]; rfl
        · rw [if_neg c2]
          apply ih
          · intro j hj
            rw [unplaced_idem] at hj
            exact hb j (hsub.subset hj)
          · rw [unplaced_idem]
            exact lt_of_le_of_lt hsub.length_le hf
          · omega

theorem exists_fuel (spacing : ℚ) (hs : 0 < spacing) :
    ∀ (items : List Item), ∃ F : Nat, items.length < F ∧ ∀ j ∈ items, j.length < F * spacing := by
  intro items
  induction items with
  | nil => exact ⟨1, by simp, by simp⟩
  | cons a l ih =>
    obtain ⟨F, hF1, hF2⟩ := ih
    obtain ⟨n, hn⟩ := exists_nat_gt (a.length / spacing)
    have hn' : a.length < n * spacing := (div_lt_iff₀ hs).mp hn
    refine ⟨F + n + 1, by simp only [List.length_cons]; omega, ?_⟩
    intro j hj
    have hmono : ∀ (m : Nat), m ≤ F + n + 1 → (m : ℚ) * spacing ≤ ((F + n + 1 : Nat) : ℚ) * spacing :=
      fun m hm => mul_le_mul_of_nonneg_right (by exact_mod_cast hm) hs.le
    rcases List.mem_cons.mp hj with hj | hj
    · rw [hj]; exact lt_of_lt_of_le hn' (hmono n (by omega))
    · exact lt_of_lt_of_le (hF2 j hj) (hmono F (by omega))

/-- With a positive `framingSpacing` the run returns: some amount of fuel is
enough for every inner loop, and as many passes as there are items are enough
for the scheduler. -/
theorem runOptimization_terminates (config : Config) (items : List Item)
    (hs : 0 < config.framingSpacing) :
    ∃ F : Nat, ∀ (fuel passes : Nat), F ≤ fuel → items.length ≤ passes →
      ∃ r, runOptimization passes fuel config items = some r := by
  obtain ⟨F, hF1, hF2⟩ := exists_fuel config.framingSpacing hs items
  refine ⟨F, fun fuel passes hfuel hpasses => ?_⟩
  apply Option.isSome_iff_exists.mp
  unfold runOptimization
  by_cases he : items.length = 0
  · rw [if_pos he]; rfl
  · rw [if_neg he]
    have hperm := sortedQueue_perm items
    have hmono : (F : ℚ) * config.framingSpacing ≤ (fuel : ℚ) * config.framingSpacing :=
      mul_le_mul_of_nonneg_right (by exact_mod_cast hfuel) hs.le
    apply crateLoop_isSome config fuel
    · intro j hj
      exact lt_of_lt_of_le (hF2 j (hperm.subset (mem_unplaced.mp hj).1)) hmono
    · have h1 : (unplaced (sortedQueue items)).length ≤ (sortedQueue items).length :=
        List.length_filter_le _ _
      rw [hperm.length_eq] at h1
      omega
    · rw [hperm.length_eq]; exact hpasses

/-! ## A zero post spacing -/

theorem cradleLoop_zero_spacing (config : Config) (frameLen pocketHeight zStartGlobal
    leftPostX rightPostX layerY : ℚ) (hs : config.framingSpacing = 0) (z : ℚ)
    (hz : z ≤ frameLen) :
    ∀ (fuel : Nat), cradleLoop config frameLen pocketHeight zStartGlobal leftPostX rightPostX
      layerY fuel z = none := by
  intro fuel
  induction fuel with
  | zero => simp [cradleLoop, hz]
  | succ fuel ih =>
    simp only [cradleLoop, if_pos hz, hs, add_zero, ih]

theorem placeRow_zero_spacing (config : Config) (fuel : Nat) (layerY x : ℚ) (ri : RowItem)
    (rest : List RowItem) (hs : config.framingSpacing = 0) (hv : ri.vertical = false)
    (hz : 0 ≤ ri.dims.z) :
    placeRow config fuel layerY (ri :: rest) x = none := by
  have hf : framing config fuel layerY (itemX config x ri) ri = none := by
    unfold framing
    simp only [hv, Bool.false_eq_true, if_false]
    rw [cradleLoop_zero_spacing config _ _ _ _ _ _ hs 0 hz fuel]
  simp only [placeRow, hf]

/-- C5, at `framingSpacing = 0`: on the single item `pipeItem`, which is placed
flat, the cradle-point loop never advances, so the run returns nothing however
many passes and inner iterations it is allowed. -/
theorem zero_spacing_diverges :
    ∀ (passes fuel : Nat), runOptimization passes fuel zeroSpacingConfig [pipeItem] = none := by
  have hrow : (fillRow zeroSpacingConfig zeroSpacingConfig.lumberThick [pipeItem] 0
      (newRow 0)).2.rowItems = [⟨0, markPlaced pipeItem, ⟨4.5, 4.5, 240⟩, false⟩] := by
    decide!
  have hpallet : ∀ (fuel n : Nat) (acc : List Pallet),
      palletLoop zeroSpacingConfig fuel n [pipeItem] (newPallet zeroSpacingConfig acc)
        zeroSpacingConfig.lumberThick = none := by
    intro fuel n acc
    cases n with
    | zero => rfl
    | succ n =>
      have h0 : (newPallet zeroSpacingConfig acc).totalWeight = 0 := rfl
      simp only [palletLoop, h0, hrow]
      rw [placeRow_zero_spacing zeroSpacingConfig fuel _ _ _ _ rfl rfl (by norm_num)]
      simp
  intro passes fuel
  have hq : sortedQueue [pipeItem] = [pipeItem] := rfl
  unfold runOptimization
  rw [if_neg (by simp), hq]
  cases passes with
  | zero => simp [crateLoop]
  | succ passes => simp [crateLoop, hpallet]

/-! ## Items of positive size -/

theorem fitsAlone_markPlaced (config : Config) (item : Item) :
    FitsAlone config (markPlaced item) ↔ FitsAlone config item := Iff.rfl

/-- `FitsAlone` is the acceptance test of the scan at the start of a crate. -/
theorem accepts_first_iff (config : Config) (item : Item) (h : item.isPlaced = false) :
    Accepts config config.lumberThick item (newRow 0) ↔ FitsAlone config item := by
  unfold Accepts FitsAlone
  simp only [newRow, zero_add, List.length_nil, ne_eq, not_true_eq_false, false_implies,
    true_and, le_refl, implies_true, h, gt_iff_lt, not_lt, not_and]
  constructor
  · rintro ⟨h1, h2, h3, h4⟩
    exact ⟨h1, h3, h4, h2⟩
  · rintro ⟨h1, h2, h3, h4⟩
    exact ⟨h1, h4, h2, h3⟩

theorem dims_pos (config : Config) (item : Item) (h : PositiveDims item) :
    0 < (dims config item).x ∧ 0 < (dims config item).y ∧ 0 < (dims config item).z := by
  obtain ⟨h1, h2, h3⟩ := h
  unfold dims
  by_cases hv : vertical config item = true
  · rw [if_pos hv]; exact ⟨h2, h3, h1⟩
  · rw [if_neg hv]
    by_cases hw : item.width > item.height
    · rw [if_pos hw]; exact ⟨h1, h2, h3⟩
    · rw [if_neg hw]; exact ⟨h2, h1, h3⟩

theorem itemFootprintWidth_bounds (config : Config) (n : Nat) (item : Item)
    (hpos : Positive item) (hlw : 0 ≤ config.lumberWidth) :
    0 ≤ itemFootprintWidth config n item ∧
    (vertical config item = false → config.lumberWidth ≤ itemFootprintWidth config n item) ∧
    (vertical config item = true →
      itemFootprintWidth config 0 item = itemFootprintWidth config n item) ∧
    (vertical config item = false → n = 0 →
      itemFootprintWidth config 0 item = itemFootprintWidth config n item) ∧
    (vertical config item = false →
      itemFootprintWidth config 0 item = config.lumberWidth + itemFootprintWidth config 1 item) := by
  have hx := (dims_pos config item hpos.1).1
  unfold itemFootprintWidth
  by_cases hv : vertical config item = true
  · simp only [hv, if_true]
    refine ⟨by norm_num; linarith, by simp, by simp, by simp, by simp⟩
  · have hv' : vertical config item = false := by simpa using hv
    simp only [hv', Bool.false_eq_true, if_false, if_true, one_ne_zero]
    refine ⟨?_, fun _ => ?_, by simp, fun _ hn => by rw [if_pos hn], fun _ => by ring⟩
    · by_cases hn : n = 0
      · rw [if_pos hn]; linarith
      · rw [if_neg hn]; linarith
    · by_cases hn : n = 0
      · rw [if_pos hn]; linarith
      · rw [if_neg hn]; linarith

theorem scanItem_rowPos (config : Config) (layerY : ℚ) (k : Nat) (item : Item)
    (st : RowScan) (hlw : 0 ≤ config.lumberWidth) (hy : config.lumberThick ≤ layerY)
    (hpos : item.isPlaced = false → Positive item) (h : RowPos config st) :
    RowPos config (scanItem config layerY k item st).2 := by
  by_cases ha : Accepts config layerY item st
  · rw [scanItem_of_accepts config layerY k item st ha]
    obtain ⟨a1, a2, a3, a4, a5, a6, a7⟩ := ha
    have hp := hpos a1
    obtain ⟨f1, f2, f3, f4, f5⟩ :=
      itemFootprintWidth_bounds config st.rowItems.length item hp hlw
    refine ⟨?_, ?_, ?_, ?_⟩
    · simp only [acceptState]
      linarith [h.weightNonneg, hp.2]
    · simp only [acceptState]
      linarith [h.widthNonneg]
    · intro _ hv
      simp only [acceptState] at hv ⊢
      linarith [h.widthNonneg, f2 hv]
    · intro ri hri
      simp only [acceptState, List.mem_append, List.mem_singleton] at hri
      rcases hri with hri | hri
      · exact h.fitAlone ri hri
      · rw [hri]
        show FitsAlone config (markPlaced item)
        rw [fitsAlone_markPlaced]
        refine ⟨not_lt.mpr ?_, not_lt.mpr ?_, not_lt.mpr ?_, ?_⟩
        · linarith [h.weightNonneg]
        · linarith
        · by_cases hv : vertical config item = true
          · rw [f3 hv]; linarith [h.widthNonneg]
          · have hv' : vertical config item = false := by simpa using hv
            by_cases hn : st.rowItems.length = 0
            · rw [f4 hv' hn]; linarith [h.widthNonneg]
            · have hne : st.rowItems ≠ [] := fun e => hn (by rw [e]; rfl)
              have hw := h.flatWidth hne (by rw [a4 hne]; exact hv')
              have e1 : itemFootprintWidth config st.rowItems.length item
                  = itemFootprintWidth config 1 item := by
                unfold itemFootprintWidth
                simp [hv', hn]
              rw [f5 hv']
              rw [e1] at a7
              linarith
        · rintro ⟨hv, hz⟩
          exact absurd (a5 hv) (not_le.mpr hz)
  · obtain ⟨_, e2, e3, _, _, e6, e7⟩ := scanItem_of_not_accepts config layerY k item st ha
    refine ⟨?_, ?_, ?_, ?_⟩
    · rw [e6]; exact h.weightNonneg
    · rw [e3]; exact h.widthNonneg
    · rw [e2, e3]
      intro hne hv
      rw [e7 hne] at hv
      exact h.flatWidth hne hv
    · rw [e2]; exact h.fitAlone

theorem fillRow_rowPos (config : Config) (layerY w0 : ℚ) (queue : List Item)
    (hlw : 0 ≤ config.lumberWidth) (hy : config.lumberThick ≤ layerY) (hw : 0 ≤ w0)
    (hpos : ∀ i ∈ unplaced queue, Positive i) :
    RowPos config (fillRow config layerY queue 0 (newRow w0)).2 := by
  refine fillRow_induct config layerY (RowPos config) queue 0 (newRow w0) ?_ ?_
  · intro item hitem k st1 hst
    exact scanItem_rowPos config layerY k item st1 hlw hy
      (fun hp => hpos item (mem_unplaced.mpr ⟨hitem, hp⟩)) hst
  · exact ⟨by simpa [newRow] using hw, by simp [newRow], by simp [newRow], by simp [newRow]⟩

/-! ## The height cursor and the standing orientation -/

theorem nextLayerY_ge (config : Config) (layerY : ℚ) (row : RowScan)
    (ht : 0 ≤ config.lumberThick) (hh : 0 ≤ row.rowMaxHeight) :
    layerY ≤ nextLayerY config layerY row := by
  unfold nextLayerY
  by_cases hv : row.isVerticalRow = true
  · rw [if_pos hv]; linarith
  · rw [if_neg hv]; linarith

theorem palletLoop_items_append (config : Config) (fuel n : Nat) (queue : List Item)
    (pallet : Pallet) (layerY : ℚ) (q1 : List Item) (p1 : Pallet)
    (h : palletLoop config fuel n queue pallet layerY = some (q1, p1)) :
    ∃ more, p1.items = pallet.items ++ more := by
  obtain ⟨_, hinv, _⟩ := palletLoop_induct config fuel
    (fun _ p _ => ∃ more, p.items = pallet.items ++ more)
    (by
      intro q p y ps ws hinv _ _
      obtain ⟨more, hm⟩ := hinv
      exact ⟨more ++ ps, by simp [withRow, hm]⟩)
    n queue pallet layerY q1 p1 ⟨[], by simp⟩ h
  exact hinv

/-- The first iteration of the crate builder when its row is not empty. -/
theorem palletLoop_first (config : Config) (fuel n : Nat) (queue : List Item)
    (pallet : Pallet) (layerY : ℚ) (q1 : List Item) (p1 : Pallet)
    (hne : (fillRow config layerY queue 0 (newRow pallet.totalWeight)).2.rowItems ≠ [])
    (h : palletLoop config fuel n queue pallet layerY = some (q1, p1)) :
    ∃ m ps ws, n = m + 1 ∧
      placeRow config fuel layerY
        (fillRow config layerY queue 0 (newRow pallet.totalWeight)).2.rowItems
        (startX config (fillRow config layerY queue 0 (newRow pallet.totalWeight)).2)
        = some (ps, ws) ∧
      palletLoop config fuel m (fillRow config layerY queue 0 (newRow pallet.totalWeight)).1
        (withRow pallet ps ws (fillRow config layerY queue 0 (newRow pallet.totalWeight)).2
          (nextLayerY config layerY
            (fillRow config layerY queue 0 (newRow pallet.totalWeight)).2))
        (nextLayerY config layerY (fillRow config layerY queue 0 (newRow pallet.totalWeight)).2)
        = some (q1, p1) := by
  cases n with
  | zero => simp [palletLoop] at h
  | succ m =>
    simp only [palletLoop] at h
    have he : ¬ (fillRow config layerY queue 0 (newRow pallet.totalWeight)).2.rowItems.length = 0 :=
      fun e => hne (List.length_eq_zero.mp e)
    rw [if_neg he] at h
    cases hp : placeRow config fuel layerY
        (fillRow config layerY queue 0 (newRow pallet.totalWeight)).2.rowItems
        (startX config (fillRow config layerY queue 0 (newRow pallet.totalWeight)).2) with
    | none => simp [hp] at h
    | some pw =>
      obtain ⟨ps, ws⟩ := pw
      simp only [hp] at h
      exact ⟨m, ps, ws, rfl, rfl, h⟩

/-- A property of crates that every finished pass over a queue of entries
satisfying `R` establishes holds of every crate the scheduler returns. -/
theorem crateLoop_forall_of (config : Config) (fuel : Nat) (R : Item → Prop)
    (Q : Pallet → Prop)
    (hQ : ∀ (queue : List Item) (acc : List Pallet) (q1 : List Item) (pallet : Pallet),
      (∀ i ∈ queue, R i) →
      palletLoop config fuel fuel queue (newPallet config acc) config.lumberThick
        = some (q1, pallet) → Q pallet) :
    ∀ (passes : Nat) (queue : List Item) (acc : List Pallet) (r : Result),
      (∀ i ∈ queue, R i) → (∀ c ∈ acc, Q c) →
      crateLoop config fuel passes queue acc = some r → ∀ c ∈ r.pallets, Q c := by
  intro passes queue acc r hR hacc h
  refine crateLoop_induct config fuel (fun q acc => (∀ i ∈ q, R i) ∧ ∀ c ∈ acc, Q c)
    (fun r => ∀ c ∈ r.pallets, Q c) (fun _ _ hinv _ => hinv.2) ?_ passes queue acc r
    ⟨hR, hacc⟩ h
  intro queue acc q1 pallet hinv _ hp
  have hall : ∀ c ∈ acc ++ [pallet], Q c := by
    intro c hc
    rcases List.mem_append.mp hc with hc | hc
    · exact hinv.2 c hc
    · rw [List.mem_singleton.mp hc]; exact hQ queue acc q1 pallet hinv.1 hp
  have hsub := palletLoop_sublist config fuel fuel queue _ _ q1 pallet hp
  refine ⟨fun _ => hinv.2, fun _ _ => hall, fun _ _ => ⟨?_, hall⟩⟩
  intro i hi
  exact hinv.1 i (mem_unplaced.mp (hsub.subset hi)).1

/-! ## Fit failure -/

theorem palletLoop_fitsAlone (config : Config) (fuel n : Nat) (queue : List Item)
    (pallet : Pallet) (layerY : ℚ) (q1 : List Item) (p1 : Pallet)
    (hlw : 0 ≤ config.lumberWidth) (ht : 0 ≤ config.lumberThick)
    (hy : config.lumberThick ≤ layerY) (hw : 0 ≤ pallet.totalWeight)
    (hpos : ∀ i ∈ unplaced queue, Positive i)
    (h0 : ∀ x ∈ pallet.items, FitsAlone config x.toItem)
    (h : palletLoop config fuel n queue pallet layerY = some (q1, p1)) :
    ∀ x ∈ p1.items, FitsAlone config x.toItem := by
  obtain ⟨_, hinv, _⟩ := palletLoop_induct config fuel
    (fun q p y => config.lumberThick ≤ y ∧ 0 ≤ p.totalWeight ∧
      (∀ i ∈ unplaced q, Positive i) ∧ ∀ x ∈ p.items, FitsAlone config x.toItem)
    (by
      intro q p y ps ws hinv _ hp
      obtain ⟨i1, i2, i3, i4⟩ := hinv
      have hr := fillRow_rowInv config y p.totalWeight q 0 _
        (rowInv_newRow config y p.totalWeight)
      have hrp := fillRow_rowPos config y p.totalWeight q hlw i1 i2 i3
      refine ⟨le_trans i1 (nextLayerY_ge config y _ ht hr.heightNonneg), hrp.weightNonneg,
        fun i hi => i3 i ((fillRow_unplaced_sublist config y q 0 _).subset hi), ?_⟩
      intro x hx
      simp only [withRow, List.mem_append] at hx
      rcases hx with hx | hx
      · exact i4 x hx
      · obtain ⟨ri, hri, e1, _, _⟩ := placeRow_mem config fuel y _ _ ps ws hp x hx
        rw [e1]
        exact hrp.fitAlone ri hri)
    n queue pallet layerY q1 p1 ⟨hy, hw, hpos, h0⟩ h
  exact hinv.2.2.2

theorem crateLoop_errors (config : Config) (fuel : Nat) :
    ∀ (passes : Nat) (queue : List Item) (acc : List Pallet) (r : Result),
      crateLoop config fuel passes queue acc = some r →
      r.errors = [] ∨ r.errors = [fitFailure] := by
  intro passes queue acc r h
  refine crateLoop_induct config fuel (fun _ _ => True)
    (fun r => r.errors = [] ∨ r.errors = [fitFailure]) (fun _ _ _ _ => Or.inl rfl) ?_
    passes queue acc r trivial h
  intro _ _ _ _ _ _ _
  exact ⟨fun _ => Or.inr rfl, fun _ _ => Or.inl rfl, fun _ _ => trivial⟩

theorem palletLoop_head_placed (config : Config) (fuel n : Nat) (head : Item)
    (rest : List Item) (acc : List Pallet) (q1 : List Item) (p1 : Pallet)
    (hfresh : head.isPlaced = false) (hfit : FitsAlone config head)
    (h : palletLoop config fuel n (head :: rest) (newPallet config acc) config.lumberThick
      = some (q1, p1)) :
    p1.items ≠ [] := by
  have hw : (newPallet config acc).totalWeight = 0 := rfl
  have hne : (fillRow config config.lumberThick (head :: rest) 0
      (newRow (newPallet config acc).totalWeight)).2.rowItems ≠ [] := by
    rw [hw]
    exact fillRow_accepts_head config _ head rest 0 _
      ((accepts_first_iff config head hfresh).mpr hfit)
  obtain ⟨m, ps, ws, _, hp, hrest⟩ := palletLoop_first config fuel n _ _ _ q1 p1 hne h
  obtain ⟨more, hm⟩ := palletLoop_items_append config fuel m _ _ _ q1 p1 hrest
  have hlen := congrArg List.length (placeRow_map_toItem config fuel _ _ _ ps ws hp)
  simp only [List.length_map] at hlen
  have hps : ps ≠ [] := by
    intro e
    rw [e] at hlen
    exact hne (List.length_eq_zero.mp hlen.symm)
  intro e
  rw [e] at hm
  simp [withRow, hps] at hm

theorem crateLoop_no_failure (config : Config) (fuel : Nat) :
    ∀ (passes : Nat) (queue : List Item) (acc : List Pallet) (r : Result),
      (∀ i ∈ queue, i.isPlaced = false ∧ FitsAlone config i) →
      crateLoop config fuel passes queue acc = some r → r.errors = [] := by
  intro passes queue acc r hq h
  refine crateLoop_induct config fuel
    (fun q _ => ∀ i ∈ q, i.isPlaced = false ∧ FitsAlone config i)
    (fun r => r.errors = []) (fun _ _ _ _ => rfl) ?_ passes queue acc r hq h
  intro queue acc q1 pallet hinv hne hp
  have hfresh : ∀ i ∈ queue, i.isPlaced = false := fun i hi => (hinv i hi).1
  have hc := palletLoop_fresh_count config fuel fuel queue acc _ q1 pallet hfresh hp
  have hsub := palletLoop_sublist config fuel fuel queue _ _ q1 pallet hp
  refine ⟨fun hfail => ?_, fun _ _ => rfl, fun _ _ i hi => ?_⟩
  · exfalso
    cases queue with
    | nil => exact hne rfl
    | cons head rest =>
      have hh := hinv head (List.mem_cons_self _ _)
      have := palletLoop_head_placed config fuel fuel head rest acc q1 pallet hh.1 hh.2 hp
      have hpos : 0 < pallet.items.length := List.length_pos.mpr this
      omega
  · exact hinv i (mem_unplaced.mp (hsub.subset hi)).1

/-- The fit-failure error of the runs that return, in exact arithmetic, for
`lumberWidth ≥ 0` and `lumberThick ≥ 0`, on fresh input items of positive size.
A run that returns gives the fit-failure error if and only if some input item
fails `FitsAlone`, and an item that fails `FitsAlone` is in no returned crate.
`FitsAlone` is exactly acceptance by the scan step at the start of an empty
crate. With a positive `framingSpacing` the run does return; with
`framingSpacing = 0` it need not. -/
theorem fit_failure_characterisation (passes fuel : Nat) (config : Config)
    (items : List Item) (r : Result)
    (hlw : 0 ≤ config.lumberWidth) (ht : 0 ≤ config.lumberThick)
    (hpos : ∀ i ∈ items, Positive i) (hfresh : ∀ i ∈ items, i.isPlaced = false)
    (hrun : runOptimization passes fuel config items = some r) :
    (r.errors = [fitFailure] ↔ ∃ i ∈ items, ¬ FitsAlone config i) ∧
    (∀ i ∈ items, ¬ FitsAlone config i →
      ∀ c ∈ r.pallets, ∀ x ∈ c.items, x.toItem ≠ markPlaced i) ∧
    (∀ i ∈ items, (FitsAlone config i ↔
      scanItem config config.lumberThick 0 i (newRow 0)
        = (markPlaced i, acceptState config 0 i (newRow 0)))) ∧
    (0 < config.framingSpacing → ∃ F : Nat, ∀ (fuel1 passes1 : Nat), F ≤ fuel1 →
      items.length ≤ passes1 → ∃ r1, runOptimization passes1 fuel1 config items = some r1) := by
  have hplaced : ∀ c ∈ r.pallets, ∀ x ∈ c.items, FitsAlone config x.toItem := by
    have hrun' := hrun
    unfold runOptimization at hrun'
    by_cases he : items.length = 0
    · rw [if_pos he] at hrun'
      simp only [Option.some.injEq] at hrun'
      rw [← hrun']
      simp
    · rw [if_neg he] at hrun'
      refine crateLoop_forall_of config fuel (fun i => Positive i) _ ?_ passes _ [] r
        (fun i hi => hpos i ((sortedQueue_perm items).subset hi)) (by simp) hrun'
      intro queue acc q1 pallet hq hp
      exact palletLoop_fitsAlone config fuel fuel queue _ _ q1 pallet hlw ht (le_refl _)
        (by simp [newPallet]) (fun i hi => hq i (mem_unplaced.mp hi).1)
        (by simp [newPallet]) hp
  have hnever : ∀ i ∈ items, ¬ FitsAlone config i →
      ∀ c ∈ r.pallets, ∀ x ∈ c.items, x.toItem ≠ markPlaced i := by
    intro i _ hi c hc x hx e
    have := hplaced c hc x hx
    rw [e, fitsAlone_markPlaced] at this
    exact hi this
  have herr : r.errors = [] ∨ r.errors = [fitFailure] := by
    have hrun' := hrun
    unfold runOptimization at hrun'
    by_cases he : items.length = 0
    · rw [if_pos he] at hrun'
      simp only [Option.some.injEq] at hrun'
      rw [← hrun']
      exact Or.inl rfl
    · rw [if_neg he] at hrun'
      exact crateLoop_errors config fuel passes _ _ r hrun'
  refine ⟨⟨?_, ?_⟩, hnever, ?_, fun hs => runOptimization_terminates config items hs⟩
  · intro hfail
    by_contra hall
    have hall' : ∀ i ∈ items, FitsAlone config i := by
      intro i hi
      by_contra hn
      exact hall ⟨i, hi, hn⟩
    have hrun' := hrun
    unfold runOptimization at hrun'
    by_cases he : items.length = 0
    · rw [if_pos he] at hrun'
      simp only [Option.some.injEq] at hrun'
      rw [← hrun'] at hfail
      simp at hfail
    · rw [if_neg he] at hrun'
      have := crateLoop_no_failure config fuel passes _ _ r
        (fun i hi => ⟨hfresh i ((sortedQueue_perm items).subset hi),
          hall' i ((sortedQueue_perm items).subset hi)⟩) hrun'
      rw [this] at hfail
      simp at hfail
  · rintro ⟨i, hi, hn⟩
    rcases herr with herr | herr
    · exfalso
      have hperm := runOptimization_perm passes fuel config items r hrun herr
      have hmem : markPlaced i ∈ (placedItems r.pallets).map PlacedItem.toItem :=
        hperm.symm.subset (List.mem_map_of_mem _
          (mem_unplaced.mpr ⟨(sortedQueue_perm items).symm.subset hi, hfresh i hi⟩))
      obtain ⟨x, hx, hxe⟩ := List.mem_map.mp hmem
      obtain ⟨c, hc, hxc⟩ := List.mem_flatMap.mp hx
      exact hnever i hi hn c hc x hxc hxe
    · exact herr
  · intro i hi
    constructor
    · intro hf
      exact scanItem_of_accepts config _ 0 i _
        ((accepts_first_iff config i (hfresh i hi)).mpr hf)
    · intro hs
      by_contra hn
      have ha : ¬ Accepts config config.lumberThick i (newRow 0) :=
        fun ha => hn ((accepts_first_iff config i (hfresh i hi)).mp ha)
      have h1 := (scanItem_of_not_accepts config _ 0 i _ ha).1
      rw [hs] at h1
      have h2 := congrArg Item.isPlaced h1
      rw [hfresh i hi] at h2
      simp [markPlaced] at h2

/-! ## A second run on the same item list -/

theorem fillRow_all_placed (config : Config) (layerY : ℚ) :
    ∀ (queue : List Item) (i : Nat) (st : RowScan), (∀ x ∈ queue, x.isPlaced = true) →
      fillRow config layerY queue i st = (queue, st) := by
  intro queue
  induction queue with
  | nil => intro i st _; rfl
  | cons item rest ih =>
    intro i st h
    have h1 : scanItem config layerY i item st = (item, st) := by
      simp [scanItem, h item (List.mem_cons_self _ _)]
    simp only [fillRow, h1, ih (i + 1) st (fun x hx => h x (List.mem_cons_of_mem _ hx))]

/-- On a non-empty list whose items are all flagged placed, which is what a run
without error leaves behind, the run returns one crate with no item. -/
theorem runOptimization_all_placed (passes fuel : Nat) (config : Config) (items : List Item)
    (hne : items ≠ []) (hall : ∀ x ∈ items, x.isPlaced = true) :
    runOptimization (passes + 1) (fuel + 1) config items
      = some ⟨[newPallet config []], []⟩ := by
  have hperm := sortedQueue_perm items
  have hq : ∀ x ∈ sortedQueue items, x.isPlaced = true := fun x hx => hall x (hperm.subset hx)
  have hqne : sortedQueue items ≠ [] := by
    intro e
    have := hperm.length_eq
    rw [e] at this
    exact hne (List.length_eq_zero.mp this.symm)
  have hp : palletLoop config (fuel + 1) (fuel + 1) (sortedQueue items) (newPallet config [])
      config.lumberThick = some (sortedQueue items, newPallet config []) := by
    simp [palletLoop, fillRow_all_placed config _ _ 0 _ hq, newRow]
  have hu : unplaced (sortedQueue items) = [] := by
    unfold unplaced
    rw [List.filter_eq_nil_iff]
    intro x hx
    simp [hq x hx]
  unfold runOptimization
  rw [if_neg (fun e => hne (List.length_eq_zero.mp e)),
    crateLoop_succ config (fuel + 1) passes _ [] _ _ hqne hp, hu]
  have hl : ¬ ([] : List Item).length = (sortedQueue items).length := by
    intro e
    exact hqne (List.length_eq_zero.mp e.symm)
  rw [if_neg hl]
  simp

/-- C6, on the single item `pipeItem` under the default configuration: the
first run returns one crate holding the item, whose object now carries
`isPlaced = true`; the second run, on that same object, returns one crate with
no item, which is not what the first run returned. -/
theorem rerun_differs :
    runOptimization 1 6 defaultConfig [pipeItem] = some firstRun ∧
    firstRun.pallets.map (fun c => c.items.map PlacedItem.toItem) = [[markPlaced pipeItem]] ∧
    runOptimization 1 6 defaultConfig [markPlaced pipeItem]
      = some ⟨[newPallet defaultConfig []], []⟩ ∧
    runOptimization 1 6 defaultConfig [markPlaced pipeItem]
      ≠ runOptimization 1 6 defaultConfig [pipeItem] := by
  refine ⟨by decide!, by decide!, by decide!, by decide!⟩

/-! ## Orientation of the placed items -/

theorem palletLoop_finalDims (config : Config) (fuel n : Nat) (queue : List Item)
    (pallet : Pallet) (layerY : ℚ) (q1 : List Item) (p1 : Pallet)
    (h0 : ∀ x ∈ pallet.items, x.finalDims = dims config x.toItem)
    (h : palletLoop config fuel n queue pallet layerY = some (q1, p1)) :
    ∀ x ∈ p1.items, x.finalDims = dims config x.toItem := by
  obtain ⟨_, hinv, _⟩ := palletLoop_induct config fuel
    (fun _ p _ => ∀ x ∈ p.items, x.finalDims = dims config x.toItem)
    (by
      intro q p y ps ws hinv _ hp x hx
      simp only [withRow, List.mem_append] at hx
      rcases hx with hx | hx
      · exact hinv x hx
      · obtain ⟨ri, hri, e1, e2, _⟩ := placeRow_mem config fuel y _ _ ps ws hp x hx
        have hr := fillRow_rowInv config y p.totalWeight q 0 _
          (rowInv_newRow config y p.totalWeight)
        rw [e2, e1]
        exact (hr.entries ri hri).1)
    n queue pallet layerY q1 p1 h0 h
  exact hinv

/-- Every placed item of a run carries the dimensions the selection rule of
lines 163-171 gives its item. -/
theorem runOptimization_finalDims (passes fuel : Nat) (config : Config) (items : List Item)
    (r : Result) (hrun : runOptimization passes fuel config items = some r) :
    ∀ c ∈ r.pallets, ∀ x ∈ c.items, x.finalDims = dims config x.toItem := by
  unfold runOptimization at hrun
  by_cases he : items.length = 0
  · rw [if_pos he] at hrun
    simp only [Option.some.injEq] at hrun
    rw [← hrun]
    simp
  · rw [if_neg he] at hrun
    refine crateLoop_forall config fuel _ ?_ passes _ [] r (by simp) hrun
    intro queue acc q1 pallet hp
    exact palletLoop_finalDims config fuel fuel queue _ _ q1 pallet (by simp [newPallet]) hp

theorem vertical_iff (config : Config) (item : Item) :
    vertical config item = true ↔
      config.allowVertical = true ∧ item.length < config.maxHeight ∧ item.length < 90 := by
  unfold vertical
  simp [Bool.and_eq_true, and_assoc]

theorem dims_of_standing (config : Config) (item : Item)
    (h : config.allowVertical = true ∧ item.length < config.maxHeight ∧ item.length < 90) :
    dims config item = ⟨item.width, item.length, item.height⟩ := by
  unfold dims
  rw [if_pos ((vertical_iff config item).mpr h)]

theorem dims_of_flat (config : Config) (item : Item) (h : vertical config item = false) :
    (dims config item).x = min item.width item.height ∧
    (dims config item).y = max item.width item.height ∧
    (dims config item).z = item.length := by
  unfold dims
  rw [h]
  by_cases hw : item.width > item.height
  · rw [if_neg (by simp), if_pos hw]
    exact ⟨(min_eq_right hw.le).symm, (max_eq_left hw.le).symm, rfl⟩
  · rw [if_neg (by simp), if_neg hw]
    exact ⟨(min_eq_left (not_lt.mp hw)).symm, (max_eq_right (not_lt.mp hw)).symm, rfl⟩

/-- C11 (standing selection). In every row the scan builds, an item carries the
standing flag exactly when `allowVertical` is on and its length is below both
`maxHeight` and 90. Every placed item of a returned crate that meets this test
has final dimensions (x = width, y = length, z = height); every other placed
item has z = length and takes its x and y from width and height. On the single
item of length 240, width 4.5, height 4.5 (the default 250 x 84 pallet) the run
returns one crate with that one item, flat, and a crate height above the base
height `lumberThick`. -/
theorem standing_selection (passes fuel : Nat) (config : Config) (items : List Item)
    (r : Result) (hrun : runOptimization passes fuel config items = some r) :
    (∀ (layerY w0 : ℚ) (queue : List Item),
      ∀ ri ∈ (fillRow config layerY queue 0 (newRow w0)).2.rowItems,
        (ri.vertical = true ↔ config.allowVertical = true ∧
          ri.item.length < config.maxHeight ∧ ri.item.length < 90)) ∧
    (∀ c ∈ r.pallets, ∀ x ∈ c.items,
      (config.allowVertical = true ∧ x.length < config.maxHeight ∧ x.length < 90 →
        x.finalDims = ⟨x.width, x.length, x.height⟩) ∧
      (¬ (config.allowVertical = true ∧ x.length < config.maxHeight ∧ x.length < 90) →
        x.finalDims.z = x.length ∧
        ((x.finalDims.x = x.width ∧ x.finalDims.y = x.height) ∨
          (x.finalDims.x = x.height ∧ x.finalDims.y = x.width)))) ∧
    (runOptimization 1 6 defaultConfig [pipeItem] = some firstRun ∧
      firstRun.errors = [] ∧
      firstRun.pallets.map (fun c => c.items.map fun x => (x.toItem, x.finalDims))
        = [[(markPlaced pipeItem, ⟨4.5, 4.5, 240⟩)]] ∧
      vertical defaultConfig pipeItem = false ∧
      ∀ c ∈ firstRun.pallets, defaultConfig.lumberThick < c.currentHeight) := by
  refine ⟨?_, ?_, by decide!, by decide!, by decide!, by decide!, by decide!⟩
  · intro layerY w0 queue ri hri
    have hr := fillRow_rowInv config layerY w0 queue 0 _ (rowInv_newRow config layerY w0)
    rw [(hr.entries ri hri).2.1]
    exact vertical_iff config ri.item
  · intro c hc x hx
    have hd := runOptimization_finalDims passes fuel config items r hrun c hc x hx
    constructor
    · intro hs
      rw [hd]
      exact dims_of_standing config x.toItem hs
    · intro hs
      have hv : vertical config x.toItem = false := by
        by_contra hv
        exact hs ((vertical_iff config x.toItem).mp (by simpa using hv))
      obtain ⟨e1, e2, e3⟩ := dims_of_flat config x.toItem hv
      rw [hd]
      refine ⟨e3, ?_⟩
      by_cases hw : x.width ≤ x.height
      · left
        rw [e1, e2, min_eq_left hw, max_eq_right hw]
        exact ⟨rfl, rfl⟩
      · right
        have hw' := (not_le.mp hw).le
        rw [e1, e2, min_eq_right hw', max_eq_left hw']
        exact ⟨rfl, rfl⟩

/-- C12, as stated, fails: the demo item `CURVED-96` (width 12, height 8) is
placed flat in the sample run with occupied height 12, the larger of the two,
not 8. -/
theorem flat_orientation_counterexample :
    dims defaultConfig (unitItem "CURVED-96" 8 12 96 65) = ⟨8, 12, 96⟩ ∧
    ¬ (∀ c ∈ sampleRun.pallets, ∀ x ∈ c.items, vertical defaultConfig x.toItem = false →
      0 < x.width → 0 < x.height → x.finalDims.y = min x.width x.height) := by
  refine ⟨by decide!, by decide!⟩

/-- C12 (flat orientation ordering), amended. For every item placed flat, the
occupied height `finalDims.y` is the larger of the item's width and height, the
footprint width `finalDims.x` is the smaller, and the depth `finalDims.z` is
the length. -/
theorem flat_orientation (passes fuel : Nat) (config : Config) (items : List Item)
    (r : Result) (hrun : runOptimization passes fuel config items = some r) :
    ∀ c ∈ r.pallets, ∀ x ∈ c.items, vertical config x.toItem = false →
      x.finalDims.y = max x.width x.height ∧ x.finalDims.x = min x.width x.height ∧
      x.finalDims.z = x.length := by
  intro c hc x hx hv
  have hd := runOptimization_finalDims passes fuel config items r hrun c hc x hx
  obtain ⟨e1, e2, e3⟩ := dims_of_flat config x.toItem hv
  rw [hd]
  exact ⟨e2, e1, e3⟩

/-! ## A single item that is too wide -/

/-- A run on a single fresh item that the scan does not accept into an empty
crate returns no crate and the fit-failure error after one pass. -/
theorem runOptimization_single_unfit (passes fuel : Nat) (config : Config) (item : Item)
    (hfresh : item.isPlaced = false)
    (hno : ¬ Accepts config config.lumberThick item (newRow 0)) :
    runOptimization (passes + 1) (fuel + 1) config [item] = some ⟨[], [fitFailure]⟩ := by
  have hscan := scanItem_of_not_accepts config config.lumberThick 0 item (newRow 0) hno
  have hrow : (fillRow config config.lumberThick [item] 0 (newRow 0)).2.rowItems = [] := by
    show (scanItem config config.lumberThick 0 item (newRow 0)).2.rowItems = []
    rw [hscan.2.1]; rfl
  have hq := fillRow_eq_of_empty config config.lumberThick [item] 0 (newRow 0) hrow
  have hp : palletLoop config (fuel + 1) (fuel + 1) [item] (newPallet config [])
      config.lumberThick = some ([item], newPallet config []) := by
    have hw : (newPallet config []).totalWeight = 0 := rfl
    simp only [palletLoop, hw, hrow, List.length_nil, if_true, hq]
  have hs : sortedQueue [item] = [item] := rfl
  have hu : unplaced [item] = [item] := unplaced_eq_self _ (by simpa using hfresh)
  unfold runOptimization
  rw [if_neg (by simp), hs, crateLoop_succ config (fuel + 1) passes [item] [] [item] _
    (by simp) hp, hu]
  simp

/-- C13, as stated, fails: under the default configuration with `maxHeight`
raised to 200, the single item of width 100 (more than the effective width 82)
and height 4 is laid with its width upright, takes a footprint of width 4, and
the run returns one crate holding it and no error. -/
theorem over_wide_item_counterexample :
    turnedItem.width > tallConfig.palletWidth - 2 * tallConfig.safetyGap ∧
    runOptimization 1 6 tallConfig [turnedItem] = some turnedRun ∧
    turnedRun.errors = [] ∧
    turnedRun.pallets.map (fun c => c.items.map fun x => (x.toItem, x.finalDims))
      = [[(markPlaced turnedItem, ⟨4, 100, 240⟩)]] := by
  refine ⟨by decide!, by decide!, by decide!, by decide!⟩

/-- C13 (over-wide item), amended. For every configuration with
`lumberWidth ≥ 0` and every manifest of a single fresh item whose width exceeds
`palletWidth - 2 * safetyGap` and is not turned upright by the flat orientation
(the item stands, or its width is at most its height), the run returns the
fit-failure error and no crate, after one pass. -/
theorem over_wide_item (passes fuel : Nat) (config : Config) (item : Item)
    (hlw : 0 ≤ config.lumberWidth) (hfresh : item.isPlaced = false)
    (hwide : item.width > config.palletWidth - 2 * config.safetyGap)
    (hup : vertical config item = true ∨ item.width ≤ item.height) :
    runOptimization (passes + 1) (fuel + 1) config [item] = some ⟨[], [fitFailure]⟩ := by
  apply runOptimization_single_unfit passes fuel config item hfresh
  intro ha
  have h7 := ha.2.2.2.2.2.2
  have hx : (dims config item).x = item.width := by
    unfold dims
    rcases hup with hv | hw
    · rw [if_pos hv]
    · by_cases hv : vertical config item = true
      · rw [if_pos hv]
      · rw [if_neg hv, if_neg (not_lt.mpr hw)]
  have hfp : item.width ≤ itemFootprintWidth config 0 item := by
    unfold itemFootprintWidth
    rw [hx]
    by_cases hv : vertical config item = true
    · rw [if_pos hv]; norm_num
    · rw [if_neg hv, if_pos rfl]; linarith
  simp only [newRow, List.length_nil, zero_add] at h7
  unfold effWidth at h7
  linarith

/-! ## The cradle of a flat item -/

theorem point_within (config : Config) (d : ℚ) (j : Nat) (hs : 0 < config.framingSpacing)
    (hd : 0 ≤ d) :
    (j : ℚ) * config.framingSpacing ≤ d ↔ j < cradleCount config d := by
  unfold cradleCount
  rw [Nat.lt_succ_iff, Nat.le_floor_iff (div_nonneg hd hs.le), le_div_iff₀ hs]

theorem countP_range_flatMap (p : Lumber → Bool) (f : Nat → List Lumber) (c : Nat)
    (h : ∀ j, (f j).countP p = c) :
    ∀ n, ((List.range n).flatMap f).countP p = n * c := by
  intro n
  induction n with
  | zero => simp
  | succ n ih =>
    rw [List.range_succ, List.flatMap_append, List.countP_append, ih, List.flatMap_singleton, h]
    ring


/-! ## Rounding to the nearest double -/

theorem roundHalfEven_bounds (q : ℚ) : ⌊q⌋ ≤ roundHalfEven q ∧ roundHalfEven q ≤ ⌊q⌋ + 1 := by
  unfold roundHalfEven
  split_ifs <;> constructor <;> omega

theorem roundHalfEven_intCast (n : ℤ) : roundHalfEven (n : ℚ) = n := by
  unfold roundHalfEven
  simp

theorem roundHalfEven_mono {x y : ℚ} (h : x ≤ y) : roundHalfEven x ≤ roundHalfEven y := by
  rcases lt_or_eq_of_le (Int.floor_mono h) with hlt | heq
  · exact le_trans (roundHalfEven_bounds x).2 (le_trans hlt (roundHalfEven_bounds y).1)
  · unfold roundHalfEven
    rw [heq]
    have hxy : x - (⌊y⌋ : ℚ) ≤ y - ⌊y⌋ := by linarith
    split_ifs <;> first | omega | (exfalso; linarith)

theorem roundHalfEven_ge_of_le {n : ℤ} {q : ℚ} (h : (n : ℚ) ≤ q) : n ≤ roundHalfEven q := by
  have := roundHalfEven_mono h
  rwa [roundHalfEven_intCast] at this

theorem roundHalfEven_le_of_le {n : ℤ} {q : ℚ} (h : q ≤ (n : ℚ)) : roundHalfEven q ≤ n := by
  have := roundHalfEven_mono h
  rwa [roundHalfEven_intCast] at this

theorem log2Fuel_eq_log : ∀ (f n : Nat), n ≤ f → log2Fuel f n = Nat.log 2 n := by
  intro f
  induction f with
  | zero =>
    intro n hn
    have : n = 0 := Nat.le_zero.mp hn
    subst this
    simp [log2Fuel]
  | succ f ih =>
    intro n hn
    unfold log2Fuel
    by_cases h2 : n < 2
    · rw [if_pos h2, Nat.log_of_lt h2]
    · have hle : n / 2 ≤ f := by omega
      rw [if_neg h2, ih (n / 2) hle]
      exact (Nat.log_of_one_lt_of_le (by norm_num) (by omega)).symm

theorem log2Fuel_spec (n : Nat) (hn : 0 < n) :
    2 ^ log2Fuel n n ≤ n ∧ n < 2 ^ log2Fuel n n * 2 := by
  rw [log2Fuel_eq_log n n le_rfl]
  refine ⟨Nat.pow_log_le_self 2 hn.ne', ?_⟩
  have := Nat.lt_pow_succ_log_self (by norm_num : 1 < 2) n
  rwa [pow_succ] at this

theorem binade_aux (a b la lb : ℕ) (hb : 0 < b) (a1 : 2 ^ la ≤ a) (a2 : a < 2 ^ la * 2)
    (b1 : 2 ^ lb ≤ b) (b2 : b < 2 ^ lb * 2) :
    (2 : ℚ) ^ (if b * 2 ^ la ≤ a * 2 ^ lb then (la : ℤ) - (lb : ℤ) else (la : ℤ) - (lb : ℤ) - 1)
      ≤ (a : ℚ) / (b : ℚ) ∧
    (a : ℚ) / (b : ℚ) <
      (2 : ℚ) ^ (if b * 2 ^ la ≤ a * 2 ^ lb then (la : ℤ) - (lb : ℤ)
        else (la : ℤ) - (lb : ℤ) - 1) * 2 := by
  have hB : (0 : ℚ) < (b : ℚ) := by exact_mod_cast hb
  have hPA : (0 : ℚ) < 2 ^ la := pow_pos (by norm_num) _
  have hPB : (0 : ℚ) < 2 ^ lb := pow_pos (by norm_num) _
  have a1' : (2 : ℚ) ^ la ≤ (a : ℚ) := by exact_mod_cast a1
  have a2' : (a : ℚ) < 2 ^ la * 2 := by exact_mod_cast a2
  have b1' : (2 : ℚ) ^ lb ≤ (b : ℚ) := by exact_mod_cast b1
  have b2' : (b : ℚ) < 2 ^ lb * 2 := by exact_mod_cast b2
  have hpow : (2 : ℚ) ^ ((la : ℤ) - (lb : ℤ)) = 2 ^ la / 2 ^ lb := by
    rw [zpow_sub₀ (by norm_num), zpow_natCast, zpow_natCast]
  by_cases hc : b * 2 ^ la ≤ a * 2 ^ lb
  · rw [if_pos hc, hpow]
    have hc' : (b : ℚ) * 2 ^ la ≤ (a : ℚ) * 2 ^ lb := by exact_mod_cast hc
    constructor
    · rw [div_le_div_iff₀ hPB hB]
      linarith
    · rw [div_mul_eq_mul_div, div_lt_div_iff₀ hB hPB]
      nlinarith
  · rw [if_neg hc, zpow_sub_one₀ (by norm_num), hpow]
    have hc' : (a : ℚ) * 2 ^ lb < (b : ℚ) * 2 ^ la := by exact_mod_cast not_le.mp hc
    have e1 : (2 : ℚ) ^ la / 2 ^ lb * 2⁻¹ = 2 ^ la / (2 ^ lb * 2) := by
      field_simp
    have e2 : (2 : ℚ) ^ la / 2 ^ lb * 2⁻¹ * 2 = 2 ^ la / 2 ^ lb := by
      field_simp
      ring
    constructor
    · rw [e1, div_le_div_iff₀ (by positivity) hB]
      nlinarith
    · rw [e2, div_lt_div_iff₀ hB hPB]
      linarith

theorem binade_spec {q : ℚ} (hq : 0 < q) :
    (2 : ℚ) ^ binade q ≤ q ∧ q < (2 : ℚ) ^ binade q * 2 := by
  have hnum : 0 < q.num := Rat.num_pos.mpr hq
  have ha : 0 < q.num.natAbs := Int.natAbs_pos.mpr hnum.ne'
  have hb : 0 < q.den := q.den_pos
  obtain ⟨a1, a2⟩ := log2Fuel_spec q.num.natAbs ha
  obtain ⟨b1, b2⟩ := log2Fuel_spec q.den hb
  have hqe : (q.num.natAbs : ℚ) / (q.den : ℚ) = q := by
    have h1 : ((q.num.natAbs : ℕ) : ℚ) = (q.num : ℚ) := by
      rw [Nat.cast_natAbs, abs_of_pos hnum]
    rw [h1]
    exact Rat.num_div_den q
  have key := binade_aux q.num.natAbs q.den _ _ hb a1 a2 b1 b2
  rw [hqe] at key
  exact key

theorem binade_eq_log {q : ℚ} (hq : 0 < q) : binade q = Int.log 2 q := by
  obtain ⟨h1, h2⟩ := binade_spec hq
  have hq' : 0 < q := hq
  have a1 : binade q ≤ Int.log 2 q := by
    apply (@Int.zpow_le_iff_le_log ℚ _ _ 2 (by norm_num) (binade q) q hq).mp
    simpa using h1
  have a2 : Int.log 2 q < binade q + 1 := by
    apply (@Int.lt_zpow_iff_log_lt ℚ _ _ 2 (by norm_num) (binade q + 1) q hq).mp
    rw [zpow_add_one₀ (by norm_num)]
    simpa using h2
  omega


theorem log_spec {q : ℚ} (hq : 0 < q) :
    (2 : ℚ) ^ Int.log 2 q ≤ q ∧ q < (2 : ℚ) ^ Int.log 2 q * 2 := by
  have h1 := @Int.zpow_log_le_self ℚ _ _ 2 q (by norm_num) hq
  have h2 := @Int.lt_zpow_succ_log_self ℚ _ _ 2 (by norm_num) q
  rw [zpow_add_one₀ (by norm_num)] at h2
  simp only [Nat.cast_ofNat] at h1 h2
  exact ⟨h1, h2⟩

theorem log_unique {q : ℚ} {e : ℤ} (h1 : (2 : ℚ) ^ e ≤ q) (h2 : q < (2 : ℚ) ^ e * 2) :
    Int.log 2 q = e := by
  have hq : 0 < q := lt_of_lt_of_le (zpow_pos (by norm_num) e) h1
  have a1 : e ≤ Int.log 2 q := by
    have := (@Int.zpow_le_iff_le_log ℚ _ _ 2 (by norm_num) e q hq).mp
    apply this
    simpa using h1
  have a2 : Int.log 2 q < e + 1 := by
    have := (@Int.lt_zpow_iff_log_lt ℚ _ _ 2 (by norm_num) (e + 1) q hq).mp
    apply this
    rw [zpow_add_one₀ (by norm_num)]
    simpa using h2
  omega

/-- The spacing of the doubles around a positive `q`. -/
theorem ulp_pos (q : ℚ) : (0 : ℚ) < 2 ^ (Int.log 2 q - 52) := zpow_pos (by norm_num) _

theorem ulp_eq (q : ℚ) : (2 : ℚ) ^ (Int.log 2 q - 52) * 2 ^ 52 = 2 ^ Int.log 2 q := by
  rw [zpow_sub₀ (by norm_num)]
  have : ((2 : ℚ) ^ (52 : ℤ)) = 2 ^ 52 := by norm_num
  rw [this]
  field_simp

theorem flAbs_of_pos {q : ℚ} (hq : 0 < q) :
    flAbs q = (roundHalfEven (q / 2 ^ (Int.log 2 q - 52)) : ℚ) * 2 ^ (Int.log 2 q - 52) := by
  unfold flAbs
  rw [if_neg hq.ne', binade_eq_log hq]

theorem scaled_bounds {q : ℚ} (hq : 0 < q) :
    (2 : ℚ) ^ 52 ≤ q / 2 ^ (Int.log 2 q - 52) ∧ q / 2 ^ (Int.log 2 q - 52) < 2 ^ 53 := by
  obtain ⟨h1, h2⟩ := log_spec hq
  have hu := ulp_pos q
  have he := ulp_eq q
  constructor
  · rw [le_div_iff₀ hu]
    linarith
  · rw [div_lt_iff₀ hu]
    have : (2 : ℚ) ^ 53 * 2 ^ (Int.log 2 q - 52) = 2 ^ (Int.log 2 q - 52) * 2 ^ 52 * 2 := by ring
    rw [this, he]
    exact h2

theorem round_scaled_bounds {q : ℚ} (hq : 0 < q) :
    (2 : ℤ) ^ 52 ≤ roundHalfEven (q / 2 ^ (Int.log 2 q - 52)) ∧
    roundHalfEven (q / 2 ^ (Int.log 2 q - 52)) ≤ (2 : ℤ) ^ 53 := by
  obtain ⟨h1, h2⟩ := scaled_bounds hq
  constructor
  · apply roundHalfEven_ge_of_le
    push_cast
    exact h1
  · apply roundHalfEven_le_of_le
    push_cast
    exact h2.le

theorem flAbs_bounds {q : ℚ} (hq : 0 < q) :
    (2 : ℚ) ^ Int.log 2 q ≤ flAbs q ∧ flAbs q ≤ (2 : ℚ) ^ Int.log 2 q * 2 := by
  obtain ⟨h1, h2⟩ := round_scaled_bounds hq
  have hu := ulp_pos q
  have he := ulp_eq q
  rw [flAbs_of_pos hq]
  have c1 : ((2 : ℚ) ^ 52) ≤ (roundHalfEven (q / 2 ^ (Int.log 2 q - 52)) : ℚ) := by
    exact_mod_cast h1
  have c2 : (roundHalfEven (q / 2 ^ (Int.log 2 q - 52)) : ℚ) ≤ (2 : ℚ) ^ 53 := by
    exact_mod_cast h2
  constructor
  · calc (2 : ℚ) ^ Int.log 2 q = 2 ^ 52 * 2 ^ (Int.log 2 q - 52) := by rw [← he]; ring
      _ ≤ _ := mul_le_mul_of_nonneg_right c1 hu.le
  · calc _ ≤ (2 : ℚ) ^ 53 * 2 ^ (Int.log 2 q - 52) := mul_le_mul_of_nonneg_right c2 hu.le
      _ = 2 ^ Int.log 2 q * 2 := by rw [← he]; ring

theorem flAbs_zero : flAbs 0 = 0 := by
  unfold flAbs
  rw [if_pos rfl]

theorem flAbs_nonneg {q : ℚ} (hq : 0 ≤ q) : 0 ≤ flAbs q := by
  rcases hq.eq_or_lt with h | h
  · rw [← h, flAbs_zero]
  · exact le_trans (zpow_pos (by norm_num) _).le (flAbs_bounds h).1

theorem flAbs_pos {q : ℚ} (hq : 0 < q) : 0 < flAbs q :=
  lt_of_lt_of_le (zpow_pos (by norm_num) _) (flAbs_bounds hq).1

theorem flAbs_mono {x y : ℚ} (hx : 0 ≤ x) (h : x ≤ y) : flAbs x ≤ flAbs y := by
  rcases hx.eq_or_lt with h0 | hx
  · rw [← h0, flAbs_zero]
    exact flAbs_nonneg (le_trans hx h)
  have hy : 0 < y := lt_of_lt_of_le hx h
  rcases (@Int.log_mono_right ℚ _ _ 2 x y hx h).eq_or_lt with he | hlt
  · rw [flAbs_of_pos hx, flAbs_of_pos hy, he]
    have hu := ulp_pos y
    apply mul_le_mul_of_nonneg_right _ hu.le
    have : roundHalfEven (x / 2 ^ (Int.log 2 y - 52)) ≤ roundHalfEven (y / 2 ^ (Int.log 2 y - 52)) :=
      roundHalfEven_mono (div_le_div_of_nonneg_right h hu.le)
    exact_mod_cast this
  · calc flAbs x ≤ (2 : ℚ) ^ Int.log 2 x * 2 := (flAbs_bounds hx).2
      _ = (2 : ℚ) ^ (Int.log 2 x + 1) := by rw [zpow_add_one₀ (by norm_num)]
      _ ≤ (2 : ℚ) ^ Int.log 2 y := zpow_le_zpow_right₀ (by norm_num) hlt
      _ ≤ flAbs y := (flAbs_bounds hy).1

/-- A positive number with a 53-bit significand is not changed by the rounding. -/
theorem flAbs_fixed (n e : ℤ) (h1 : (2 : ℤ) ^ 52 ≤ n) (h2 : n < (2 : ℤ) ^ 53) :
    flAbs ((n : ℚ) * 2 ^ (e - 52)) = (n : ℚ) * 2 ^ (e - 52) := by
  have hu : (0 : ℚ) < 2 ^ (e - 52) := zpow_pos (by norm_num) _
  have hue : (2 : ℚ) ^ (e - 52) * 2 ^ 52 = 2 ^ e := by
    rw [zpow_sub₀ (by norm_num)]
    have : ((2 : ℚ) ^ (52 : ℤ)) = 2 ^ 52 := by norm_num
    rw [this]
    field_simp
  have c1 : ((2 : ℚ) ^ 52) ≤ (n : ℚ) := by exact_mod_cast h1
  have c2 : (n : ℚ) < (2 : ℚ) ^ 53 := by exact_mod_cast h2
  have hn : (0 : ℚ) < n := lt_of_lt_of_le (by norm_num) c1
  have hq : (0 : ℚ) < (n : ℚ) * 2 ^ (e - 52) := mul_pos hn hu
  have hlog : Int.log 2 ((n : ℚ) * 2 ^ (e - 52)) = e := by
    apply log_unique
    · calc (2 : ℚ) ^ e = 2 ^ 52 * 2 ^ (e - 52) := by rw [← hue]; ring
        _ ≤ _ := mul_le_mul_of_nonneg_right c1 hu.le
    · calc (n : ℚ) * 2 ^ (e - 52) < 2 ^ 53 * 2 ^ (e - 52) := mul_lt_mul_of_pos_right c2 hu
        _ = 2 ^ e * 2 := by rw [← hue]; ring
  rw [flAbs_of_pos hq, hlog, mul_div_assoc, div_self hu.ne', mul_one, roundHalfEven_intCast]

theorem flAbs_idem {q : ℚ} (hq : 0 ≤ q) : flAbs (flAbs q) = flAbs q := by
  rcases hq.eq_or_lt with h0 | hq
  · rw [← h0, flAbs_zero, flAbs_zero]
  obtain ⟨h1, h2⟩ := round_scaled_bounds hq
  rw [flAbs_of_pos hq]
  rcases h2.eq_or_lt with h | h
  · rw [h]
    have := flAbs_fixed ((2 : ℤ) ^ 52) (Int.log 2 q + 1) le_rfl (by norm_num)
    have e : (((2 : ℤ) ^ 53 : ℤ) : ℚ) * 2 ^ (Int.log 2 q - 52)
        = (((2 : ℤ) ^ 52 : ℤ) : ℚ) * 2 ^ (Int.log 2 q + 1 - 52) := by
      have : Int.log 2 q + 1 - 52 = (Int.log 2 q - 52) + 1 := by ring
      rw [this, zpow_add_one₀ (by norm_num)]
      push_cast
      ring
    rw [e]
    exact this
  · exact flAbs_fixed _ _ h1 h

theorem fl_zero : fl 0 = 0 := by
  unfold fl
  rw [if_neg (lt_irrefl _), flAbs_zero]

theorem fl_of_nonneg {q : ℚ} (hq : 0 ≤ q) : fl q = flAbs q := by
  unfold fl
  rw [if_neg (not_lt.mpr hq)]

theorem fl_of_neg {q : ℚ} (hq : q < 0) : fl q = -flAbs (-q) := by
  unfold fl
  rw [if_pos hq]

theorem fl_nonneg {q : ℚ} (hq : 0 ≤ q) : 0 ≤ fl q := by
  rw [fl_of_nonneg hq]
  exact flAbs_nonneg hq

theorem fl_pos {q : ℚ} (hq : 0 < q) : 0 < fl q := by
  rw [fl_of_nonneg hq.le]
  exact flAbs_pos hq

/-- Rounding to the nearest double is monotone. -/
theorem fl_mono {x y : ℚ} (h : x ≤ y) : fl x ≤ fl y := by
  rcases lt_or_le x 0 with hx | hx
  · rcases lt_or_le y 0 with hy | hy
    · rw [fl_of_neg hx, fl_of_neg hy, neg_le_neg_iff]
      exact flAbs_mono (by linarith) (by linarith)
    · rw [fl_of_neg hx]
      have := flAbs_nonneg (show (0 : ℚ) ≤ -x by linarith)
      have := fl_nonneg hy
      linarith
  · rw [fl_of_nonneg hx, fl_of_nonneg (le_trans hx h)]
    exact flAbs_mono hx h

/-- A rounded value is a double: rounding it again changes nothing. -/
theorem fl_idem (q : ℚ) : fl (fl q) = fl q := by
  rcases lt_or_le q 0 with hq | hq
  · rw [fl_of_neg hq]
    have hp : (0 : ℚ) < -q := by linarith
    have := flAbs_pos hp
    rw [fl_of_neg (by linarith), neg_neg, flAbs_idem hp.le]
  · rw [fl_of_nonneg hq, fl_of_nonneg (flAbs_nonneg hq), flAbs_idem hq]

/-- The nearest integer is at most one half away. -/
theorem roundHalfEven_error (x : ℚ) : |(roundHalfEven x : ℚ) - x| ≤ 1 / 2 := by
  unfold roundHalfEven
  have h1 := Int.floor_le x
  have h2 := Int.lt_floor_add_one x
  rw [abs_le]
  split_ifs with a b c
  · constructor <;> linarith
  · push_cast; constructor <;> linarith
  · constructor <;> linarith
  · push_cast; constructor <;> linarith

theorem flAbs_error {q : ℚ} (hq : 0 ≤ q) : |flAbs q - q| ≤ q / 2 ^ 53 := by
  rcases hq.eq_or_lt with h0 | hq
  · rw [← h0, flAbs_zero]; simp
  rw [flAbs_of_pos hq]
  have hup := ulp_pos q
  have he := ulp_eq q
  have hr := roundHalfEven_error (q / 2 ^ (Int.log 2 q - 52))
  have h1 := (log_spec hq).1
  have e : (roundHalfEven (q / 2 ^ (Int.log 2 q - 52)) : ℚ) * 2 ^ (Int.log 2 q - 52) - q
      = ((roundHalfEven (q / 2 ^ (Int.log 2 q - 52)) : ℚ) - q / 2 ^ (Int.log 2 q - 52))
        * 2 ^ (Int.log 2 q - 52) := by
    field_simp
  rw [e, abs_mul, abs_of_pos hup]
  calc |(roundHalfEven (q / 2 ^ (Int.log 2 q - 52)) : ℚ) - q / 2 ^ (Int.log 2 q - 52)|
        * 2 ^ (Int.log 2 q - 52)
      ≤ 1 / 2 * 2 ^ (Int.log 2 q - 52) := mul_le_mul_of_nonneg_right hr hup.le
    _ = 2 ^ Int.log 2 q / 2 ^ 53 := by rw [← he]; ring
    _ ≤ q / 2 ^ 53 := div_le_div_of_nonneg_right h1 (by positivity)

/-- Rounding a non-negative number raises it by at most one part in `2 ^ 53`. -/
theorem fl_le_of_nonneg {q : ℚ} (hq : 0 ≤ q) : fl q ≤ q * (1 + 1 / 2 ^ 53) := by
  have h := (abs_le.mp (flAbs_error hq)).2
  rw [fl_of_nonneg hq]
  linarith

/-- Rounding a non-negative number lowers it by at most one part in `2 ^ 53`. -/
theorem le_fl_of_nonneg {q : ℚ} (hq : 0 ≤ q) : q * (1 - 1 / 2 ^ 53) ≤ fl q := by
  have h := (abs_le.mp (flAbs_error hq)).1
  rw [fl_of_nonneg hq]
  linarith

/-- The top face recomputed from the centre, against the top the check of line
191 computes: `fl (y + fl (h / 2)) + h / 2` is at most one part in `2 ^ 51`
above a limit that `fl (y + h)` respects. -/
theorem top_face_bound {y h m : ℚ} (hy : 0 ≤ y) (hh : 0 ≤ h) (hm : add64 y h ≤ m) :
    add64 y (div64 h 2) + h / 2 ≤ m * (1 + 1 / 2 ^ 51) := by
  unfold add64 div64 at *
  have g1 := fl_le_of_nonneg (show (0 : ℚ) ≤ h / 2 by positivity)
  have g0 := fl_nonneg (show (0 : ℚ) ≤ h / 2 by positivity)
  have g2 := fl_le_of_nonneg (show (0 : ℚ) ≤ y + fl (h / 2) by linarith)
  have g3 := le_fl_of_nonneg (show (0 : ℚ) ≤ y + h by linarith)
  have hu : (0 : ℚ) ≤ 1 / 2 ^ 53 := by positivity
  have hu5 : (1 : ℚ) / 2 ^ 53 ≤ 1 / 5 := by norm_num
  have h4 : (1 : ℚ) / 2 ^ 51 = 4 * (1 / 2 ^ 53) := by norm_num
  rw [h4]
  generalize (1 : ℚ) / 2 ^ 53 = u at g1 g2 g3 hu hu5
  have s1 : fl (y + fl (h / 2)) + h / 2 ≤ (y + h) * (1 + u) ^ 2 := by
    have a1 : (y + fl (h / 2)) * (1 + u) ≤ (y + h / 2 * (1 + u)) * (1 + u) :=
      mul_le_mul_of_nonneg_right (by linarith) (by linarith)
    nlinarith [mul_nonneg hy hu, mul_nonneg hh hu, mul_nonneg (mul_nonneg hy hu) hu,
      mul_nonneg (mul_nonneg hh hu) hu]
  have s2 : (y + h) * (1 + u) ^ 2 ≤ (y + h) * (1 - u) * (1 + 4 * u) := by
    have a2 : (1 + u) ^ 2 ≤ (1 - u) * (1 + 4 * u) := by nlinarith [mul_nonneg hu hu]
    rw [mul_assoc]
    exact mul_le_mul_of_nonneg_left a2 (by linarith)
  have s3 : (y + h) * (1 - u) * (1 + 4 * u) ≤ m * (1 + 4 * u) :=
    mul_le_mul_of_nonneg_right (by linarith) (by linarith)
  linarith

/-- The height cursor after a flat row, against the limit its tallest item
respected: `fl (y + fl (t + fl (k * 2)))` is at most one part in `2 ^ 50` above
`m + 2 * k` when `fl (y + t) ≤ m`. -/
theorem headroom_bound {y t k m : ℚ} (hy : 0 ≤ y) (ht : 0 ≤ t) (hk : 0 ≤ k)
    (hm : add64 y t ≤ m) :
    add64 y (add64 t (mul64 k 2)) ≤ (m + 2 * k) * (1 + 1 / 2 ^ 50) := by
  unfold add64 mul64 at *
  have k0 := fl_nonneg (show (0 : ℚ) ≤ k * 2 by positivity)
  have k1 := fl_le_of_nonneg (show (0 : ℚ) ≤ k * 2 by positivity)
  have t0 := fl_nonneg (show (0 : ℚ) ≤ t + fl (k * 2) by linarith)
  have t1 := fl_le_of_nonneg (show (0 : ℚ) ≤ t + fl (k * 2) by linarith)
  have y1 := fl_le_of_nonneg (show (0 : ℚ) ≤ y + fl (t + fl (k * 2)) by linarith)
  have g3 := le_fl_of_nonneg (show (0 : ℚ) ≤ y + t by linarith)
  have hu : (0 : ℚ) ≤ 1 / 2 ^ 53 := by positivity
  have hu5 : (1 : ℚ) / 2 ^ 53 ≤ 1 / 16 := by norm_num
  have h8 : (1 : ℚ) / 2 ^ 50 = 8 * (1 / 2 ^ 53) := by norm_num
  rw [h8]
  generalize (1 : ℚ) / 2 ^ 53 = u at k1 t1 y1 g3 hu hu5
  have b1 : t + fl (k * 2) ≤ (t + 2 * k) * (1 + u) := by nlinarith [mul_nonneg ht hu]
  have b2 : fl (t + fl (k * 2)) ≤ (t + 2 * k) * (1 + u) ^ 2 := by
    have := mul_le_mul_of_nonneg_right b1 (show (0 : ℚ) ≤ 1 + u by linarith)
    nlinarith
  have b3 : y + fl (t + fl (k * 2)) ≤ (y + t + 2 * k) * (1 + u) ^ 2 := by
    nlinarith [mul_nonneg hy hu, mul_nonneg (mul_nonneg hy hu) hu]
  have b4 : fl (y + fl (t + fl (k * 2))) ≤ (y + t + 2 * k) * (1 + u) ^ 3 := by
    have := mul_le_mul_of_nonneg_right b3 (show (0 : ℚ) ≤ 1 + u by linarith)
    nlinarith
  have a2 : (1 + u) ^ 3 ≤ (1 - u) * (1 + 8 * u) := by
    nlinarith [mul_nonneg hu hu, mul_nonneg (mul_nonneg hu hu) hu]
  have b5 : (y + t + 2 * k) * (1 + u) ^ 3 ≤ (y + t + 2 * k) * ((1 - u) * (1 + 8 * u)) :=
    mul_le_mul_of_nonneg_left a2 (by linarith)
  have b6 : (y + t + 2 * k) * ((1 - u) * (1 + 8 * u)) ≤ (m + 2 * k) * (1 + 8 * u) := by
    have c1 : (y + t + 2 * k) * (1 - u) ≤ m + 2 * k := by nlinarith [mul_nonneg hk hu]
    have := mul_le_mul_of_nonneg_right c1 (show (0 : ℚ) ≤ 1 + 8 * u by linarith)
    nlinarith
  linarith

/-- The bottom face recomputed from the centre of an item placed on the height
`k`: `fl (k + fl (h / 2)) - h / 2` is within `(k + h) / 2 ^ 52` of `k`. -/
theorem bottom_face_bound {k h : ℚ} (hk : 0 ≤ k) (hh : 0 ≤ h) :
    |add64 k (div64 h 2) - h / 2 - k| ≤ (k + h) / 2 ^ 52 := by
  unfold add64 div64
  have g0 := fl_nonneg (show (0 : ℚ) ≤ h / 2 by positivity)
  have g1 := fl_le_of_nonneg (show (0 : ℚ) ≤ h / 2 by positivity)
  have g2 := le_fl_of_nonneg (show (0 : ℚ) ≤ h / 2 by positivity)
  have p1 := fl_le_of_nonneg (show (0 : ℚ) ≤ k + fl (h / 2) by linarith)
  have p2 := le_fl_of_nonneg (show (0 : ℚ) ≤ k + fl (h / 2) by linarith)
  have hu : (0 : ℚ) ≤ 1 / 2 ^ 53 := by positivity
  have hu5 : (1 : ℚ) / 2 ^ 53 ≤ 1 / 16 := by norm_num
  have h2 : (k + h) / 2 ^ 52 = 2 * (1 / 2 ^ 53) * (k + h) := by ring
  rw [h2]
  generalize (1 : ℚ) / 2 ^ 53 = u at g1 g2 p1 p2 hu hu5
  rw [abs_le]
  constructor
  · nlinarith [mul_nonneg hk hu, mul_nonneg hh hu, mul_nonneg (mul_nonneg hh hu) hu]
  · nlinarith [mul_nonneg hk hu, mul_nonneg hh hu, mul_nonneg (mul_nonneg hh hu) hu]

/-- The far face recomputed from a centre `fl (c + fl (w / 2))`, from above. -/
theorem far_face_le {c w : ℚ} (hc : 0 ≤ c) (hw : 0 ≤ w) :
    add64 c (div64 w 2) + w / 2 ≤ (c + w) * (1 + 1 / 2 ^ 53) ^ 2 := by
  unfold add64 div64
  have g0 := fl_nonneg (show (0 : ℚ) ≤ w / 2 by positivity)
  have g1 := fl_le_of_nonneg (show (0 : ℚ) ≤ w / 2 by positivity)
  have g2 := fl_le_of_nonneg (show (0 : ℚ) ≤ c + fl (w / 2) by linarith)
  have hu : (0 : ℚ) ≤ 1 / 2 ^ 53 := by positivity
  generalize (1 : ℚ) / 2 ^ 53 = u at g1 g2 hu ⊢
  have a1 : (c + fl (w / 2)) * (1 + u) ≤ (c + w / 2 * (1 + u)) * (1 + u) :=
    mul_le_mul_of_nonneg_right (by linarith) (by linarith)
  nlinarith [mul_nonneg hc hu, mul_nonneg hw hu, mul_nonneg (mul_nonneg hc hu) hu,
    mul_nonneg (mul_nonneg hw hu) hu]

/-- The far face recomputed from a centre, from below. -/
theorem far_face_ge {c w : ℚ} (hc : 0 ≤ c) (hw : 0 ≤ w) :
    (c + w) * (1 - 1 / 2 ^ 53) ≤ add64 c (div64 w 2) + w / 2 := by
  unfold add64 div64
  have g0 := fl_nonneg (show (0 : ℚ) ≤ w / 2 by positivity)
  have g1 := le_fl_of_nonneg (show (0 : ℚ) ≤ w / 2 by positivity)
  have g2 := le_fl_of_nonneg (show (0 : ℚ) ≤ c + fl (w / 2) by linarith)
  have hu : (0 : ℚ) ≤ 1 / 2 ^ 53 := by positivity
  have hu1 : (1 : ℚ) / 2 ^ 53 ≤ 1 / 64 := by norm_num
  generalize (1 : ℚ) / 2 ^ 53 = u at g1 g2 hu hu1 ⊢
  have a1 : (c + w / 2 * (1 - u)) * (1 - u) ≤ (c + fl (w / 2)) * (1 - u) :=
    mul_le_mul_of_nonneg_right (by linarith) (by linarith)
  nlinarith [mul_nonneg hc hu, mul_nonneg hw hu, mul_nonneg (mul_nonneg hw hu) hu]

/-- The near face recomputed from a centre, from below. -/
theorem near_face_ge {c w : ℚ} (hc : 0 ≤ c) (hw : 0 ≤ w) :
    c * (1 - 1 / 2 ^ 53) - 1 / 2 ^ 53 * w ≤ add64 c (div64 w 2) - w / 2 := by
  unfold add64 div64
  have g0 := fl_nonneg (show (0 : ℚ) ≤ w / 2 by positivity)
  have g1 := le_fl_of_nonneg (show (0 : ℚ) ≤ w / 2 by positivity)
  have g2 := le_fl_of_nonneg (show (0 : ℚ) ≤ c + fl (w / 2) by linarith)
  have hu : (0 : ℚ) ≤ 1 / 2 ^ 53 := by positivity
  have hu1 : (1 : ℚ) / 2 ^ 53 ≤ 1 / 64 := by norm_num
  generalize (1 : ℚ) / 2 ^ 53 = u at g1 g2 hu hu1 ⊢
  have a1 : (c + w / 2 * (1 - u)) * (1 - u) ≤ (c + fl (w / 2)) * (1 - u) :=
    mul_le_mul_of_nonneg_right (by linarith) (by linarith)
  nlinarith [mul_nonneg hc hu, mul_nonneg hw hu, mul_nonneg (mul_nonneg hw hu) hu]

/-- Two boxes along one axis, the first ending near `t` and the second starting
at a cursor `x` that `t` has reached up to three roundings: the far face of the
first passes the near face of the second by at most one part in `2 ^ 49` of the
far face of the second. -/
theorem faces_apart {t x w ra lb rb : ℚ} (ht : 0 ≤ t) (hx : 0 ≤ x) (hw : 0 ≤ w)
    (h1 : ra ≤ t * (1 + 1 / 2 ^ 53) ^ 3) (h2 : t * (1 - 1 / 2 ^ 53) ^ 3 ≤ x)
    (h3 : x * (1 - 1 / 2 ^ 53) - 1 / 2 ^ 53 * w ≤ lb)
    (h4 : (x + w) * (1 - 1 / 2 ^ 53) ≤ rb) :
    ra ≤ lb + rb / 2 ^ 49 := by
  have hu : (0 : ℚ) ≤ 1 / 2 ^ 53 := by positivity
  have hu1 : (1 : ℚ) / 2 ^ 53 ≤ 1 / 64 := by norm_num
  have e : rb / 2 ^ 49 = 16 * (1 / 2 ^ 53) * rb := by ring
  rw [e]
  generalize (1 : ℚ) / 2 ^ 53 = u at h1 h2 h3 h4 hu hu1 ⊢
  have n1 : (1 + u) ^ 3 ≤ (1 - u) ^ 3 * (1 + 7 * u) := by
    have : 0 ≤ u * (1 - 21 * u + 19 * u ^ 2 - 7 * u ^ 3) := by
      apply mul_nonneg hu
      nlinarith [mul_nonneg hu hu, mul_nonneg (mul_nonneg hu hu) (show (0 : ℚ) ≤ 1 / 64 - u by linarith)]
    nlinarith
  have s1 : ra ≤ x * (1 + 7 * u) := by
    have a := mul_le_mul_of_nonneg_left n1 ht
    have b := mul_le_mul_of_nonneg_right h2 (show (0 : ℚ) ≤ 1 + 7 * u by linarith)
    nlinarith
  have s2 : (x + w) * (1 - u) * (16 * u) ≤ 16 * u * rb := by
    have := mul_le_mul_of_nonneg_right h4 (show (0 : ℚ) ≤ 16 * u by linarith)
    linarith
  have s3 : 8 * u * (x + w) ≤ (x + w) * (1 - u) * (16 * u) := by
    have : 0 ≤ (x + w) * u * (1 - 2 * u) :=
      mul_nonneg (mul_nonneg (by linarith) hu) (by linarith)
    nlinarith
  nlinarith [mul_nonneg hx hu, mul_nonneg hw hu]

/-- Along the height: an item on the row height `ya`, `ha` high, and a later one
on a row height `yb` that the rounded `ya + ha` has not passed. -/
theorem faces_apart_y {ya ha yb hb : ℚ} (hya : 0 ≤ ya) (hha : 0 ≤ ha) (hyb : 0 ≤ yb)
    (hhb : 0 ≤ hb) (hy : add64 ya ha ≤ yb) :
    add64 ya (div64 ha 2) + ha / 2
      ≤ add64 yb (div64 hb 2) - hb / 2 + (add64 yb (div64 hb 2) + hb / 2) / 2 ^ 49 := by
  have f1 := far_face_le hya hha
  have f2 := near_face_ge hyb hhb
  have f3 := far_face_ge hyb hhb
  have c1 := le_fl_of_nonneg (show (0 : ℚ) ≤ ya + ha by linarith)
  have hu : (0 : ℚ) ≤ 1 / 2 ^ 53 := by positivity
  have hu1 : (1 : ℚ) / 2 ^ 53 ≤ 1 / 64 := by norm_num
  unfold add64 at hy
  refine faces_apart (show (0 : ℚ) ≤ ya + ha by linarith) hyb hhb ?_ ?_ f2 f3
  · generalize (1 : ℚ) / 2 ^ 53 = u at f1 hu hu1 ⊢
    have s0 : (0 : ℚ) ≤ (ya + ha) * (1 + u) ^ 2 := by positivity
    calc add64 ya (div64 ha 2) + ha / 2 ≤ (ya + ha) * (1 + u) ^ 2 := f1
      _ ≤ (ya + ha) * (1 + u) ^ 2 * (1 + u) := le_mul_of_one_le_right s0 (by linarith)
      _ = (ya + ha) * (1 + u) ^ 3 := by ring
  · generalize (1 : ℚ) / 2 ^ 53 = u at c1 hu hu1 ⊢
    have s0 : (0 : ℚ) ≤ (ya + ha) * (1 - u) := mul_nonneg (by linarith) (by linarith)
    have s1 : (1 - u) ^ 2 ≤ 1 := by nlinarith [mul_nonneg hu hu]
    calc (ya + ha) * (1 - u) ^ 3 = (ya + ha) * (1 - u) * (1 - u) ^ 2 := by ring
      _ ≤ (ya + ha) * (1 - u) := mul_le_of_le_one_right s0 s1
      _ ≤ yb := by linarith

/-- Along the width: an item met at the cursor `ca`, `wa` wide, starting at `ia`
(the cursor, or the cursor shifted by at most the gap `g`), and a later one met
at a cursor `cb` that the rounded `ca + (wa + g)` has not passed, starting at
`ib` (its cursor, or the cursor shifted right). -/
theorem faces_apart_x {ca wa g ia cb ib wb : ℚ} (hca : 0 ≤ ca) (hwa : 0 ≤ wa)
    (hg : 0 ≤ g) (hwb : 0 ≤ wb) (hia0 : 0 ≤ ia)
    (hia : ia ≤ (ca + g) * (1 + 1 / 2 ^ 53)) (hib0 : 0 ≤ ib)
    (hib : cb * (1 - 1 / 2 ^ 53) ≤ ib) (hx : add64 ca (add64 wa g) ≤ cb) :
    add64 ia (div64 wa 2) + wa / 2
      ≤ add64 ib (div64 wb 2) - wb / 2 + (add64 ib (div64 wb 2) + wb / 2) / 2 ^ 49 := by
  have f1 := far_face_le hia0 hwa
  have f2 := near_face_ge hib0 hwb
  have f3 := far_face_ge hib0 hwb
  have c0 := fl_nonneg (show (0 : ℚ) ≤ wa + g by linarith)
  have c1 := le_fl_of_nonneg (show (0 : ℚ) ≤ wa + g by linarith)
  have c2 := le_fl_of_nonneg (show (0 : ℚ) ≤ ca + fl (wa + g) by linarith)
  have hu : (0 : ℚ) ≤ 1 / 2 ^ 53 := by positivity
  have hu1 : (1 : ℚ) / 2 ^ 53 ≤ 1 / 64 := by norm_num
  unfold add64 at hx
  refine faces_apart (show (0 : ℚ) ≤ ca + wa + g by linarith) hib0 hwb ?_ ?_ f2 f3
  · generalize (1 : ℚ) / 2 ^ 53 = u at f1 hia hu hu1 ⊢
    have s1 : ia + wa ≤ (ca + wa + g) * (1 + u) := by
      have : 0 ≤ wa * u := mul_nonneg hwa hu
      linarith
    calc add64 ia (div64 wa 2) + wa / 2 ≤ (ia + wa) * (1 + u) ^ 2 := f1
      _ ≤ (ca + wa + g) * (1 + u) * (1 + u) ^ 2 :=
        mul_le_mul_of_nonneg_right s1 (by positivity)
      _ = (ca + wa + g) * (1 + u) ^ 3 := by ring
  · generalize (1 : ℚ) / 2 ^ 53 = u at c1 c2 hib hu hu1 ⊢
    generalize fl (wa + g) = wg at c0 c1 c2 hx
    generalize fl (ca + wg) = adv at c2 hx
    have s1 : (ca + wa + g) * (1 - u) ≤ ca + wg := by
      have : 0 ≤ ca * u := mul_nonneg hca hu
      linarith
    have s2 : (ca + wa + g) * (1 - u) * (1 - u) ≤ (ca + wg) * (1 - u) :=
      mul_le_mul_of_nonneg_right s1 (by linarith)
    have s3 : (ca + wa + g) * (1 - u) * (1 - u) ≤ cb := by linarith
    have s4 : (ca + wa + g) * (1 - u) * (1 - u) * (1 - u) ≤ cb * (1 - u) :=
      mul_le_mul_of_nonneg_right s3 (by linarith)
    calc (ca + wa + g) * (1 - u) ^ 3 = (ca + wa + g) * (1 - u) * (1 - u) * (1 - u) := by ring
      _ ≤ cb * (1 - u) := s4
      _ ≤ ib := hib

/-! ## The binary64 engine: one scan step -/

theorem scanItem64_of_accepts (config : Config) (layerY : ℚ) (i : Nat) (item : Item)
    (st : RowScan) (h : Accepts64 config layerY item st) :
    scanItem64 config layerY i item st = (markPlaced item, acceptState64 config i item st) := by
  obtain ⟨h1, h2, h3, h4, h5, h6, h7⟩ := h
  have e1 : ¬ (add64 st.totalWeight item.weight > config.maxWeight) := not_lt.mpr h2
  have e2 : ¬ (vertical config item = true ∧ layerY > config.lumberThick) :=
    fun ⟨a, b⟩ => absurd (h3 a) (not_le.mpr b)
  have e3 : ¬ (st.rowItems.length > 0 ∧ st.isVerticalRow ≠ vertical config item) :=
    fun ⟨a, b⟩ => b (h4 (List.ne_nil_of_length_pos a))
  have e4 : ¬ ((dims config item).z > effLength64 config ∧ vertical config item = false) :=
    fun ⟨a, b⟩ => absurd (h5 b) (not_le.mpr a)
  have e5 : ¬ (add64 layerY (dims config item).y > config.maxHeight) := not_lt.mpr h6
  unfold scanItem64
  rw [if_neg (by simp [h1]), if_neg e1, if_neg e2, if_neg e3]
  by_cases hl : st.rowItems.length = 0
  · have e6 : ¬ (add64 st.rowWidthUsed (itemFootprintWidth64 config st.rowItems.length item)
        > effWidth64 config) := not_lt.mpr h7
    simp only [hl, if_true] at e6 ⊢
    rw [if_neg e4, if_neg e5, if_neg e6]
    simp [acceptState64, hl]
  · have e6 : ¬ (add64 st.rowWidthUsed (itemFootprintWidth64 config st.rowItems.length item)
        > effWidth64 config) := not_lt.mpr h7
    have hv : st.isVerticalRow = vertical config item :=
      h4 (fun hn => hl (by simp [hn]))
    simp only [hl, if_false]
    rw [if_neg e4, if_neg e5, if_neg e6]
    simp [acceptState64, hv]

theorem scanItem64_of_not_accepts (config : Config) (layerY : ℚ) (i : Nat) (item : Item)
    (st : RowScan) (h : ¬ Accepts64 config layerY item st) :
    (scanItem64 config layerY i item st).1 = item ∧
    (scanItem64 config layerY i item st).2.rowItems = st.rowItems ∧
    (scanItem64 config layerY i item st).2.rowWidthUsed = st.rowWidthUsed ∧
    (scanItem64 config layerY i item st).2.rowMaxHeight = st.rowMaxHeight ∧
    (scanItem64 config layerY i item st).2.rowMaxLength = st.rowMaxLength ∧
    (scanItem64 config layerY i item st).2.totalWeight = st.totalWeight ∧
    (st.rowItems ≠ [] →
      (scanItem64 config layerY i item st).2.isVerticalRow = st.isVerticalRow) := by
  unfold scanItem64
  by_cases c0 : item.isPlaced = true
  · simp [c0]
  rw [if_neg c0]
  by_cases c1 : add64 st.totalWeight item.weight > config.maxWeight
  · simp [c1]
  rw [if_neg c1]
  by_cases c2 : vertical config item = true ∧ layerY > config.lumberThick
  · simp [c2]
  rw [if_neg c2]
  by_cases c3 : st.rowItems.length > 0 ∧ st.isVerticalRow ≠ vertical config item
  · rw [if_pos c3]; simp
  rw [if_neg c3]
  have hrow : ∀ (b : Bool), (if st.rowItems.length = 0 then
      ({ st with isVerticalRow := b } : RowScan) else st).rowItems = st.rowItems ∧
      (if st.rowItems.length = 0 then
      ({ st with isVerticalRow := b } : RowScan) else st).rowWidthUsed = st.rowWidthUsed ∧
      (if st.rowItems.length = 0 then
      ({ st with isVerticalRow := b } : RowScan) else st).rowMaxHeight = st.rowMaxHeight ∧
      (if st.rowItems.length = 0 then
      ({ st with isVerticalRow := b } : RowScan) else st).rowMaxLength = st.rowMaxLength ∧
      (if st.rowItems.length = 0 then
      ({ st with isVerticalRow := b } : RowScan) else st).totalWeight = st.totalWeight ∧
      (st.rowItems ≠ [] → (if st.rowItems.length = 0 then
      ({ st with isVerticalRow := b } : RowScan) else st).isVerticalRow = st.isVerticalRow) := by
    intro b
    by_cases hl : st.rowItems.length = 0
    · rw [if_pos hl]
      exact ⟨rfl, rfl, rfl, rfl, rfl, fun hn => absurd (List.length_eq_zero.mp hl) hn⟩
    · rw [if_neg hl]
      exact ⟨rfl, rfl, rfl, rfl, rfl, fun _ => rfl⟩
  by_cases c4 : (dims config item).z > effLength64 config ∧ vertical config item = false
  · rw [if_pos c4]; exact ⟨rfl, hrow _⟩
  rw [if_neg c4]
  by_cases c5 : add64 layerY (dims config item).y > config.maxHeight
  · rw [if_pos c5]; exact ⟨rfl, hrow _⟩
  rw [if_neg c5]
  by_cases c6 : add64 (if st.rowItems.length = 0 then
      ({ st with isVerticalRow := vertical config item } : RowScan) else st).rowWidthUsed
        (itemFootprintWidth64 config st.rowItems.length item) > effWidth64 config
  · rw [if_pos c6]; exact ⟨rfl, hrow _⟩
  exfalso
  apply h
  rw [(hrow _).2.1] at c6
  refine ⟨by simpa using c0, not_lt.mp c1, ?_, ?_, ?_, not_lt.mp c5, not_lt.mp c6⟩
  · intro hv
    exact not_lt.mp (fun hlt => c2 ⟨hv, hlt⟩)
  · intro hne
    by_contra hv
    exact c3 ⟨List.length_pos.mpr hne, hv⟩
  · intro hv
    exact not_lt.mp (fun hlt => c4 ⟨hlt, hv⟩)

/-! ## The binary64 engine: invariant rules -/

theorem fillRow64_induct (config : Config) (layerY : ℚ) (P : RowScan → Prop) :
    ∀ (queue : List Item) (i : Nat) (st : RowScan),
      (∀ item ∈ queue, ∀ (k : Nat) (st1 : RowScan), P st1 →
        P (scanItem64 config layerY k item st1).2) →
      P st → P (fillRow64 config layerY queue i st).2 := by
  intro queue
  induction queue with
  | nil => intro i st _ h; exact h
  | cons item rest ih =>
    intro i st hstep h
    exact ih (i + 1) _ (fun x hx => hstep x (List.mem_cons_of_mem _ hx))
      (hstep item (List.mem_cons_self _ _) i st h)

theorem scanItem64_fst (config : Config) (layerY : ℚ) (i : Nat) (item : Item) (st : RowScan) :
    (scanItem64 config layerY i item st).1 = item ∨
    (scanItem64 config layerY i item st).1 = markPlaced item := by
  by_cases ha : Accepts64 config layerY item st
  · rw [scanItem64_of_accepts config layerY i item st ha]
    exact Or.inr rfl
  · exact Or.inl (scanItem64_of_not_accepts config layerY i item st ha).1

/-- A property of queue entries that does not look at the `isPlaced` flag holds
of the queue after a row scan when it held before. -/
theorem fillRow64_queue (config : Config) (layerY : ℚ) (R : Item → Prop)
    (hR : ∀ i, R i → R (markPlaced i)) :
    ∀ (queue : List Item) (i : Nat) (st : RowScan), (∀ x ∈ queue, R x) →
      ∀ x ∈ (fillRow64 config layerY queue i st).1, R x := by
  intro queue
  induction queue with
  | nil => intro i st _ x hx; simp [fillRow64] at hx
  | cons item rest ih =>
    intro i st hq x hx
    simp only [fillRow64, List.mem_cons] at hx
    rcases hx with hx | hx
    · rcases scanItem64_fst config layerY i item st with h | h
      · rw [hx, h]; exact hq item (List.mem_cons_self _ _)
      · rw [hx, h]; exact hR _ (hq item (List.mem_cons_self _ _))
    · exact ih (i + 1) _ (fun y hy => hq y (List.mem_cons_of_mem _ hy)) x hx

theorem rowOk64_newRow (config : Config) (layerY w0 : ℚ) (R : Item → Prop) :
    RowOk64 config layerY R (newRow w0) where
  heightNonneg := by simp [newRow]
  attained := Or.inl rfl
  entries := by simp [newRow]

theorem scanItem64_rowOk (config : Config) (layerY : ℚ) (R : Item → Prop)
    (hR : ∀ i, R i → R (markPlaced i)) (k : Nat) (item : Item) (st : RowScan)
    (hitem : R item) (h : RowOk64 config layerY R st) :
    RowOk64 config layerY R (scanItem64 config layerY k item st).2 := by
  by_cases ha : Accepts64 config layerY item st
  · rw [scanItem64_of_accepts config layerY k item st ha]
    obtain ⟨a1, a2, a3, a4, a5, a6, a7⟩ := ha
    refine ⟨?_, ?_, ?_⟩
    · exact le_trans h.heightNonneg (le_max_left _ _)
    · show max st.rowMaxHeight (dims config item).y = 0 ∨ _
      rcases le_total st.rowMaxHeight (dims config item).y with hle | hle
      · right
        refine ⟨⟨k, markPlaced item, dims config item, vertical config item⟩, ?_, ?_⟩
        · simp [acceptState64]
        · simp [acceptState64, max_eq_right hle]
      · rcases h.attained with h0 | ⟨ri, hri, he⟩
        · left
          rw [max_eq_left hle, h0]
        · right
          refine ⟨ri, ?_, ?_⟩
          · simp [acceptState64, hri]
          · show ri.dims.y = max st.rowMaxHeight (dims config item).y
            rw [max_eq_left hle, he]
    · intro ri hri
      simp only [acceptState64, List.mem_append, List.mem_singleton] at hri
      rcases hri with hri | hri
      · obtain ⟨e1, e2, e3, e4, e5, e6, e7⟩ := h.entries ri hri
        refine ⟨e1, e2, e3, ?_, e5, e6, le_trans e7 (le_max_left _ _)⟩
        rw [e4]
        exact a4 (List.ne_nil_of_mem hri)
      · subst hri
        exact ⟨hR _ hitem, rfl, rfl, rfl, a6, a3, le_max_right _ _⟩
  · obtain ⟨_, n2, _, n4, _, _, n7⟩ := scanItem64_of_not_accepts config layerY k item st ha
    refine ⟨?_, ?_, ?_⟩
    · rw [n4]; exact h.heightNonneg
    · rw [n4, n2]; exact h.attained
    · intro ri hri
      rw [n2] at hri
      obtain ⟨e1, e2, e3, e4, e5, e6, e7⟩ := h.entries ri hri
      rw [n4, n7 (List.ne_nil_of_mem hri)]
      exact ⟨e1, e2, e3, e4, e5, e6, e7⟩

theorem fillRow64_rowOk (config : Config) (layerY w0 : ℚ) (R : Item → Prop)
    (hR : ∀ i, R i → R (markPlaced i)) (queue : List Item) (hq : ∀ i ∈ queue, R i) :
    RowOk64 config layerY R (fillRow64 config layerY queue 0 (newRow w0)).2 :=
  fillRow64_induct config layerY (RowOk64 config layerY R) queue 0 (newRow w0)
    (fun item hitem k st1 h => scanItem64_rowOk config layerY R hR k item st1 (hq item hitem) h)
    (rowOk64_newRow config layerY w0 R)

theorem placeRow64_items (config : Config) (fuel : Nat) (layerY : ℚ) :
    ∀ (rows : List RowItem) (x : ℚ) (ps : List PlacedItem) (ws : List Lumber),
      placeRow64 config fuel layerY rows x = some (ps, ws) →
      ps = placedRow64 config layerY rows x := by
  intro rows
  induction rows with
  | nil =>
    intro x ps ws h
    simp only [placeRow64, Option.some.injEq, Prod.mk.injEq] at h
    rw [← h.1]
    rfl
  | cons ri rest ih =>
    intro x ps ws h
    simp only [placeRow64] at h
    cases hf : framing64 config fuel layerY (itemX64 config x ri) ri with
    | none => simp [hf] at h
    | some wood =>
      cases hr : placeRow64 config fuel layerY rest (advanceX64 config x ri) with
      | none => simp [hf, hr] at h
      | some pw =>
        obtain ⟨ps1, ws1⟩ := pw
        simp only [hf, hr, Option.some.injEq, Prod.mk.injEq] at h
        rw [← h.1, ih _ _ _ hr]
        rfl

/-- Every placed item of a row comes from a row item, with its dimensions and
the height the row stands on. -/
theorem placedRow64_mem (config : Config) (layerY : ℚ) :
    ∀ (rows : List RowItem) (x : ℚ), ∀ p ∈ placedRow64 config layerY rows x,
      ∃ ri ∈ rows, p.toItem = ri.item ∧ p.finalDims = ri.dims ∧
        p.position.y = add64 layerY (div64 ri.dims.y 2) := by
  intro rows
  induction rows with
  | nil => intro x p hp; simp [placedRow64] at hp
  | cons ri rest ih =>
    intro x p hp
    simp only [placedRow64, List.mem_cons] at hp
    rcases hp with hp | hp
    · subst hp
      exact ⟨ri, List.mem_cons_self _ _, rfl, rfl, rfl⟩
    · obtain ⟨r1, h1, h2⟩ := ih _ p hp
      exact ⟨r1, List.mem_cons_of_mem _ h1, h2⟩

/-- Invariant rule for `palletLoop64`: a property of (crate, height cursor) kept
by every placed row holds when the loop ends; `R` is a property of the queue
entries that does not look at the `isPlaced` flag. -/
theorem palletLoop64_induct (config : Config) (fuel : Nat) (R : Item → Prop)
    (hR : ∀ i, R i → R (markPlaced i)) (Inv : Pallet → ℚ → Prop)
    (step : ∀ (queue : List Item) (pallet : Pallet) (layerY : ℚ) (ps : List PlacedItem)
      (ws : List Lumber), (∀ i ∈ queue, R i) → Inv pallet layerY →
      (fillRow64 config layerY queue 0 (newRow pallet.totalWeight)).2.rowItems ≠ [] →
      placeRow64 config fuel layerY
        (fillRow64 config layerY queue 0 (newRow pallet.totalWeight)).2.rowItems
        (startX64 config (fillRow64 config layerY queue 0 (newRow pallet.totalWeight)).2)
        = some (ps, ws) →
      Inv (withRow pallet ps ws (fillRow64 config layerY queue 0 (newRow pallet.totalWeight)).2
          (nextLayerY64 config layerY
            (fillRow64 config layerY queue 0 (newRow pallet.totalWeight)).2))
        (nextLayerY64 config layerY
          (fillRow64 config layerY queue 0 (newRow pallet.totalWeight)).2)) :
    ∀ (n : Nat) (queue : List Item) (pallet : Pallet) (layerY : ℚ) (q1 : List Item)
      (p1 : Pallet), (∀ i ∈ queue, R i) → Inv pallet layerY →
      palletLoop64 config fuel n queue pallet layerY = some (q1, p1) →
      (∃ y1, Inv p1 y1) ∧ ∀ i ∈ q1, R i := by
  intro n
  induction n with
  | zero => intro queue pallet layerY q1 p1 _ _ h; simp [palletLoop64] at h
  | succ n ih =>
    intro queue pallet layerY q1 p1 hq hinv h
    simp only [palletLoop64] at h
    have hq1 := fillRow64_queue config layerY R hR queue 0 (newRow pallet.totalWeight) hq
    by_cases he :
        (fillRow64 config layerY queue 0 (newRow pallet.totalWeight)).2.rowItems.length = 0
    · rw [if_pos he] at h
      simp only [Option.some.injEq, Prod.mk.injEq] at h
      rw [← h.1, ← h.2]
      exact ⟨⟨layerY, hinv⟩, hq1⟩
    · rw [if_neg he] at h
      have hne : (fillRow64 config layerY queue 0 (newRow pallet.totalWeight)).2.rowItems ≠ [] :=
        fun hn => he (by rw [hn]; rfl)
      cases hp : placeRow64 config fuel layerY
          (fillRow64 config layerY queue 0 (newRow pallet.totalWeight)).2.rowItems
          (startX64 config (fillRow64 config layerY queue 0 (newRow pallet.totalWeight)).2) with
      | none => simp [hp] at h
      | some pw =>
        obtain ⟨ps, ws⟩ := pw
        simp only [hp] at h
        exact ih _ _ _ q1 p1 hq1 (step queue pallet layerY ps ws hq hinv hne hp) h

/-- A property of crates that every finished pass of the binary64 engine
establishes, from a queue whose entries satisfy `R`, holds of every crate the
scheduler returns. -/
theorem crateLoop64_forall_of (config : Config) (fuel : Nat) (R : Item → Prop)
    (hR : ∀ i, R i → R (markPlaced i)) (Q : Pallet → Prop)
    (hQ : ∀ (queue : List Item) (acc : List Pallet) (q1 : List Item) (pallet : Pallet),
      (∀ i ∈ queue, R i) →
      palletLoop64 config fuel fuel queue (newPallet64 config acc) config.lumberThick
        = some (q1, pallet) → Q pallet) :
    ∀ (passes : Nat) (queue : List Item) (acc : List Pallet) (r : Result),
      (∀ i ∈ queue, R i) → (∀ c ∈ acc, Q c) →
      crateLoop64 config fuel passes queue acc = some r → ∀ c ∈ r.pallets, Q c := by
  intro passes
  induction passes with
  | zero =>
    intro queue acc r _ hacc h
    simp only [crateLoop64] at h
    by_cases hq : 0 < queue.length
    · simp [hq] at h
    · rw [if_neg hq] at h
      simp only [Option.some.injEq] at h
      rw [← h]
      exact hacc
  | succ passes ih =>
    intro queue acc r hRq hacc h
    simp only [crateLoop64] at h
    by_cases hq : 0 < queue.length
    · rw [if_pos hq] at h
      cases hp : palletLoop64 config fuel fuel queue (newPallet64 config acc)
          config.lumberThick with
      | none => simp [hp] at h
      | some qp =>
        obtain ⟨q1, pallet⟩ := qp
        simp only [hp] at h
        have hall : ∀ c ∈ acc ++ [pallet], Q c := by
          intro c hc
          rcases List.mem_append.mp hc with hc | hc
          · exact hacc c hc
          · rw [List.mem_singleton.mp hc]; exact hQ queue acc q1 pallet hRq hp
        have hq1 : ∀ i ∈ q1, R i :=
          (palletLoop64_induct config fuel R hR (fun _ _ => True)
            (fun _ _ _ _ _ _ _ _ _ => trivial) fuel queue _ _ q1 pallet hRq trivial hp).2
        by_cases h1 : (q1.filter fun i => !i.isPlaced).length = q1.length
        · rw [if_pos h1] at h
          simp only [Option.some.injEq] at h
          rw [← h]
          exact hacc
        · rw [if_neg h1] at h
          by_cases h2 : (q1.filter fun i => !i.isPlaced).length = 0
          · rw [if_pos h2] at h
            simp only [Option.some.injEq] at h
            rw [← h]
            exact hall
          · rw [if_neg h2] at h
            exact ih _ _ r (fun i hi => hq1 i (List.mem_filter.mp hi).1) hall h
    · rw [if_neg hq] at h
      simp only [Option.some.injEq] at h
      rw [← h]
      exact hacc

theorem sortedQueue64_perm (items : List Item) : (sortedQueue64 items).Perm items :=
  List.perm_insertionSort _ items

/-- A property of crates that every finished pass establishes holds of every
crate a run of the binary64 engine returns. -/
theorem runOptimization64_forall_of (config : Config) (passes fuel : Nat) (R : Item → Prop)
    (hR : ∀ i, R i → R (markPlaced i)) (Q : Pallet → Prop)
    (hQ : ∀ (queue : List Item) (acc : List Pallet) (q1 : List Item) (pallet : Pallet),
      (∀ i ∈ queue, R i) →
      palletLoop64 config fuel fuel queue (newPallet64 config acc) config.lumberThick
        = some (q1, pallet) → Q pallet)
    (items : List Item) (r : Result) (hitems : ∀ i ∈ items, R i)
    (hrun : runOptimization64 passes fuel config items = some r) :
    ∀ c ∈ r.pallets, Q c := by
  unfold runOptimization64 at hrun
  by_cases he : items.length = 0
  · rw [if_pos he] at hrun
    simp only [Option.some.injEq] at hrun
    rw [← hrun]
    simp
  · rw [if_neg he] at hrun
    exact crateLoop64_forall_of config fuel R hR Q hQ passes _ [] r
      (fun i hi => hitems i ((sortedQueue64_perm items).subset hi)) (by simp) hrun

/-! ## The binary64 engine: sums and the height cursor -/

theorem add64_double (a b : ℚ) : IsDouble (add64 a b) := fl_idem (a + b)

theorem add64_ge_left {a b : ℚ} (ha : IsDouble a) (hb : 0 ≤ b) : a ≤ add64 a b := by
  have h := @fl_mono a (a + b) (by linarith)
  rw [ha] at h
  exact h

theorem add64_le_add64_right (a : ℚ) {b c : ℚ} (h : b ≤ c) : add64 a b ≤ add64 a c :=
  fl_mono (by linarith)

theorem add64_nonneg {a b : ℚ} (ha : 0 ≤ a) (hb : 0 ≤ b) : 0 ≤ add64 a b :=
  fl_nonneg (by linarith)

theorem mul64_two_nonneg {a : ℚ} (ha : 0 ≤ a) : 0 ≤ mul64 a 2 :=
  fl_nonneg (by linarith)

theorem nextLayerY64_double (config : Config) (layerY : ℚ) (row : RowScan) :
    IsDouble (nextLayerY64 config layerY row) := by
  unfold nextLayerY64
  by_cases hv : row.isVerticalRow = true
  · rw [if_pos hv]; exact add64_double _ _
  · rw [if_neg hv]; exact add64_double _ _

theorem nextLayerY64_ge (config : Config) (layerY : ℚ) (row : RowScan)
    (ht : 0 ≤ config.lumberThick) (hy : IsDouble layerY) (hm : 0 ≤ row.rowMaxHeight) :
    layerY ≤ nextLayerY64 config layerY row := by
  unfold nextLayerY64
  by_cases hv : row.isVerticalRow = true
  · rw [if_pos hv]; exact add64_ge_left hy hm
  · rw [if_neg hv]
    exact add64_ge_left hy (add64_nonneg hm (mul64_two_nonneg ht))

/-- The cursor after a row is at least the rounded sum of the cursor before it
and the row's greatest occupied height. -/
theorem nextLayerY64_ge_top (config : Config) (layerY : ℚ) (row : RowScan)
    (ht : 0 ≤ config.lumberThick) (hm : IsDouble row.rowMaxHeight) :
    add64 layerY row.rowMaxHeight ≤ nextLayerY64 config layerY row := by
  unfold nextLayerY64
  by_cases hv : row.isVerticalRow = true
  · rw [if_pos hv]
  · rw [if_neg hv]
    exact add64_le_add64_right layerY (add64_ge_left hm (mul64_two_nonneg ht))

theorem nextLayerY64_nonneg (config : Config) (layerY : ℚ) (row : RowScan)
    (ht : 0 ≤ config.lumberThick) (hy : 0 ≤ layerY) (hm : 0 ≤ row.rowMaxHeight) :
    0 ≤ nextLayerY64 config layerY row := by
  unfold nextLayerY64
  by_cases hv : row.isVerticalRow = true
  · rw [if_pos hv]; exact add64_nonneg hy hm
  · rw [if_neg hv]
    exact add64_nonneg hy (add64_nonneg hm (mul64_two_nonneg ht))

/-! ## The binary64 engine: height of the placed items -/

theorem palletLoop64_height (config : Config) (fuel n : Nat) (queue : List Item)
    (pallet : Pallet) (layerY : ℚ) (q1 : List Item) (p1 : Pallet)
    (h0 : ∀ p ∈ pallet.items, ∃ y, p.position.y = add64 y (div64 p.finalDims.y 2) ∧
      add64 y p.finalDims.y ≤ config.maxHeight)
    (h : palletLoop64 config fuel n queue pallet layerY = some (q1, p1)) :
    ∀ p ∈ p1.items, ∃ y, p.position.y = add64 y (div64 p.finalDims.y 2) ∧
      add64 y p.finalDims.y ≤ config.maxHeight := by
  obtain ⟨⟨_, hinv⟩, _⟩ := palletLoop64_induct config fuel (fun _ => True) (fun _ _ => trivial)
    (fun pallet _ => ∀ p ∈ pallet.items, ∃ y, p.position.y = add64 y (div64 p.finalDims.y 2) ∧
      add64 y p.finalDims.y ≤ config.maxHeight)
    (by
      intro queue pallet layerY ps ws _ hinv _ hp p hpm
      simp only [withRow, List.mem_append] at hpm
      rcases hpm with hpm | hpm
      · exact hinv p hpm
      · rw [placeRow64_items config fuel layerY _ _ ps ws hp] at hpm
        obtain ⟨ri, hri, _, e2, e3⟩ := placedRow64_mem config layerY _ _ p hpm
        have hrow := fillRow64_rowOk config layerY pallet.totalWeight (fun _ => True)
          (fun _ _ => trivial) queue (fun _ _ => trivial)
        refine ⟨layerY, ?_, ?_⟩
        · rw [e3, e2]
        · rw [e2]; exact (hrow.entries ri hri).2.2.2.2.1)
    n queue pallet layerY q1 p1 (fun _ _ => trivial) h0 h
  exact hinv

/-- C7, as stated, fails in double arithmetic: under the default configuration
with `maxHeight` typed as 62.9 the standing post of length 61.4 passes the
check of line 191 (1.5 + 61.4 rounds to 62.9) and is placed with `position.y`
32.2; its top face `position.y + finalDims.y / 2`, in exact arithmetic on these
output values as well as in doubles, is 62.900000000000006, above 62.9. -/
theorem height_bound_counterexample :
    runOptimization64 1 6 lowConfig [post614] = some lowRun ∧
    ¬ (∀ c ∈ lowRun.pallets, ∀ p ∈ c.items,
      p.position.y + p.finalDims.y / 2 ≤ lowConfig.maxHeight) ∧
    lowRun.pallets.map (fun c => c.items.map fun p =>
        (p.position.y, p.finalDims.y, add64 p.position.y (div64 p.finalDims.y 2)))
      = [[(fl 32.2, fl 61.4, fl 62.900000000000006)]] ∧
    add64 lowConfig.lumberThick (fl 61.4) ≤ lowConfig.maxHeight ∧
    lowConfig.maxHeight < fl 62.900000000000006 := by
  refine ⟨by decide!, by decide!, by decide!, by decide!, by decide!⟩

/-- The top face of every placed item is within one part in `2 ^ 51` of the
height limit, for a crate builder started on a non-negative height. -/
theorem palletLoop64_top (config : Config) (fuel n : Nat) (queue : List Item)
    (pallet : Pallet) (layerY : ℚ) (q1 : List Item) (p1 : Pallet)
    (ht : 0 ≤ config.lumberThick) (hy : 0 ≤ layerY) (hq : ∀ i ∈ queue, PositiveDims i)
    (h0 : ∀ p ∈ pallet.items, topFace p ≤ config.maxHeight * (1 + 1 / 2 ^ 51))
    (h : palletLoop64 config fuel n queue pallet layerY = some (q1, p1)) :
    ∀ p ∈ p1.items, topFace p ≤ config.maxHeight * (1 + 1 / 2 ^ 51) := by
  obtain ⟨⟨_, hinv⟩, _⟩ := palletLoop64_induct config fuel PositiveDims (fun _ h => h)
    (fun pallet y => 0 ≤ y ∧
      ∀ p ∈ pallet.items, topFace p ≤ config.maxHeight * (1 + 1 / 2 ^ 51))
    (by
      intro queue pallet layerY ps ws hq hinv _ hp
      have hrow := fillRow64_rowOk config layerY pallet.totalWeight PositiveDims
        (fun _ h => h) queue hq
      refine ⟨nextLayerY64_nonneg config layerY _ ht hinv.1 hrow.heightNonneg, ?_⟩
      intro p hpm
      simp only [withRow, List.mem_append] at hpm
      rcases hpm with hpm | hpm
      · exact hinv.2 p hpm
      · rw [placeRow64_items config fuel layerY _ _ ps ws hp] at hpm
        obtain ⟨ri, hri, _, e2, e3⟩ := placedRow64_mem config layerY _ _ p hpm
        obtain ⟨r1, r2, _, _, r5, _, _⟩ := hrow.entries ri hri
        have hpos : 0 < ri.dims.y := by
          rw [r2]; exact (dims_pos config ri.item r1).2.1
        unfold topFace
        rw [e3, e2]
        exact top_face_bound hinv.1 hpos.le r5)
    n queue pallet layerY q1 p1 hq ⟨hy, h0⟩ h
  exact hinv.2

/-- C7 (height bound), amended for double arithmetic. First part: every placed
item of every returned crate was placed on a row height `y` with `position.y =
y + finalDims.y / 2` (each operation rounded) whose top as the check of line
191 computes it, `y + finalDims.y` rounded, is at most `maxHeight`. Second
part: for `lumberThick ≥ 0` and input items of positive dimensions, the top
face `position.y + finalDims.y / 2` recomputed from the output is at most
`maxHeight * (1 + 2 ^ (-51))`: it can pass `maxHeight` by rounding only. -/
theorem height_bound_rounded (passes fuel : Nat) (config : Config) (items : List Item)
    (r : Result) (hrun : runOptimization64 passes fuel config items = some r) :
    (∀ c ∈ r.pallets, ∀ p ∈ c.items, ∃ y,
      p.position.y = add64 y (div64 p.finalDims.y 2) ∧
      add64 y p.finalDims.y ≤ config.maxHeight) ∧
    (0 ≤ config.lumberThick →
      (∀ i ∈ items, 0 < i.height ∧ 0 < i.width ∧ 0 < i.length) →
      ∀ c ∈ r.pallets, ∀ p ∈ c.items,
        topFace p ≤ config.maxHeight * (1 + 1 / 2 ^ 51)) := by
  constructor
  · refine runOptimization64_forall_of config passes fuel (fun _ => True) (fun _ _ => trivial)
      _ ?_ items r (fun _ _ => trivial) hrun
    intro queue acc q1 pallet _ hp
    exact palletLoop64_height config fuel fuel queue _ _ q1 pallet (by simp [newPallet64]) hp
  · intro ht hpos
    refine runOptimization64_forall_of config passes fuel PositiveDims (fun _ h => h)
      _ ?_ items r hpos hrun
    intro queue acc q1 pallet hq hp
    exact palletLoop64_top config fuel fuel queue _ _ q1 pallet ht ht hq
      (by simp [newPallet64]) hp

/-! ## The binary64 engine: the recorded crate height -/

theorem palletLoop64_currentHeight (config : Config) (fuel n : Nat) (queue : List Item)
    (pallet : Pallet) (layerY : ℚ) (q1 : List Item) (p1 : Pallet)
    (hq : ∀ i ∈ queue, PositiveDims i)
    (h0 : pallet.currentHeight = 0)
    (h : palletLoop64 config fuel n queue pallet layerY = some (q1, p1)) :
    p1.currentHeight = 0 ∨ ∃ y t, add64 y t ≤ config.maxHeight ∧
      (p1.currentHeight = add64 y t ∨
        p1.currentHeight = add64 y (add64 t (mul64 config.lumberThick 2))) := by
  obtain ⟨⟨_, hinv⟩, _⟩ := palletLoop64_induct config fuel PositiveDims (fun _ h => h)
    (fun pallet _ => pallet.currentHeight = 0 ∨ ∃ y t, add64 y t ≤ config.maxHeight ∧
      (pallet.currentHeight = add64 y t ∨
        pallet.currentHeight = add64 y (add64 t (mul64 config.lumberThick 2))))
    (by
      intro queue pallet layerY ps ws hq _ hne _
      right
      have hrow := fillRow64_rowOk config layerY pallet.totalWeight PositiveDims
        (fun _ h => h) queue hq
      obtain ⟨ri, hri⟩ := List.exists_mem_of_ne_nil _ hne
      obtain ⟨e1, e2, _, _, _, _, e7⟩ := hrow.entries ri hri
      have hpos : 0 < ri.dims.y := by
        rw [e2]
        exact (dims_pos config ri.item e1).2.1
      rcases hrow.attained with h0 | ⟨rj, hrj, he⟩
      · exact absurd (lt_of_lt_of_le hpos e7) (by rw [h0]; exact lt_irrefl _)
      · refine ⟨layerY, rj.dims.y, (hrow.entries rj hrj).2.2.2.2.1, ?_⟩
        simp only [withRow, nextLayerY64]
        rw [he]
        by_cases hv : (fillRow64 config layerY queue 0
            (newRow pallet.totalWeight)).2.isVerticalRow = true
        · left; rw [if_pos hv]
        · right; rw [if_neg hv])
    n queue pallet layerY q1 p1 hq (Or.inl h0) h
  exact hinv

/-- C16, as stated, fails: under the default configuration (`maxHeight` 80) the
single flat item of width 78 and height 8 is accepted, its top at 79.5, and the
crate records `currentHeight` 82.5. The height also passes `maxHeight + 2 *
lumberThick` in double arithmetic: with `palletWidth` 32 and `maxHeight` 33.98,
items 22.29 and 7.19 high go in two flat rows and the crate records
36.980000000000004, above 33.98 + 3. -/
theorem crate_height_counterexample :
    runOptimization64 1 6 defaultConfig [tallItem] = some tallRun64 ∧
    ¬ (∀ c ∈ tallRun64.pallets, c.currentHeight ≤ defaultConfig.maxHeight) ∧
    (runOptimization64 1 6 defaultConfig [tallItem]).map
        (fun r => (r.errors, r.pallets.map fun c => c.currentHeight))
      = some ([], [82.5]) ∧
    (runOptimization64 2 6 narrowConfig narrowItems).map
        (fun r => r.pallets.map fun c => (c.currentHeight,
          decide (c.currentHeight ≤ narrowConfig.maxHeight + 2 * narrowConfig.lumberThick)))
      = some [(fl 36.980000000000004, false)] := by
  refine ⟨by decide!, by decide!, by decide!, by decide!⟩

/-- The recorded height is within one part in `2 ^ 50` of `maxHeight + 2 *
lumberThick`, for a crate builder started on a non-negative height. -/
theorem palletLoop64_headroom (config : Config) (fuel n : Nat) (queue : List Item)
    (pallet : Pallet) (layerY : ℚ) (q1 : List Item) (p1 : Pallet)
    (ht : 0 ≤ config.lumberThick) (hmax : 0 ≤ config.maxHeight) (hy : 0 ≤ layerY)
    (hq : ∀ i ∈ queue, PositiveDims i) (h0 : pallet.currentHeight = 0)
    (h : palletLoop64 config fuel n queue pallet layerY = some (q1, p1)) :
    p1.currentHeight ≤ (config.maxHeight + 2 * config.lumberThick) * (1 + 1 / 2 ^ 50) := by
  obtain ⟨⟨_, hinv⟩, _⟩ := palletLoop64_induct config fuel PositiveDims (fun _ h => h)
    (fun pallet y => 0 ≤ y ∧ pallet.currentHeight
      ≤ (config.maxHeight + 2 * config.lumberThick) * (1 + 1 / 2 ^ 50))
    (by
      intro queue pallet layerY ps ws hq hinv hne _
      have hrow := fillRow64_rowOk config layerY pallet.totalWeight PositiveDims
        (fun _ h => h) queue hq
      refine ⟨nextLayerY64_nonneg config layerY _ ht hinv.1 hrow.heightNonneg, ?_⟩
      obtain ⟨ri, hri⟩ := List.exists_mem_of_ne_nil _ hne
      obtain ⟨e1, e2, _, _, _, _, e7⟩ := hrow.entries ri hri
      have hpos : 0 < ri.dims.y := by
        rw [e2]
        exact (dims_pos config ri.item e1).2.1
      rcases hrow.attained with h0 | ⟨rj, hrj, he⟩
      · exact absurd (lt_of_lt_of_le hpos e7) (by rw [h0]; exact lt_irrefl _)
      · have hchk : add64 layerY (fillRow64 config layerY queue 0
            (newRow pallet.totalWeight)).2.rowMaxHeight ≤ config.maxHeight := by
          rw [← he]; exact (hrow.entries rj hrj).2.2.2.2.1
        simp only [withRow, nextLayerY64]
        by_cases hv : (fillRow64 config layerY queue 0
            (newRow pallet.totalWeight)).2.isVerticalRow = true
        · rw [if_pos hv]
          have h1 : (0 : ℚ) ≤ 1 / 2 ^ 50 := by positivity
          nlinarith [mul_nonneg hmax h1, mul_nonneg ht h1]
        · rw [if_neg hv]
          exact headroom_bound hinv.1 hrow.heightNonneg ht hchk)
    n queue pallet layerY q1 p1 hq
    ⟨hy, by
      rw [h0]
      have h1 : (0 : ℚ) ≤ 1 / 2 ^ 50 := by positivity
      nlinarith [mul_nonneg hmax h1, mul_nonneg ht h1]⟩ h
  exact hinv.2

/-- C16 (crate height limit), amended for double arithmetic, for input items of
positive dimensions. First part: the recorded `currentHeight` of a returned
crate is 0 (no row was placed) or the height cursor after its last row: with
`y` the height the row stands on and `t` the occupied height of its tallest
item, which passed the check `y + t ≤ maxHeight` of line 191, it is `y + t` for
a standing row and `y + (t + lumberThick * 2)` for a flat row, every operation
rounded. Second part: for `lumberThick ≥ 0` and `maxHeight ≥ 0` it is at most
`(maxHeight + 2 * lumberThick) * (1 + 2 ^ (-50))`: it can pass `maxHeight` by
the headroom `lumberThick * 2` of a flat last row, and by rounding. -/
theorem crate_height_rounded (passes fuel : Nat) (config : Config) (items : List Item)
    (r : Result) (hpos : ∀ i ∈ items, 0 < i.height ∧ 0 < i.width ∧ 0 < i.length)
    (hrun : runOptimization64 passes fuel config items = some r) :
    (∀ c ∈ r.pallets, c.currentHeight = 0 ∨ ∃ y t, add64 y t ≤ config.maxHeight ∧
      (c.currentHeight = add64 y t ∨
        c.currentHeight = add64 y (add64 t (mul64 config.lumberThick 2)))) ∧
    (0 ≤ config.lumberThick → 0 ≤ config.maxHeight →
      ∀ c ∈ r.pallets, c.currentHeight
        ≤ (config.maxHeight + 2 * config.lumberThick) * (1 + 1 / 2 ^ 50)) := by
  constructor
  · refine runOptimization64_forall_of config passes fuel PositiveDims (fun _ h => h)
      _ ?_ items r hpos hrun
    intro queue acc q1 pallet hq hp
    exact palletLoop64_currentHeight config fuel fuel queue _ _ q1 pallet hq rfl hp
  · intro ht hmax
    refine runOptimization64_forall_of config passes fuel PositiveDims (fun _ h => h)
      _ ?_ items r hpos hrun
    intro queue acc q1 pallet hq hp
    exact palletLoop64_headroom config fuel fuel queue _ _ q1 pallet ht hmax ht hq rfl hp

/-! ## The binary64 engine: the height cursor and the standing orientation -/

theorem palletLoop64_standing (config : Config) (fuel n : Nat) (queue : List Item)
    (pallet : Pallet) (layerY : ℚ) (q1 : List Item) (p1 : Pallet)
    (ht : 0 ≤ config.lumberThick) (hy : config.lumberThick ≤ layerY) (hd : IsDouble layerY)
    (h0 : ∀ x ∈ pallet.items, vertical config x.toItem = true →
      x.position.y = add64 config.lumberThick (div64 x.finalDims.y 2))
    (h : palletLoop64 config fuel n queue pallet layerY = some (q1, p1)) :
    ∀ x ∈ p1.items, vertical config x.toItem = true →
      x.position.y = add64 config.lumberThick (div64 x.finalDims.y 2) := by
  obtain ⟨⟨_, hinv⟩, _⟩ := palletLoop64_induct config fuel (fun _ => True) (fun _ _ => trivial)
    (fun pallet layerY => (config.lumberThick ≤ layerY ∧ IsDouble layerY) ∧
      ∀ x ∈ pallet.items, vertical config x.toItem = true →
        x.position.y = add64 config.lumberThick (div64 x.finalDims.y 2))
    (by
      intro queue pallet layerY ps ws _ hinv _ hp
      obtain ⟨⟨hy, hd⟩, hitems⟩ := hinv
      have hrow := fillRow64_rowOk config layerY pallet.totalWeight (fun _ => True)
        (fun _ _ => trivial) queue (fun _ _ => trivial)
      refine ⟨⟨le_trans hy (nextLayerY64_ge config layerY _ ht hd hrow.heightNonneg),
        nextLayerY64_double config layerY _⟩, ?_⟩
      intro x hx hv
      simp only [withRow, List.mem_append] at hx
      rcases hx with hx | hx
      · exact hitems x hx hv
      · rw [placeRow64_items config fuel layerY _ _ ps ws hp] at hx
        obtain ⟨ri, hri, e1, e2, e3⟩ := placedRow64_mem config layerY _ _ x hx
        obtain ⟨_, _, r3, _, _, r6, _⟩ := hrow.entries ri hri
        have hle : layerY ≤ config.lumberThick := r6 (by rw [r3, ← e1]; exact hv)
        rw [e3, e2, le_antisymm hle hy])
    n queue pallet layerY q1 p1 (fun _ _ => trivial) ⟨⟨hy, hd⟩, h0⟩ h
  exact hinv.2

theorem dims_double (config : Config) (item : Item) (h : DoubleDims item) :
    IsDouble (dims config item).x ∧ IsDouble (dims config item).y ∧
      IsDouble (dims config item).z := by
  obtain ⟨h1, h2, h3⟩ := h
  unfold dims
  by_cases hv : vertical config item = true
  · rw [if_pos hv]; exact ⟨h2, h3, h1⟩
  · rw [if_neg hv]
    by_cases hw : item.width > item.height
    · rw [if_pos hw]; exact ⟨h1, h2, h3⟩
    · rw [if_neg hw]; exact ⟨h2, h1, h3⟩

theorem palletLoop64_later_rows_flat (config : Config) (fuel n : Nat) (queue : List Item)
    (pallet : Pallet) (layerY : ℚ) (q1 : List Item) (p1 : Pallet)
    (ht : 0 ≤ config.lumberThick) (hy : config.lumberThick < layerY) (hd : IsDouble layerY)
    (h : palletLoop64 config fuel n queue pallet layerY = some (q1, p1)) :
    ∃ more, p1.items = pallet.items ++ more ∧
      ∀ x ∈ more, vertical config x.toItem = false := by
  obtain ⟨⟨_, hinv⟩, _⟩ := palletLoop64_induct config fuel (fun _ => True) (fun _ _ => trivial)
    (fun p y => (config.lumberThick < y ∧ IsDouble y) ∧ ∃ more, p.items = pallet.items ++ more ∧
      ∀ x ∈ more, vertical config x.toItem = false)
    (by
      intro q p y ps ws _ hinv _ hp
      have hr := fillRow64_rowOk config y p.totalWeight (fun _ => True)
        (fun _ _ => trivial) q (fun _ _ => trivial)
      refine ⟨⟨lt_of_lt_of_le hinv.1.1 (nextLayerY64_ge config y _ ht hinv.1.2 hr.heightNonneg),
        nextLayerY64_double config y _⟩, ?_⟩
      obtain ⟨more, hm1, hm2⟩ := hinv.2
      refine ⟨more ++ ps, by simp [withRow, hm1], ?_⟩
      intro x hx
      rcases List.mem_append.mp hx with hx | hx
      · exact hm2 x hx
      · rw [placeRow64_items config fuel y _ _ ps ws hp] at hx
        obtain ⟨ri, hri, e1, _, _⟩ := placedRow64_mem config y _ _ x hx
        obtain ⟨_, _, b3, _, _, b6, _⟩ := hr.entries ri hri
        by_contra hv
        have hv' : ri.vertical = true := by
          rw [b3, ← e1]; simpa using hv
        exact absurd (b6 hv') (not_le.mpr hinv.1.1))
    n queue pallet layerY q1 p1 (fun _ _ => trivial) ⟨⟨hy, hd⟩, [], by simp, by simp⟩ h
  exact hinv.2

/-- The first iteration of the crate builder when its row is not empty. -/
theorem palletLoop64_first (config : Config) (fuel n : Nat) (queue : List Item)
    (pallet : Pallet) (layerY : ℚ) (q1 : List Item) (p1 : Pallet)
    (hne : (fillRow64 config layerY queue 0 (newRow pallet.totalWeight)).2.rowItems ≠ [])
    (h : palletLoop64 config fuel n queue pallet layerY = some (q1, p1)) :
    ∃ m ps ws, n = m + 1 ∧
      placeRow64 config fuel layerY
        (fillRow64 config layerY queue 0 (newRow pallet.totalWeight)).2.rowItems
        (startX64 config (fillRow64 config layerY queue 0 (newRow pallet.totalWeight)).2)
        = some (ps, ws) ∧
      palletLoop64 config fuel m (fillRow64 config layerY queue 0 (newRow pallet.totalWeight)).1
        (withRow pallet ps ws (fillRow64 config layerY queue 0 (newRow pallet.totalWeight)).2
          (nextLayerY64 config layerY
            (fillRow64 config layerY queue 0 (newRow pallet.totalWeight)).2))
        (nextLayerY64 config layerY
          (fillRow64 config layerY queue 0 (newRow pallet.totalWeight)).2)
        = some (q1, p1) := by
  cases n with
  | zero => simp [palletLoop64] at h
  | succ m =>
    simp only [palletLoop64] at h
    have he : ¬ (fillRow64 config layerY queue 0
        (newRow pallet.totalWeight)).2.rowItems.length = 0 :=
      fun e => hne (List.length_eq_zero.mp e)
    rw [if_neg he] at h
    cases hp : placeRow64 config fuel layerY
        (fillRow64 config layerY queue 0 (newRow pallet.totalWeight)).2.rowItems
        (startX64 config (fillRow64 config layerY queue 0 (newRow pallet.totalWeight)).2) with
    | none => simp [hp] at h
    | some pw =>
      obtain ⟨ps, ws⟩ := pw
      simp only [hp] at h
      exact ⟨m, ps, ws, rfl, rfl, h⟩

/-- The height cursor after a non-empty first row is above `lumberThick` when
no entry's occupied height is absorbed by the rounding. -/
theorem first_row_raises (config : Config) (queue : List Item) (w0 : ℚ)
    (ht : 0 ≤ config.lumberThick) (hdt : IsDouble config.lumberThick)
    (hq : ∀ i ∈ queue, DoubleDims i ∧ RaisesCursor config i)
    (hne : (fillRow64 config config.lumberThick queue 0 (newRow w0)).2.rowItems ≠ []) :
    config.lumberThick < nextLayerY64 config config.lumberThick
      (fillRow64 config config.lumberThick queue 0 (newRow w0)).2 := by
  have hrow := fillRow64_rowOk config config.lumberThick w0
    (fun i => DoubleDims i ∧ RaisesCursor config i) (fun _ h => h) queue hq
  have key : ∀ ri ∈ (fillRow64 config config.lumberThick queue 0 (newRow w0)).2.rowItems,
      IsDouble ri.dims.y ∧ config.lumberThick < add64 config.lumberThick ri.dims.y := by
    intro ri hri
    obtain ⟨e1, e2, _⟩ := hrow.entries ri hri
    rw [e2]
    exact ⟨(dims_double config ri.item e1.1).2.1, e1.2⟩
  rcases hrow.attained with h0 | ⟨rj, hrj, he⟩
  · exfalso
    obtain ⟨ri, hri⟩ := List.exists_mem_of_ne_nil _ hne
    have hle : ri.dims.y ≤ 0 := by
      rw [← h0]; exact (hrow.entries ri hri).2.2.2.2.2.2
    have h1 : add64 config.lumberThick ri.dims.y ≤ config.lumberThick := by
      have := @fl_mono (config.lumberThick + ri.dims.y) config.lumberThick (by linarith)
      rw [hdt] at this
      exact this
    exact absurd (key ri hri).2 (not_lt.mpr h1)
  · have h1 := (key rj hrj)
    rw [he] at h1
    exact lt_of_lt_of_le h1.2 (nextLayerY64_ge_top config config.lumberThick _ ht h1.1)

/-- The crate splits into its first row and the later rows, which hold no
standing item when no occupied height is absorbed by the rounding. -/
theorem palletLoop64_first_row (config : Config) (fuel n : Nat) (queue : List Item)
    (acc : List Pallet) (q1 : List Item) (p1 : Pallet)
    (ht : 0 ≤ config.lumberThick) (hdt : IsDouble config.lumberThick)
    (hq : ∀ i ∈ queue, DoubleDims i ∧ RaisesCursor config i)
    (h : palletLoop64 config fuel n queue (newPallet64 config acc) config.lumberThick
      = some (q1, p1)) :
    ∃ first more, p1.items = first ++ more ∧
      first = placedRow64 config config.lumberThick
        (fillRow64 config config.lumberThick queue 0 (newRow 0)).2.rowItems
        (startX64 config (fillRow64 config config.lumberThick queue 0 (newRow 0)).2) ∧
      ∀ x ∈ more, vertical config x.toItem = false := by
  have hw : (newPallet64 config acc).totalWeight = 0 := rfl
  by_cases hne : (fillRow64 config config.lumberThick queue 0 (newRow 0)).2.rowItems = []
  · cases n with
    | zero => simp [palletLoop64] at h
    | succ m =>
      simp only [palletLoop64, hw, hne, List.length_nil, if_true, Option.some.injEq,
        Prod.mk.injEq] at h
      refine ⟨[], [], ?_, by simp [hne, placedRow64], by simp⟩
      rw [← h.2]; rfl
  · obtain ⟨m, ps, ws, _, hp, hrest⟩ := palletLoop64_first config fuel n queue _ _ q1 p1
      (by rw [hw]; exact hne) h
    rw [hw] at hp hrest
    have hgt := first_row_raises config queue 0 ht hdt hq hne
    obtain ⟨more, hm1, hm2⟩ := palletLoop64_later_rows_flat config fuel m _ _ _ q1 p1 ht hgt
      (nextLayerY64_double config _ _) hrest
    refine ⟨ps, more, ?_, placeRow64_items config fuel _ _ _ ps ws hp, hm2⟩
    rw [hm1]
    simp [withRow, newPallet64]

/-- The occupied height of every placed item is positive when the dimensions of
the queue entries are. -/
theorem palletLoop64_dims_pos (config : Config) (fuel n : Nat) (queue : List Item)
    (pallet : Pallet) (layerY : ℚ) (q1 : List Item) (p1 : Pallet)
    (hq : ∀ i ∈ queue, PositiveDims i) (h0 : ∀ x ∈ pallet.items, 0 < x.finalDims.y)
    (h : palletLoop64 config fuel n queue pallet layerY = some (q1, p1)) :
    ∀ x ∈ p1.items, 0 < x.finalDims.y := by
  obtain ⟨⟨_, hinv⟩, _⟩ := palletLoop64_induct config fuel PositiveDims (fun _ h => h)
    (fun pallet _ => ∀ x ∈ pallet.items, 0 < x.finalDims.y)
    (by
      intro queue pallet layerY ps ws hq hinv _ hp x hx
      simp only [withRow, List.mem_append] at hx
      rcases hx with hx | hx
      · exact hinv x hx
      · rw [placeRow64_items config fuel layerY _ _ ps ws hp] at hx
        obtain ⟨ri, hri, _, e2, _⟩ := placedRow64_mem config layerY _ _ x hx
        have hrow := fillRow64_rowOk config layerY pallet.totalWeight PositiveDims
          (fun _ h => h) queue hq
        obtain ⟨r1, r2, _⟩ := hrow.entries ri hri
        rw [e2, r2]
        exact (dims_pos config ri.item r1).2.1)
    n queue pallet layerY q1 p1 hq h0 h
  exact hinv

/-- C9 (standing-orientation legality), amended for double arithmetic, for
`lumberThick ≥ 0` a double. First part: every placed item that the selection
rule stands up was placed while the height cursor equalled `lumberThick`: its
`position.y` is `lumberThick + finalDims.y / 2`, each operation rounded.
Second part: for input items of positive dimensions, the bottom face
`position.y - finalDims.y / 2` of such an item, recomputed from the output, is
within `(lumberThick + finalDims.y) * 2 ^ (-52)` of `lumberThick`. Third part:
when the dimensions of the input items are doubles and no occupied height is
absorbed by the rounding (`lumberThick + dims.y` rounds above `lumberThick`),
the items of every returned crate are those of its first row (one scan from the
empty crate) followed by items that are all flat. -/
theorem standing_legality_rounded (passes fuel : Nat) (config : Config) (items : List Item)
    (r : Result) (ht : 0 ≤ config.lumberThick) (hdt : IsDouble config.lumberThick)
    (hrun : runOptimization64 passes fuel config items = some r) :
    (∀ c ∈ r.pallets, ∀ x ∈ c.items, vertical config x.toItem = true →
      x.position.y = add64 config.lumberThick (div64 x.finalDims.y 2)) ∧
    ((∀ i ∈ items, 0 < i.height ∧ 0 < i.width ∧ 0 < i.length) →
      ∀ c ∈ r.pallets, ∀ x ∈ c.items, vertical config x.toItem = true →
        |bottomFace x - config.lumberThick|
          ≤ (config.lumberThick + x.finalDims.y) / 2 ^ 52) ∧
    ((∀ i ∈ items, DoubleDims i ∧ RaisesCursor config i) →
      ∀ c ∈ r.pallets, ∃ queue first more,
        (∀ i ∈ queue, DoubleDims i ∧ RaisesCursor config i) ∧
        c.items = first ++ more ∧
        first = placedRow64 config config.lumberThick
          (fillRow64 config config.lumberThick queue 0 (newRow 0)).2.rowItems
          (startX64 config (fillRow64 config config.lumberThick queue 0 (newRow 0)).2) ∧
        ∀ x ∈ more, vertical config x.toItem = false) := by
  have first : ∀ c ∈ r.pallets, ∀ x ∈ c.items, vertical config x.toItem = true →
      x.position.y = add64 config.lumberThick (div64 x.finalDims.y 2) := by
    refine runOptimization64_forall_of config passes fuel (fun _ => True) (fun _ _ => trivial)
      _ ?_ items r (fun _ _ => trivial) hrun
    intro queue acc q1 pallet _ hp
    exact palletLoop64_standing config fuel fuel queue _ _ q1 pallet ht (le_refl _) hdt
      (by simp [newPallet64]) hp
  refine ⟨first, ?_, ?_⟩
  · intro hpos c hc x hx hv
    have hdim : ∀ c ∈ r.pallets, ∀ x ∈ c.items, 0 < x.finalDims.y := by
      refine runOptimization64_forall_of config passes fuel PositiveDims (fun _ h => h)
        _ ?_ items r hpos hrun
      intro queue acc q1 pallet hq hp
      exact palletLoop64_dims_pos config fuel fuel queue _ _ q1 pallet hq
        (by simp [newPallet64]) hp
    unfold bottomFace
    rw [first c hc x hx hv]
    exact bottom_face_bound ht (hdim c hc x hx).le
  · intro hpos
    refine runOptimization64_forall_of config passes fuel
      (fun i => DoubleDims i ∧ RaisesCursor config i) (fun _ h => h) _ ?_ items r hpos hrun
    intro queue acc q1 pallet hq hp
    obtain ⟨first, more, h1, h2, h3⟩ := palletLoop64_first_row config fuel fuel queue acc q1
      pallet ht hdt hq hp
    exact ⟨queue, first, more, hq, h1, h2, h3⟩

/-- C9, as stated, fails in double arithmetic. First part: the standing post of
length 61.4 (default configuration, `maxHeight` typed as 62.9) is placed with
the height cursor at `lumberThick` = 1.5, and its bottom face `position.y -
finalDims.y / 2` is 1.5000000000000036, not 1.5. Second part: of three standing
posts 40 wide with length `1e-18`, two fill the first row; `1.5 + 1e-18`
rounds to 1.5, the height cursor does not move, and the third post is placed
standing in a second row, after the first row has been completed. -/
theorem standing_legality_counterexample :
    runOptimization64 1 6 lowConfig [post614] = some lowRun ∧
    ¬ (∀ c ∈ lowRun.pallets, ∀ x ∈ c.items, vertical lowConfig x.toItem = true →
      x.position.y - x.finalDims.y / 2 = lowConfig.lumberThick) ∧
    lowRun.pallets.map (fun c => c.items.map fun x =>
        (vertical lowConfig x.toItem, sub64 x.position.y (div64 x.finalDims.y 2)))
      = [[(true, fl 1.5000000000000036)]] ∧
    (∀ i ∈ tinyPosts, 0 < i.height ∧ 0 < i.width ∧ 0 < i.length ∧ 0 < i.weight) ∧
    (fillRow64 defaultConfig defaultConfig.lumberThick (sortedQueue64 tinyPosts) 0
        (newRow 0)).2.rowItems.map (fun ri => ri.item.itemNumber) = ["PIN-A", "PIN-B"] ∧
    (runOptimization64 1 6 defaultConfig tinyPosts).map (fun r => r.pallets.map fun c =>
        c.items.map fun x => (x.itemNumber, vertical defaultConfig x.toItem, x.position.y))
      = some [[("PIN-A", true, 1.5), ("PIN-B", true, 1.5), ("PIN-C", true, 1.5)]] := by
  refine ⟨by decide!, by decide!, by decide!, by decide!, by decide!, by decide!⟩

/-! ## The binary64 engine: where the items of a crate are put -/

theorem advanceX64_double (config : Config) (c : ℚ) (ri : RowItem) :
    IsDouble (advanceX64 config c ri) := by
  unfold advanceX64
  by_cases hv : ri.vertical = true
  · rw [if_pos hv]; exact add64_double _ _
  · rw [if_neg hv]; exact add64_double _ _

/-- The cursor after a row item is at or past the cursor before it. -/
theorem advanceX64_ge (config : Config) (c : ℚ) (ri : RowItem)
    (hlw : 0 ≤ config.lumberWidth) (hc : IsDouble c) (hx : 0 ≤ ri.dims.x) :
    c ≤ advanceX64 config c ri := by
  unfold advanceX64
  by_cases hv : ri.vertical = true
  · rw [if_pos hv]
    exact add64_ge_left hc (add64_nonneg hx (by norm_num))
  · rw [if_neg hv]
    exact add64_ge_left hc (add64_nonneg hx hlw)

theorem advanceX64_eq (config : Config) (c : ℚ) (ri : RowItem) :
    advanceX64 config c ri
      = add64 c (add64 ri.dims.x (if ri.vertical = true then 0.5 else config.lumberWidth)) := by
  unfold advanceX64
  by_cases hv : ri.vertical = true
  · rw [if_pos hv, if_pos hv]
  · rw [if_neg hv, if_neg hv]

/-- The accumulated width of a non-empty row passed the check of line 192. -/
theorem fillRow64_width (config : Config) (layerY w0 : ℚ) (queue : List Item) :
    (fillRow64 config layerY queue 0 (newRow w0)).2.rowItems ≠ [] →
      (fillRow64 config layerY queue 0 (newRow w0)).2.rowWidthUsed ≤ effWidth64 config :=
  fillRow64_induct config layerY
    (fun st => st.rowItems ≠ [] → st.rowWidthUsed ≤ effWidth64 config) queue 0 (newRow w0)
    (fun item _ k st h => by
      by_cases ha : Accepts64 config layerY item st
      · rw [scanItem64_of_accepts config layerY k item st ha]
        intro _
        exact ha.2.2.2.2.2.2
      · obtain ⟨_, n2, n3, _⟩ := scanItem64_of_not_accepts config layerY k item st ha
        rw [n2, n3]
        exact h)
    (by simp [newRow])

/-- The row cursor starts at or right of the pallet's edge when the safety gap
is not negative. -/
theorem startX64_nonneg (config : Config) (row : RowScan) (hsg : 0 ≤ config.safetyGap)
    (hpw : IsDouble config.palletWidth) (h : row.rowWidthUsed ≤ effWidth64 config) :
    0 ≤ startX64 config row := by
  have h1 : effWidth64 config ≤ config.palletWidth := by
    unfold effWidth64 sub64 mul64
    have h0 := fl_nonneg (show (0 : ℚ) ≤ config.safetyGap * 2 by positivity)
    have h2 := @fl_mono (config.palletWidth - fl (config.safetyGap * 2)) config.palletWidth
      (by linarith)
    rw [show fl config.palletWidth = config.palletWidth from hpw] at h2
    exact h2
  unfold startX64 div64 sub64
  apply fl_nonneg
  have h3 := fl_nonneg (show (0 : ℚ) ≤ config.palletWidth - row.rowWidthUsed by linarith)
  positivity

theorem placedRow64_slots (config : Config) (layerY : ℚ) (hlw : 0 ≤ config.lumberWidth) :
    ∀ (rows : List RowItem) (c : ℚ), IsDouble c →
      (∀ ri ∈ rows, 0 ≤ ri.dims.x ∧ ri.vertical = vertical config ri.item) →
      ∃ slots : List Slot, slots.map Slot.item = placedRow64 config layerY rows c ∧
        (∀ s ∈ slots, s.cy = layerY ∧ c ≤ s.cx ∧ SlotPosition config s) ∧
        slots.Pairwise (fun a b => add64 a.cx (add64 a.item.finalDims.x
          (if vertical config a.item.toItem then 0.5 else config.lumberWidth)) ≤ b.cx) := by
  intro rows
  induction rows with
  | nil =>
    intro c _ _
    exact ⟨[], rfl, by simp, List.Pairwise.nil⟩
  | cons ri rest ih =>
    intro c hc hrows
    obtain ⟨hx, hv⟩ := hrows ri (List.mem_cons_self _ _)
    have g2 := advanceX64_ge config c ri hlw hc hx
    obtain ⟨slots, e1, e2, e3⟩ := ih (advanceX64 config c ri) (advanceX64_double config c ri)
      (fun r hr => hrows r (List.mem_cons_of_mem _ hr))
    have hv' : vertical config (placedItem64 config layerY c ri).toItem = ri.vertical :=
      hv.symm
    refine ⟨⟨c, layerY, placedItem64 config layerY c ri⟩ :: slots, ?_, ?_, ?_⟩
    · simp [placedRow64, e1]
    · intro s hs
      rcases List.mem_cons.mp hs with hs | hs
      · subst hs
        refine ⟨rfl, le_refl _, ?_⟩
        show (placedItem64 config layerY c ri).position = _
        simp only [hv']
        rfl
      · obtain ⟨s1, s2, s3⟩ := e2 s hs
        exact ⟨s1, le_trans g2 s2, s3⟩
    · refine List.Pairwise.cons ?_ e3
      intro s hs
      show add64 c (add64 (placedItem64 config layerY c ri).finalDims.x
        (if vertical config (placedItem64 config layerY c ri).toItem = true then 0.5
          else config.lumberWidth)) ≤ s.cx
      rw [hv']
      have := (e2 s hs).2.1
      rw [advanceX64_eq] at this
      exact this

/-- The faces of two slots that are apart, recomputed from the centres: apart up
to rounding. -/
theorem slotsApart_faces (config : Config) (a b : Slot) (hlw : 0 ≤ config.lumberWidth)
    (ha : SlotPosition config a) (hb : SlotPosition config b)
    (hax : 0 ≤ a.cx) (hay : 0 ≤ a.cy) (hbx : 0 ≤ b.cx) (hby : 0 ≤ b.cy)
    (haw : 0 ≤ a.item.finalDims.x) (hah : 0 ≤ a.item.finalDims.y)
    (hbw : 0 ≤ b.item.finalDims.x) (hbh : 0 ≤ b.item.finalDims.y)
    (h : SlotsApart config a b) : ApartUpToRounding a.item b.item := by
  have hu : (0 : ℚ) ≤ 1 / 2 ^ 53 := by positivity
  have pax := congrArg Vec3.x ha
  have pay := congrArg Vec3.y ha
  have pbx := congrArg Vec3.x hb
  have pby := congrArg Vec3.y hb
  simp only at pax pay pbx pby
  rcases h with ⟨_, hx⟩ | hy
  · left
    unfold rightEdge leftEdge
    rw [pax, pbx]
    have hg : (0 : ℚ) ≤ (if vertical config a.item.toItem = true then 0.5
        else config.lumberWidth) := by
      split_ifs
      · norm_num
      · exact hlw
    have hia0 : 0 ≤ (if vertical config a.item.toItem = true then a.cx
        else add64 a.cx config.lumberWidth) := by
      split_ifs
      · exact hax
      · exact add64_nonneg hax hlw
    have hia : (if vertical config a.item.toItem = true then a.cx
        else add64 a.cx config.lumberWidth)
        ≤ (a.cx + (if vertical config a.item.toItem = true then 0.5
          else config.lumberWidth)) * (1 + 1 / 2 ^ 53) := by
      split_ifs
      · have : 0 ≤ a.cx * (1 / 2 ^ 53) := mul_nonneg hax hu
        have : (0 : ℚ) ≤ 0.5 * (1 + 1 / 2 ^ 53) := by positivity
        linarith
      · exact fl_le_of_nonneg (by linarith)
    have hib0 : 0 ≤ (if vertical config b.item.toItem = true then b.cx
        else add64 b.cx config.lumberWidth) := by
      split_ifs
      · exact hbx
      · exact add64_nonneg hbx hlw
    have hib : b.cx * (1 - 1 / 2 ^ 53)
        ≤ (if vertical config b.item.toItem = true then b.cx
          else add64 b.cx config.lumberWidth) := by
      split_ifs
      · have : 0 ≤ b.cx * (1 / 2 ^ 53) := mul_nonneg hbx hu
        linarith
      · have h1 := le_fl_of_nonneg (show (0 : ℚ) ≤ b.cx + config.lumberWidth by linarith)
        have h2 : (0 : ℚ) ≤ config.lumberWidth * (1 - 1 / 2 ^ 53) :=
          mul_nonneg hlw (by norm_num)
        unfold add64
        linarith
    exact faces_apart_x hax haw hg hbw hia0 hia hib0 hib hx
  · right
    unfold topFace bottomFace
    rw [pay, pby]
    exact faces_apart_y hay hah hby hbh hy

theorem palletLoop64_slots (config : Config) (fuel n : Nat) (queue : List Item)
    (pallet : Pallet) (q1 : List Item) (p1 : Pallet)
    (hlw : 0 ≤ config.lumberWidth) (ht : 0 ≤ config.lumberThick)
    (hdt : IsDouble config.lumberThick)
    (hq : ∀ i ∈ queue, PositiveDims i ∧ DoubleDims i) (h0 : pallet.items = [])
    (h : palletLoop64 config fuel n queue pallet config.lumberThick = some (q1, p1)) :
    ∃ slots : List Slot, slots.map Slot.item = p1.items ∧
      (∀ s ∈ slots, SlotPosition config s ∧ 0 ≤ s.cy ∧ 0 < s.item.finalDims.x ∧
        0 < s.item.finalDims.y ∧
        (0 ≤ config.safetyGap → IsDouble config.palletWidth → 0 ≤ s.cx)) ∧
      slots.Pairwise (SlotsApart config) := by
  obtain ⟨⟨_, hinv⟩, _⟩ := palletLoop64_induct config fuel
    (fun i => PositiveDims i ∧ DoubleDims i) (fun _ h => h)
    (fun p y => (IsDouble y ∧ 0 ≤ y) ∧ ∃ slots : List Slot, slots.map Slot.item = p.items ∧
      (∀ s ∈ slots, (SlotPosition config s ∧ 0 ≤ s.cy ∧ 0 < s.item.finalDims.x ∧
        0 < s.item.finalDims.y ∧
        (0 ≤ config.safetyGap → IsDouble config.palletWidth → 0 ≤ s.cx)) ∧
        add64 s.cy s.item.finalDims.y ≤ y) ∧
      slots.Pairwise (SlotsApart config))
    (by
      intro q p y ps ws hq hinv hne hp
      obtain ⟨⟨hy, hy0⟩, slots, s1, s2, s3⟩ := hinv
      have hrow := fillRow64_rowOk config y p.totalWeight
        (fun i => PositiveDims i ∧ DoubleDims i) (fun _ h => h) q hq
      have hent : ∀ ri ∈ (fillRow64 config y q 0 (newRow p.totalWeight)).2.rowItems,
          0 < ri.dims.x ∧ ri.vertical = vertical config ri.item ∧
          IsDouble ri.dims.y ∧ 0 < ri.dims.y := by
        intro ri hri
        obtain ⟨e1, e2, e3, _⟩ := hrow.entries ri hri
        rw [e2]
        exact ⟨(dims_pos config ri.item e1.1).1, e3,
          (dims_double config ri.item e1.2).2.1, (dims_pos config ri.item e1.1).2.1⟩
      have hmax : IsDouble (fillRow64 config y q 0 (newRow p.totalWeight)).2.rowMaxHeight := by
        rcases hrow.attained with h0 | ⟨rj, hrj, he⟩
        · rw [h0]; exact fl_zero
        · rw [← he]; exact (hent rj hrj).2.2.1
      obtain ⟨rs, r1, r2, r3⟩ := placedRow64_slots config y hlw _
        (startX64 config (fillRow64 config y q 0 (newRow p.totalWeight)).2)
        (fl_idem _) (fun ri hri => ⟨(hent ri hri).1.le, (hent ri hri).2.1⟩)
      have hps := placeRow64_items config fuel y _ _ ps ws hp
      have hge := nextLayerY64_ge config y
        (fillRow64 config y q 0 (newRow p.totalWeight)).2 ht hy hrow.heightNonneg
      have htop := nextLayerY64_ge_top config y
        (fillRow64 config y q 0 (newRow p.totalWeight)).2 ht hmax
      have hrsd : ∀ s ∈ rs, 0 < s.item.finalDims.x ∧ 0 < s.item.finalDims.y ∧
          s.item.finalDims.y ≤
            (fillRow64 config y q 0 (newRow p.totalWeight)).2.rowMaxHeight := by
        intro s hs
        have hmem : s.item ∈ placedRow64 config y
            (fillRow64 config y q 0 (newRow p.totalWeight)).2.rowItems
            (startX64 config (fillRow64 config y q 0 (newRow p.totalWeight)).2) := by
          rw [← r1]; exact List.mem_map_of_mem _ hs
        obtain ⟨ri, hri, _, e2, _⟩ := placedRow64_mem config y _ _ _ hmem
        rw [e2]
        exact ⟨(hent ri hri).1, (hent ri hri).2.2.2, (hrow.entries ri hri).2.2.2.2.2.2⟩
      refine ⟨⟨nextLayerY64_double config y _, le_trans hy0 hge⟩, slots ++ rs, ?_, ?_, ?_⟩
      · simp [withRow, s1, r1, hps]
      · intro s hs
        rcases List.mem_append.mp hs with hs | hs
        · exact ⟨(s2 s hs).1, le_trans (s2 s hs).2 hge⟩
        · obtain ⟨t1, t2, t3⟩ := r2 s hs
          refine ⟨⟨t3, by rw [t1]; exact hy0, (hrsd s hs).1, (hrsd s hs).2.1, ?_⟩, ?_⟩
          · intro hsg hpw
            exact le_trans (startX64_nonneg config _ hsg hpw
              (fillRow64_width config y p.totalWeight q hne)) t2
          · rw [t1]
            exact le_trans (add64_le_add64_right y (hrsd s hs).2.2) htop
      · rw [List.pairwise_append]
        refine ⟨s3, ?_, ?_⟩
        · exact r3.imp_of_mem (fun {a b} ha hb hab =>
            Or.inl ⟨by rw [(r2 a ha).1, (r2 b hb).1], hab⟩)
        · intro a ha b hb
          right
          rw [(r2 b hb).1]
          exact (s2 a ha).2)
    n queue pallet config.lumberThick q1 p1 hq
    ⟨⟨hdt, ht⟩, [], by simp [h0], by simp, List.Pairwise.nil⟩ h
  obtain ⟨_, slots, s1, s2, s3⟩ := hinv
  exact ⟨slots, s1, fun s hs => (s2 s hs).1, s3⟩

/-- C18 (no overlap), amended for double arithmetic, for `lumberWidth ≥ 0`,
`lumberThick ≥ 0` a double and input items whose dimensions are positive
doubles. First part: the items of every returned crate have slots, in placement
order: each item was met at an x cursor `cx` in a row standing on the height
`cy`, and its `position` is computed from them as lines 212-219 do; and of any
two items, the earlier `a` and the later `b`, either both are on the same row
height and the cursor of `b` is at or past the cursor after `a` (`cx +
(finalDims.x + lumberWidth)` for a flat `a`, `cx + (finalDims.x + 0.5)` for a
standing one), or the row height of `b` is at or past `cy + finalDims.y` of `a`
(sums rounded). Second part: for `safetyGap ≥ 0` and `palletWidth` a double,
the boxes recomputed from `position` and `finalDims` are apart up to rounding:
of any two items of a crate, the earlier `a` and the later `b`, the right edge
of `a` is at most the left edge of `b` plus `2 ^ (-49)` times the right edge of
`b`, or the top face of `a` is at most the bottom face of `b` plus `2 ^ (-49)`
times the top face of `b`. -/
theorem no_overlap_rounded (passes fuel : Nat) (config : Config) (items : List Item)
    (r : Result) (hlw : 0 ≤ config.lumberWidth) (ht : 0 ≤ config.lumberThick)
    (hdt : IsDouble config.lumberThick)
    (hpos : ∀ i ∈ items, (0 < i.height ∧ 0 < i.width ∧ 0 < i.length) ∧ DoubleDims i)
    (hrun : runOptimization64 passes fuel config items = some r) :
    (∀ c ∈ r.pallets, ∃ slots : List Slot, slots.map Slot.item = c.items ∧
      (∀ s ∈ slots, SlotPosition config s) ∧ slots.Pairwise (SlotsApart config)) ∧
    (0 ≤ config.safetyGap → IsDouble config.palletWidth →
      ∀ c ∈ r.pallets, c.items.Pairwise ApartUpToRounding) := by
  have key : ∀ c ∈ r.pallets, ∃ slots : List Slot, slots.map Slot.item = c.items ∧
      (∀ s ∈ slots, SlotPosition config s ∧ 0 ≤ s.cy ∧ 0 < s.item.finalDims.x ∧
        0 < s.item.finalDims.y ∧
        (0 ≤ config.safetyGap → IsDouble config.palletWidth → 0 ≤ s.cx)) ∧
      slots.Pairwise (SlotsApart config) := by
    refine runOptimization64_forall_of config passes fuel
      (fun i => PositiveDims i ∧ DoubleDims i) (fun _ h => h) _ ?_ items r hpos hrun
    intro queue acc q1 pallet hq hp
    exact palletLoop64_slots config fuel fuel queue _ q1 pallet hlw ht hdt hq rfl hp
  constructor
  · intro c hc
    obtain ⟨slots, s1, s2, s3⟩ := key c hc
    exact ⟨slots, s1, fun s hs => (s2 s hs).1, s3⟩
  · intro hsg hpw c hc
    obtain ⟨slots, s1, s2, s3⟩ := key c hc
    rw [← s1, List.pairwise_map]
    refine s3.imp_of_mem ?_
    intro a b ha hb hab
    obtain ⟨a1, a2, a3, a4, a5⟩ := s2 a ha
    obtain ⟨b1, b2, b3, b4, b5⟩ := s2 b hb
    exact slotsApart_faces config a b hlw a1 b1 (a5 hsg hpw) a2 (b5 hsg hpw) b2 a3.le a4.le
      b3.le b4.le hab

/-- C18, as stated, fails in double arithmetic. Under the default configuration
with `maxHeight` 63, the standing post of length 61.4 fills the first row and
the flat bar 0.1 high is laid in the second row; the post's top face
`position.y + finalDims.y / 2` is 62.900000000000006 and the bar's bottom face
is 62.9 (rounded to doubles; the exact values are in the same order), so the y
intervals of these two items of different rows overlap, and not in an end point
only. With three standing posts 40 wide of length `1e-18` the height cursor
does not move after the first row, and the third post is placed in a second row
at the same `position.y` as the first two, its x interval from 21.75 to 61.75
inside theirs (1.5 to 41.5 and 42 to 82). -/
theorem no_overlap_counterexample :
    runOptimization64 2 6 config63 crossItems = some crossRun ∧
    ¬ (∀ c ∈ crossRun.pallets, c.items.Pairwise fun a b =>
        bottomFace a ≠ bottomFace b →
          ClosedDisjoint (bottomFace a) (topFace a) (bottomFace b) (topFace b)) ∧
    ¬ (∀ c ∈ crossRun.pallets, c.items.Pairwise fun a b =>
        rightEdge a ≤ leftEdge b ∨ topFace a ≤ bottomFace b) ∧
    crossRun.pallets.map (fun c => c.items.map fun x =>
        (x.itemNumber, fl (bottomFace x), fl (topFace x)))
      = [[("POST-61.4", fl 1.5000000000000036, fl 62.900000000000006),
          ("BAR-63", fl 62.9, fl 62.99999999999999)]] ∧
    (runOptimization64 1 6 defaultConfig tinyPosts).map (fun r => r.pallets.map fun c =>
        c.items.map fun x => (x.itemNumber, leftEdge x, rightEdge x, x.position.y))
      = some [[("PIN-A", 1.5, 41.5, 1.5), ("PIN-B", 42, 82, 1.5),
          ("PIN-C", 21.75, 61.75, 1.5)]] ∧
    (runOptimization64 1 6 defaultConfig tinyPosts).map (fun r => r.pallets.map fun c =>
        decide (c.items.Pairwise fun a b =>
          rightEdge a ≤ leftEdge b ∨ topFace a ≤ bottomFace b))
      = some [false] := by
  refine ⟨by decide!, by decide!, by decide!, by decide!, by decide!, by decide!⟩

/-! ## The binary64 engine: a single standing row -/

theorem foldl_add64_ge (f : Item → ℚ) :
    ∀ (rest : List Item) (acc : ℚ), IsDouble acc → (∀ x ∈ rest, 0 ≤ f x) →
      acc ≤ rest.foldl (fun a i => add64 a (f i)) acc := by
  intro rest
  induction rest with
  | nil => intro acc _ _; exact le_refl _
  | cons x rest ih =>
    intro acc hacc hf
    simp only [List.foldl_cons]
    exact le_trans (add64_ge_left hacc (hf x (List.mem_cons_self _ _)))
      (ih _ (add64_double _ _) (fun y hy => hf y (List.mem_cons_of_mem _ hy)))

theorem fillRow64_standing (config : Config) :
    ∀ (queue : List Item) (i : Nat) (st : RowScan),
      (∀ x ∈ queue, x.isPlaced = false ∧ vertical config x = true ∧ 0 ≤ x.weight ∧
        0 ≤ x.width ∧ add64 config.lumberThick x.length ≤ config.maxHeight) →
      (st.rowItems ≠ [] → st.isVerticalRow = true) →
      IsDouble st.totalWeight → IsDouble st.rowWidthUsed →
      queueWeight64 st.totalWeight queue ≤ config.maxWeight →
      standingWidth64 st.rowWidthUsed queue ≤ effWidth64 config →
      (fillRow64 config config.lumberThick queue i st).1 = queue.map markPlaced ∧
      (fillRow64 config config.lumberThick queue i st).2.rowItems.map RowItem.item
        = st.rowItems.map RowItem.item ++ queue.map markPlaced := by
  intro queue
  induction queue with
  | nil => intro i st _ _ _ _ _ _; simp [fillRow64]
  | cons item rest ih =>
    intro i st hq hst hdw hdx hw hx
    obtain ⟨h1, h2, h3, h4, h5⟩ := hq item (List.mem_cons_self _ _)
    have hrest : ∀ x ∈ rest, x.isPlaced = false ∧ vertical config x = true ∧ 0 ≤ x.weight ∧
        0 ≤ x.width ∧ add64 config.lumberThick x.length ≤ config.maxHeight :=
      fun x hx => hq x (List.mem_cons_of_mem _ hx)
    have hd : dims config item = ⟨item.width, item.length, item.height⟩ := by
      unfold dims; rw [if_pos h2]
    have hfp : ∀ n, itemFootprintWidth64 config n item = add64 item.width 0.5 := by
      intro n
      unfold itemFootprintWidth64
      rw [if_pos h2, hd]
    simp only [queueWeight64, standingWidth64, List.foldl_cons] at hw hx
    have hw1 : add64 st.totalWeight item.weight ≤ config.maxWeight :=
      le_trans (foldl_add64_ge Item.weight rest _ (add64_double _ _)
        (fun x hx => (hrest x hx).2.2.1)) hw
    have hx1 : add64 st.rowWidthUsed (add64 item.width 0.5) ≤ effWidth64 config :=
      le_trans (foldl_add64_ge (fun i => add64 i.width 0.5) rest _ (add64_double _ _)
        (fun x hx => add64_nonneg (hrest x hx).2.2.2.1 (by norm_num))) hx
    have ha : Accepts64 config config.lumberThick item st := by
      refine ⟨h1, hw1, fun _ => le_refl _, fun hne => by rw [hst hne, h2],
        fun hv => by rw [h2] at hv; exact absurd hv (by simp), by rw [hd]; exact h5, ?_⟩
      rw [hfp]; exact hx1
    have hscan := scanItem64_of_accepts config config.lumberThick i item st ha
    obtain ⟨e1, e2⟩ := ih (i + 1) (acceptState64 config i item st) hrest
      (fun _ => h2) (add64_double _ _) (add64_double _ _)
      (by simp only [acceptState64]; exact hw)
      (by simp only [acceptState64]; rw [hfp]; exact hx)
    have hfill : fillRow64 config config.lumberThick (item :: rest) i st
        = (markPlaced item :: (fillRow64 config config.lumberThick rest (i + 1)
            (acceptState64 config i item st)).1,
          (fillRow64 config config.lumberThick rest (i + 1)
            (acceptState64 config i item st)).2) := by
      simp only [fillRow64, hscan]
    rw [hfill]
    refine ⟨by simp [e1], ?_⟩
    rw [e2]
    simp [acceptState64]

theorem placeRow64_vertical (config : Config) (fuel : Nat) (layerY : ℚ) :
    ∀ (rows : List RowItem) (x : ℚ), (∀ ri ∈ rows, ri.vertical = true) →
      ∃ ps, placeRow64 config fuel layerY rows x = some (ps, []) := by
  intro rows
  induction rows with
  | nil => intro x _; exact ⟨[], rfl⟩
  | cons ri rest ih =>
    intro x h
    have hv := h ri (List.mem_cons_self _ _)
    obtain ⟨ps, hps⟩ := ih (advanceX64 config x ri)
      (fun r hr => h r (List.mem_cons_of_mem _ hr))
    have hf : framing64 config fuel layerY (itemX64 config x ri) ri = some [] := by
      unfold framing64; rw [if_pos hv]
    exact ⟨placedItem64 config layerY x ri :: ps, by simp [placeRow64, hf, hps]⟩

theorem fillRow64_all_placed (config : Config) (layerY : ℚ) :
    ∀ (queue : List Item) (i : Nat) (st : RowScan), (∀ x ∈ queue, x.isPlaced = true) →
      fillRow64 config layerY queue i st = (queue, st) := by
  intro queue
  induction queue with
  | nil => intro i st _; rfl
  | cons item rest ih =>
    intro i st h
    have h1 : scanItem64 config layerY i item st = (item, st) := by
      simp [scanItem64, h item (List.mem_cons_self _ _)]
    simp only [fillRow64, h1, ih (i + 1) st (fun x hx => h x (List.mem_cons_of_mem _ hx))]

theorem palletLoop64_all_placed (config : Config) (fuel n : Nat) (queue : List Item)
    (pallet : Pallet) (layerY : ℚ) (hall : ∀ x ∈ queue, x.isPlaced = true) :
    palletLoop64 config fuel (n + 1) queue pallet layerY = some (queue, pallet) := by
  simp [palletLoop64, fillRow64_all_placed config layerY queue 0 _ hall, newRow]

/-- A queue of fresh standing candidates whose accumulated width, weight and
heights pass the checks is packed into one crate, in queue order, in the row at
the height cursor `lumberThick`. -/
theorem standing_queue_one_crate (passes fuel : Nat) (config : Config) (queue : List Item)
    (hne : queue ≠ []) (hfresh : ∀ i ∈ queue, i.isPlaced = false)
    (hpos : ∀ i ∈ queue, 0 < i.width ∧ 0 < i.weight)
    (hqual : ∀ i ∈ queue, config.allowVertical = true ∧ i.length < config.maxHeight ∧
      i.length < 90)
    (hwidth : standingWidth64 0 queue ≤ effWidth64 config)
    (hweight : queueWeight64 0 queue ≤ config.maxWeight)
    (hheight : ∀ i ∈ queue, add64 config.lumberThick i.length ≤ config.maxHeight) :
    ∃ crate, crateLoop64 config (fuel + 2) (passes + 1) queue [] = some ⟨[crate], []⟩ ∧
      crate.items.map PlacedItem.toItem = queue.map markPlaced ∧
      ∀ x ∈ crate.items, vertical config x.toItem = true ∧
        x.finalDims = ⟨x.width, x.length, x.height⟩ ∧
        x.position.y = add64 config.lumberThick (div64 x.finalDims.y 2) := by
  have hq : ∀ x ∈ queue, x.isPlaced = false ∧ vertical config x = true ∧
      0 ≤ x.weight ∧ 0 ≤ x.width ∧ add64 config.lumberThick x.length ≤ config.maxHeight :=
    fun x hx => ⟨hfresh x hx, (vertical_iff config x).mpr (hqual x hx),
      (hpos x hx).2.le, (hpos x hx).1.le, hheight x hx⟩
  obtain ⟨e1, e2⟩ := fillRow64_standing config queue 0 (newRow 0) hq
    (fun h => absurd rfl h) fl_zero fl_zero hweight hwidth
  simp only [newRow, List.map_nil, List.nil_append] at e2
  have e2' : (fillRow64 config config.lumberThick queue 0 (newRow 0)).2.rowItems.map
      RowItem.item = queue.map markPlaced := e2
  have hr := fillRow64_rowOk config config.lumberThick 0 (fun _ => True)
    (fun _ _ => trivial) queue (fun _ _ => trivial)
  have hrowv : ∀ ri ∈ (fillRow64 config config.lumberThick queue 0
      (newRow 0)).2.rowItems, vertical config ri.item = true := by
    intro ri hri
    have : ri.item ∈ queue.map markPlaced := by
      rw [← e2']; exact List.mem_map_of_mem _ hri
    obtain ⟨j, hj, hje⟩ := List.mem_map.mp this
    rw [← hje, vertical_markPlaced]
    exact (hq j hj).2.1
  have hrne : (fillRow64 config config.lumberThick queue 0 (newRow 0)).2.rowItems ≠ [] := by
    intro e
    rw [e] at e2'
    simp only [List.map_nil] at e2'
    exact hne (List.map_eq_nil_iff.mp e2'.symm)
  obtain ⟨ps, hps⟩ := placeRow64_vertical config (fuel + 2) config.lumberThick _
    (startX64 config (fillRow64 config config.lumberThick queue 0 (newRow 0)).2)
    (fun ri hri => by rw [(hr.entries ri hri).2.2.1]; exact hrowv ri hri)
  have hplaced : ∀ x ∈ queue.map markPlaced, x.isPlaced = true := by
    intro x hx
    obtain ⟨j, _, hje⟩ := List.mem_map.mp hx
    rw [← hje]; rfl
  have hpl : palletLoop64 config (fuel + 2) (fuel + 2) queue (newPallet64 config [])
      config.lumberThick = some (queue.map markPlaced,
        withRow (newPallet64 config []) ps []
          (fillRow64 config config.lumberThick queue 0 (newRow 0)).2
          (nextLayerY64 config config.lumberThick
            (fillRow64 config config.lumberThick queue 0 (newRow 0)).2)) := by
    have hw0 : (newPallet64 config []).totalWeight = 0 := rfl
    have hlen : ¬ (fillRow64 config config.lumberThick queue 0
        (newRow 0)).2.rowItems.length = 0 := fun e => hrne (List.length_eq_zero.mp e)
    rw [show fuel + 2 = (fuel + 1) + 1 from rfl]
    simp only [palletLoop64, hw0, if_neg hlen, hps, e1]
    exact palletLoop64_all_placed config _ fuel _ _ _ hplaced
  have hun : (queue.map markPlaced).filter (fun i => !i.isPlaced) = [] := by
    rw [List.filter_eq_nil_iff]
    intro x hx
    simp [hplaced x hx]
  have hps' := placeRow64_items config (fuel + 2) _ _ _ ps [] hps
  refine ⟨withRow (newPallet64 config []) ps []
      (fillRow64 config config.lumberThick queue 0 (newRow 0)).2
      (nextLayerY64 config config.lumberThick
        (fillRow64 config config.lumberThick queue 0 (newRow 0)).2), ?_, ?_, ?_⟩
  · have hqlen : 0 < queue.length := List.length_pos.mpr hne
    have hl : ¬ ([] : List Item).length = (queue.map markPlaced).length := by
      intro e
      simp only [List.length_nil, List.length_map] at e
      exact hne (List.length_eq_zero.mp e.symm)
    have hl2 : ¬ 0 = (queue.map markPlaced).length := hl
    simp only [crateLoop64, if_pos hqlen, hpl, hun, List.length_nil, if_neg hl2, if_true,
      List.nil_append]
  · simp only [withRow, newPallet64, List.nil_append]
    rw [← e2']
    rw [hps']
    clear hps hps' hpl hrne hrowv hr e2' e2 e1
    generalize (fillRow64 config config.lumberThick queue 0 (newRow 0)).2.rowItems = rows
    generalize startX64 config (fillRow64 config config.lumberThick queue 0 (newRow 0)).2 = c
    induction rows generalizing c with
    | nil => rfl
    | cons ri rest ih => simp only [placedRow64, List.map_cons, ih]; rfl
  · intro x hx
    simp only [withRow, newPallet64, List.nil_append] at hx
    rw [hps'] at hx
    obtain ⟨ri, hri, e3, e4, e5⟩ := placedRow64_mem config _ _ _ x hx
    have hv : vertical config x.toItem = true := by rw [e3]; exact hrowv ri hri
    refine ⟨hv, ?_, ?_⟩
    · rw [e4, (hr.entries ri hri).2.1, ← e3]
      exact dims_of_standing config x.toItem ((vertical_iff config x.toItem).mp hv)
    · rw [e5, e4]

/-- C14 (single standing row), amended for double arithmetic. The hypotheses
are on the seeded queue, in the order the sort has left it: a non-empty list of
fresh items of positive width and weight that all qualify for the standing
orientation. When `rowWidthUsed` as the code accumulates it over the queue
(`width + 0.5` added item by item, each sum rounded) ends at most at
`effWidth`, `totalWeight` accumulated the same way ends at most at
`maxWeight`, and `lumberThick + length` rounded is at most `maxHeight` for
each item, the scheduler returns no error and exactly one crate, and so does
`runOptimization64` on every input that is seeded to this queue; that crate
holds all the items in queue order, every one standing in the row placed at the
height cursor `lumberThick`; and for `lumberThick ≥ 0` and lengths that are not
negative the bottom face `position.y - finalDims.y / 2` of every item is within
`(lumberThick + finalDims.y) * 2 ^ (-52)` of `lumberThick`. -/
theorem single_standing_row_rounded (passes fuel : Nat) (config : Config) (queue : List Item)
    (hne : queue ≠ []) (hfresh : ∀ i ∈ queue, i.isPlaced = false)
    (hpos : ∀ i ∈ queue, 0 < i.width ∧ 0 < i.weight)
    (hqual : ∀ i ∈ queue, config.allowVertical = true ∧ i.length < config.maxHeight ∧
      i.length < 90)
    (hwidth : standingWidth64 0 queue ≤ effWidth64 config)
    (hweight : queueWeight64 0 queue ≤ config.maxWeight)
    (hheight : ∀ i ∈ queue, add64 config.lumberThick i.length ≤ config.maxHeight) :
    ∃ crate, crateLoop64 config (fuel + 2) (passes + 1) queue [] = some ⟨[crate], []⟩ ∧
      (∀ items : List Item, sortedQueue64 items = queue →
        runOptimization64 (passes + 1) (fuel + 2) config items = some ⟨[crate], []⟩) ∧
      crate.items.map PlacedItem.toItem = queue.map markPlaced ∧
      (∀ x ∈ crate.items, vertical config x.toItem = true ∧
        x.finalDims = ⟨x.width, x.length, x.height⟩ ∧
        x.position.y = add64 config.lumberThick (div64 x.finalDims.y 2)) ∧
      (0 ≤ config.lumberThick → (∀ i ∈ queue, 0 ≤ i.length) →
        ∀ x ∈ crate.items, |bottomFace x - config.lumberThick|
          ≤ (config.lumberThick + x.finalDims.y) / 2 ^ 52) := by
  obtain ⟨crate, h1, h2, h3⟩ := standing_queue_one_crate passes fuel config queue hne hfresh
    hpos hqual hwidth hweight hheight
  refine ⟨crate, h1, ?_, h2, h3, ?_⟩
  · intro items hq
    have hlen : ¬ items.length = 0 := by
      intro e
      rw [List.length_eq_zero.mp e] at hq
      exact hne hq.symm
    unfold runOptimization64
    rw [if_neg hlen, hq]
    exact h1
  · intro ht hlen x hx
    obtain ⟨_, e2, e3⟩ := h3 x hx
    have hmem : x.toItem ∈ queue.map markPlaced := by
      rw [← h2]; exact List.mem_map_of_mem _ hx
    obtain ⟨i, hi, hie⟩ := List.mem_map.mp hmem
    have hl : 0 ≤ x.finalDims.y := by
      rw [e2]
      show 0 ≤ x.toItem.length
      rw [← hie]
      exact hlen i hi
    unfold bottomFace
    rw [e3]
    exact bottom_face_bound ht hl

/-- C14, as stated, fails in double arithmetic: twenty-five posts typed as 2.78
wide (length 60, weight 45) under the default configuration meet every
hypothesis of the claim, the exact sum of `width + 0.5` over the doubles being
at most `effWidth` = 82; but `rowWidthUsed` accumulated in doubles is above 82
at the twenty-fifth post, and the run returns two crates with 24 and 1 items. -/
theorem single_standing_row_counterexample :
    (∀ i ∈ slimPosts, i.isPlaced = false ∧ defaultConfig.allowVertical = true ∧
      i.length < defaultConfig.maxHeight ∧ i.length < 90 ∧
      defaultConfig.lumberThick + i.length ≤ defaultConfig.maxHeight) ∧
    (slimPosts.map fun i => i.width + 0.5).sum ≤ effWidth defaultConfig ∧
    (slimPosts.map fun i => i.weight).sum ≤ defaultConfig.maxWeight ∧
    effWidth64 defaultConfig = effWidth defaultConfig ∧
    effWidth64 defaultConfig < standingWidth64 0 slimPosts ∧
    (runOptimization64 2 6 defaultConfig slimPosts).map
        (fun r => (r.errors, r.pallets.map fun c => c.items.length))
      = some ([], [24, 1]) := by
  refine ⟨by decide!, by decide!, by decide!, by decide!, by decide!, by decide!⟩

/-! ## The binary64 engine: the cradle of a flat item -/

/-- With enough fuel the cradle-point loop, entered with the loop variable after
`j` steps, returns the pieces of the cradle points `j`, ..., `j + m - 1`, where
`j + m` is the first step at which the loop variable is past `frameLen`. -/
theorem cradleLoop64_eq (config : Config) (layerY itemX : ℚ) (ri : RowItem) :
    ∀ (m j fuel : Nat),
      (∀ i : Nat, i < m → zStep64 config (j + i) ≤ ri.dims.z) →
      ri.dims.z < zStep64 config (j + m) → m ≤ fuel →
      cradleLoop64 config ri.dims.z (add64 ri.dims.y config.lumberThick)
          (div64 (sub64 config.palletLength ri.dims.z) 2)
          (sub64 itemX (div64 config.lumberWidth 2))
          (add64 (add64 itemX ri.dims.x) (div64 config.lumberWidth 2)) layerY fuel
          (zStep64 config j)
        = some ((List.range' j m).flatMap (cradleSpecAt64 config layerY itemX ri (j + m))) := by
  intro m
  induction m with
  | zero =>
    intro j fuel _ hlt _
    have hz : ¬ zStep64 config j ≤ ri.dims.z := not_le.mpr hlt
    cases fuel with
    | zero => simp [cradleLoop64, hz]
    | succ f => simp [cradleLoop64, hz]
  | succ m ih =>
    intro j fuel hle hlt hfuel
    have hz : zStep64 config j ≤ ri.dims.z := hle 0 (Nat.succ_pos m)
    obtain ⟨f, rfl⟩ : ∃ f, fuel = f + 1 := ⟨fuel - 1, by omega⟩
    have hrec := ih (j + 1) f
      (fun i hi => by
        have := hle (i + 1) (by omega)
        rwa [show j + (i + 1) = j + 1 + i by omega] at this)
      (by rwa [show j + 1 + m = j + (m + 1) by omega]) (by omega)
    have hstep : add64 (zStep64 config j) config.framingSpacing = zStep64 config (j + 1) := rfl
    have hcond : (config.addBracing = true ∧ zStep64 config (j + 1) ≤ ri.dims.z) ↔
        (config.addBracing = true ∧ j + 1 < j + (m + 1)) := by
      constructor
      · rintro ⟨h1, h2⟩
        refine ⟨h1, ?_⟩
        by_contra hn
        have hm : m = 0 := by omega
        subst hm
        exact absurd h2 (not_le.mpr hlt)
      · rintro ⟨h1, h2⟩
        exact ⟨h1, hle 1 (by omega)⟩
    simp only [cradleLoop64, if_pos hz, hstep, hrec, createLumber, List.range'_succ,
      List.flatMap_cons, cradleSpecAt64]
    rw [show j + 1 + m = j + (m + 1) by omega]
    by_cases hb : config.addBracing = true ∧ j + 1 < j + (m + 1)
    · rw [if_pos (hcond.mpr hb), if_pos hb]
    · rw [if_neg (fun h => hb (hcond.mp h)), if_neg hb]

theorem framing64_eq_cradleSpec64 (config : Config) (fuel : Nat) (layerY itemX : ℚ)
    (ri : RowItem) (hv : ri.vertical = false) (k : Nat)
    (hk1 : ∀ j : Nat, j < k → zStep64 config j ≤ ri.dims.z)
    (hk2 : ri.dims.z < zStep64 config k) (hfuel : k ≤ fuel) :
    framing64 config fuel layerY itemX ri = some (cradleSpec64 config layerY itemX ri k) := by
  have hloop := cradleLoop64_eq config layerY itemX ri k 0 fuel
    (fun i hi => by rw [Nat.zero_add]; exact hk1 i hi) (by rw [Nat.zero_add]; exact hk2) hfuel
  have h0 : zStep64 config 0 = 0 := rfl
  rw [h0, Nat.zero_add, ← List.range_eq_range'] at hloop
  unfold framing64
  rw [if_neg (by simp [hv])]
  simp only [hloop]
  rfl

theorem countP_cradleSpecAt64 (config : Config) (layerY itemX : ℚ) (ri : RowItem) (k j : Nat) :
    (cradleSpecAt64 config layerY itemX ri k j).countP (isKind "post") = 2 ∧
    (cradleSpecAt64 config layerY itemX ri k j).countP (isKind "rung") = 1 ∧
    (cradleSpecAt64 config layerY itemX ri k j).countP (isKind "rail") = 0 ∧
    (cradleSpecAt64 config layerY itemX ri k j).countP isDiagonal
      = (if config.addBracing = true ∧ j + 1 < k then 2 else 0) := by
  by_cases hb : config.addBracing = true ∧ j + 1 < k
  · simp only [cradleSpecAt64, if_pos hb]
    refine ⟨?_, ?_, ?_, ?_⟩ <;> simp [List.countP_cons, isKind, isDiagonal]
  · simp only [cradleSpecAt64, if_neg hb]
    refine ⟨?_, ?_, ?_, ?_⟩ <;> simp [List.countP_cons, isKind, isDiagonal]

theorem countP_diagonal_range64 (config : Config) (layerY itemX : ℚ) (ri : RowItem) (k : Nat) :
    ∀ n, n ≤ k →
      ((List.range n).flatMap (cradleSpecAt64 config layerY itemX ri k)).countP isDiagonal
        = if config.addBracing = true then 2 * min n (k - 1) else 0 := by
  intro n
  induction n with
  | zero => intro _; simp
  | succ n ih =>
    intro hn
    rw [List.range_succ, List.flatMap_append, List.countP_append, ih (by omega),
      List.flatMap_singleton, (countP_cradleSpecAt64 config layerY itemX ri k n).2.2.2]
    by_cases hb : config.addBracing = true
    · simp only [hb, true_and, if_true]
      by_cases hlt : n + 1 < k
      · rw [if_pos hlt, min_eq_left (by omega), min_eq_left (by omega)]
        ring
      · rw [if_neg hlt, min_eq_left (by omega), min_eq_right (by omega)]
        omega
    · simp [hb]

theorem countP_railSpec64 (config : Config) (layerY itemX : ℚ) (ri : RowItem) :
    (railSpec64 config layerY itemX ri).countP (isKind "post") = 0 ∧
    (railSpec64 config layerY itemX ri).countP (isKind "rung") = 0 ∧
    (railSpec64 config layerY itemX ri).countP (isKind "rail") = 2 ∧
    (railSpec64 config layerY itemX ri).countP isDiagonal = 0 := by
  refine ⟨?_, ?_, ?_, ?_⟩ <;> simp [railSpec64, List.countP_cons, isKind, isDiagonal]

/-- When the multiples of the spacing up to the `n`-th are doubles, the loop
variable after `j ≤ n` steps is `j` times the spacing. -/
theorem zStep64_exact (config : Config) (n : Nat)
    (hex : ∀ j : Nat, j ≤ n → fl ((j : ℚ) * config.framingSpacing) = j * config.framingSpacing) :
    ∀ j : Nat, j ≤ n → zStep64 config j = j * config.framingSpacing := by
  intro j
  induction j with
  | zero => intro _; simp [zStep64]
  | succ j ih =>
    intro hj
    have h1 := ih (by omega)
    have h2 := hex (j + 1) hj
    show add64 (zStep64 config j) config.framingSpacing = _
    rw [h1]
    unfold add64
    have e : (j : ℚ) * config.framingSpacing + config.framingSpacing
        = ((j + 1 : ℕ) : ℚ) * config.framingSpacing := by
      push_cast
      ring
    rw [e, h2]

/-- With exact multiples of the spacing the number of cradle points is
`floor (d / s) + 1`. -/
theorem cradle_count_exact (config : Config) (d : ℚ) (hs : 0 < config.framingSpacing)
    (hd : 0 ≤ d)
    (hex : ∀ j : Nat, j ≤ ⌊d / config.framingSpacing⌋₊ + 1 →
      fl ((j : ℚ) * config.framingSpacing) = j * config.framingSpacing) :
    (∀ j : Nat, j < ⌊d / config.framingSpacing⌋₊ + 1 → zStep64 config j ≤ d) ∧
    d < zStep64 config (⌊d / config.framingSpacing⌋₊ + 1) := by
  have hz := zStep64_exact config _ hex
  constructor
  · intro j hj
    rw [hz j hj.le]
    exact (point_within config d j hs hd).mpr hj
  · rw [hz _ le_rfl]
    have h1 := Nat.lt_floor_add_one (d / config.framingSpacing)
    rw [div_lt_iff₀ hs] at h1
    push_cast
    linarith

/-- C17 (cradle piece count), amended for double arithmetic. A standing row
item gets no framing piece. For a flat row item of depth `d`, let `k` be the
number of values of the loop variable of line 238 (`z = 0`, then `z +=
framingSpacing`, each sum rounded) that are at most `d` before the first one
past `d`. The framing generator returns exactly the pieces of `cradleSpec64`
for `k` cradle points: `2 * k` posts, `k` rungs, 2 rails and, with
`addBracing` on, `2 * (k - 1)` diagonals (none with it off), and nothing else,
with the geometry that `cradleSpecAt64` and `railSpec64` word. And `k` is
`floor (d / s) + 1` whenever `s > 0`, `d ≥ 0` and the multiples `j * s` up to
`j = floor (d / s) + 1` are doubles, so that the loop variable is exact. -/
theorem cradle_piece_count_rounded (config : Config) (fuel : Nat) (layerY currentX : ℚ)
    (ri : RowItem) :
    (ri.vertical = true →
      framing64 config fuel layerY (itemX64 config currentX ri) ri = some []) ∧
    (ri.vertical = false → ∀ k : Nat, (∀ j : Nat, j < k → zStep64 config j ≤ ri.dims.z) →
      ri.dims.z < zStep64 config k → k ≤ fuel →
      framing64 config fuel layerY (itemX64 config currentX ri) ri
        = some (cradleSpec64 config layerY (itemX64 config currentX ri) ri k) ∧
      (cradleSpec64 config layerY (itemX64 config currentX ri) ri k).countP (isKind "post")
        = 2 * k ∧
      (cradleSpec64 config layerY (itemX64 config currentX ri) ri k).countP (isKind "rung")
        = k ∧
      (cradleSpec64 config layerY (itemX64 config currentX ri) ri k).countP (isKind "rail")
        = 2 ∧
      (cradleSpec64 config layerY (itemX64 config currentX ri) ri k).countP isDiagonal
        = (if config.addBracing = true then 2 * (k - 1) else 0) ∧
      (cradleSpec64 config layerY (itemX64 config currentX ri) ri k).length
        = 3 * k + 2 + (if config.addBracing = true then 2 * (k - 1) else 0)) ∧
    (0 < config.framingSpacing → 0 ≤ ri.dims.z →
      (∀ j : Nat, j ≤ ⌊ri.dims.z / config.framingSpacing⌋₊ + 1 →
        fl ((j : ℚ) * config.framingSpacing) = j * config.framingSpacing) →
      (∀ j : Nat, j < ⌊ri.dims.z / config.framingSpacing⌋₊ + 1 →
        zStep64 config j ≤ ri.dims.z) ∧
      ri.dims.z < zStep64 config (⌊ri.dims.z / config.framingSpacing⌋₊ + 1)) := by
  refine ⟨?_, ?_, ?_⟩
  · intro hv
    unfold framing64
    rw [if_pos hv]
  · intro hv k hk1 hk2 hfuel
    have hpost := countP_range_flatMap (isKind "post")
      (cradleSpecAt64 config layerY (itemX64 config currentX ri) ri k) 2
      (fun j => (countP_cradleSpecAt64 config layerY _ ri k j).1) k
    have hrung := countP_range_flatMap (isKind "rung")
      (cradleSpecAt64 config layerY (itemX64 config currentX ri) ri k) 1
      (fun j => (countP_cradleSpecAt64 config layerY _ ri k j).2.1) k
    have hrail := countP_range_flatMap (isKind "rail")
      (cradleSpecAt64 config layerY (itemX64 config currentX ri) ri k) 0
      (fun j => (countP_cradleSpecAt64 config layerY _ ri k j).2.2.1) k
    have hdiag := countP_diagonal_range64 config layerY (itemX64 config currentX ri) ri k k
      (le_refl _)
    obtain ⟨r1, r2, r3, r4⟩ := countP_railSpec64 config layerY (itemX64 config currentX ri) ri
    have hlen : ∀ n, ((List.range n).flatMap (cradleSpecAt64 config layerY
        (itemX64 config currentX ri) ri k)).length
        = 3 * n + ((List.range n).flatMap (cradleSpecAt64 config layerY
          (itemX64 config currentX ri) ri k)).countP isDiagonal := by
      intro n
      induction n with
      | zero => simp
      | succ n ih =>
        rw [List.range_succ, List.flatMap_append, List.length_append, List.countP_append, ih,
          List.flatMap_singleton]
        have h3 : (cradleSpecAt64 config layerY (itemX64 config currentX ri) ri k n).length
            = 3 + (cradleSpecAt64 config layerY (itemX64 config currentX ri) ri k
              n).countP isDiagonal := by
          by_cases hb : config.addBracing = true ∧ n + 1 < k
          · simp only [cradleSpecAt64, if_pos hb]
            rfl
          · simp only [cradleSpecAt64, if_neg hb]
            rfl
        rw [h3]
        ring
    refine ⟨framing64_eq_cradleSpec64 config fuel layerY _ ri hv k hk1 hk2 hfuel, ?_, ?_, ?_,
      ?_, ?_⟩
    · simp only [cradleSpec64, List.countP_append, hpost, r1]; ring
    · simp only [cradleSpec64, List.countP_append, hrung, r2]; ring
    · simp only [cradleSpec64, List.countP_append, hrail, r3]
      simp
    · simp only [cradleSpec64, List.countP_append, hdiag, r4, min_eq_right (Nat.sub_le _ _),
        add_zero]
    · simp only [cradleSpec64, List.length_append, hlen, hdiag,
        min_eq_right (Nat.sub_le _ _)]
      simp only [railSpec64, List.length_cons, List.length_nil]
      ring
  · intro hs hd hex
    exact cradle_count_exact config ri.dims.z hs hd hex

/-- C15 (cradle points), amended for double arithmetic. For a flat row item of
depth `d`, let `k` be the number of values of the loop variable of line 238
(`z = 0`, then `z += framingSpacing`, each sum rounded) that are at most `d`
before the first one past `d`, and `lead = (palletLength - d) / 2` as line 233
computes it. The framing generator pushes a left post, a right post and a rung
at the depth `lead + z` (rounded) for each of these `k` values `z`, the first of
them the leading depth edge `lead` itself, and at no other depth. The depth
`lead + d` of the trailing edge gets them exactly when it is one of these `k`
depths, which is so when the loop variable reaches `d`; with `s > 0`, `d ≥ 0`
and exact multiples of `s`, the loop variable reaches `d` exactly when `d` is a
whole multiple of `s`. -/
theorem cradle_points_rounded (config : Config) (fuel : Nat) (layerY currentX : ℚ)
    (ri : RowItem) (hv : ri.vertical = false) (k : Nat)
    (hk1 : ∀ j : Nat, j < k → zStep64 config j ≤ ri.dims.z)
    (hk2 : ri.dims.z < zStep64 config k) (hfuel : k ≤ fuel) :
    ∃ pieces, framing64 config fuel layerY (itemX64 config currentX ri) ri = some pieces ∧
      (∀ j : Nat, j < k →
        postAt64 config layerY ri (sub64 (itemX64 config currentX ri) (div64 config.lumberWidth 2))
          (add64 (leadDepth64 config ri) (zStep64 config j)) ∈ pieces ∧
        postAt64 config layerY ri
          (add64 (add64 (itemX64 config currentX ri) ri.dims.x) (div64 config.lumberWidth 2))
          (add64 (leadDepth64 config ri) (zStep64 config j)) ∈ pieces ∧
        (∃ w ∈ pieces, isKind "rung" w = true ∧
          cradleDepth w = some (add64 (leadDepth64 config ri) (zStep64 config j)))) ∧
      (∀ w ∈ pieces, ∀ z, cradleDepth w = some z →
        ∃ j : Nat, j < k ∧ z = add64 (leadDepth64 config ri) (zStep64 config j)) ∧
      add64 (leadDepth64 config ri) (zStep64 config 0) = leadDepth64 config ri ∧
      ((∃ w ∈ pieces, cradleDepth w = some (add64 (leadDepth64 config ri) ri.dims.z)) ↔
        ∃ j : Nat, j < k ∧ add64 (leadDepth64 config ri) (zStep64 config j)
          = add64 (leadDepth64 config ri) ri.dims.z) ∧
      ((∃ j : Nat, j < k ∧ zStep64 config j = ri.dims.z) →
        ∃ w ∈ pieces, cradleDepth w = some (add64 (leadDepth64 config ri) ri.dims.z)) ∧
      (0 < config.framingSpacing → 0 ≤ ri.dims.z →
        (∀ j : Nat, j ≤ ⌊ri.dims.z / config.framingSpacing⌋₊ + 1 →
          fl ((j : ℚ) * config.framingSpacing) = j * config.framingSpacing) →
        k = ⌊ri.dims.z / config.framingSpacing⌋₊ + 1 ∧
        ((∃ j : Nat, j < k ∧ zStep64 config j = ri.dims.z) ↔
          ∃ j : Nat, (j : ℚ) * config.framingSpacing = ri.dims.z)) := by
  have hA : ∀ j : Nat, j < k →
      ∀ w ∈ cradleSpecAt64 config layerY (itemX64 config currentX ri) ri k j,
      w ∈ cradleSpec64 config layerY (itemX64 config currentX ri) ri k := by
    intro j hj w hw
    unfold cradleSpec64
    exact List.mem_append_left _ (List.mem_flatMap.mpr ⟨j, List.mem_range.mpr hj, hw⟩)
  have hB : ∀ w ∈ cradleSpec64 config layerY (itemX64 config currentX ri) ri k, ∀ z,
      cradleDepth w = some z →
      ∃ j : Nat, j < k ∧ z = add64 (leadDepth64 config ri) (zStep64 config j) := by
    intro w hw z hz
    unfold cradleSpec64 at hw
    rcases List.mem_append.mp hw with hw | hw
    · obtain ⟨j, hj, hwj⟩ := List.mem_flatMap.mp hw
      refine ⟨j, List.mem_range.mp hj, ?_⟩
      by_cases hb : config.addBracing = true ∧ j + 1 < k
      · simp only [cradleSpecAt64, if_pos hb, List.cons_append, List.nil_append,
          List.mem_cons, List.mem_singleton, List.not_mem_nil, or_false] at hwj
        rcases hwj with rfl | rfl | rfl | rfl | rfl <;>
          simp [cradleDepth, leadDepth64] at hz ⊢ <;> exact hz.symm
      · simp only [cradleSpecAt64, if_neg hb, List.append_nil,
          List.mem_cons, List.mem_singleton, List.not_mem_nil, or_false] at hwj
        rcases hwj with rfl | rfl | rfl <;>
          simp [cradleDepth, leadDepth64] at hz ⊢ <;> exact hz.symm
    · simp only [railSpec64, List.mem_cons, List.mem_singleton, List.not_mem_nil,
        or_false] at hw
      rcases hw with rfl | rfl <;> simp [cradleDepth] at hz
  have hC : ∀ j : Nat, j < k → ∃ w ∈ cradleSpec64 config layerY (itemX64 config currentX ri)
      ri k, cradleDepth w = some (add64 (leadDepth64 config ri) (zStep64 config j)) := by
    intro j hj
    exact ⟨_, hA j hj _ (List.mem_append_left _ (List.mem_cons_self _ _)), rfl⟩
  refine ⟨_, framing64_eq_cradleSpec64 config fuel layerY _ ri hv k hk1 hk2 hfuel, ?_, hB, ?_,
    ?_, ?_, ?_⟩
  · intro j hj
    refine ⟨hA j hj _ ?_, hA j hj _ ?_,
      ⟨_, hA j hj _ (List.mem_append_left _ (List.mem_cons_of_mem _ (List.mem_cons_of_mem _
        (List.mem_singleton_self _)))), rfl, rfl⟩⟩
    · exact List.mem_append_left _ (List.mem_cons_self _ _)
    · exact List.mem_append_left _ (List.mem_cons_of_mem _ (List.mem_cons_self _ _))
  · show add64 (leadDepth64 config ri) 0 = leadDepth64 config ri
    unfold add64
    rw [add_zero]
    exact fl_idem _
  · constructor
    · rintro ⟨w, hw, hz⟩
      obtain ⟨j, hj, e⟩ := hB w hw _ hz
      exact ⟨j, hj, e.symm⟩
    · rintro ⟨j, hj, e⟩
      obtain ⟨w, hw, hz⟩ := hC j hj
      exact ⟨w, hw, by rw [hz, e]⟩
  · rintro ⟨j, hj, e⟩
    obtain ⟨w, hw, hz⟩ := hC j hj
    exact ⟨w, hw, by rw [hz, e]⟩
  · intro hs hd hex
    obtain ⟨c1, c2⟩ := cradle_count_exact config ri.dims.z hs hd hex
    have hz := zStep64_exact config _ hex
    have hk : k = ⌊ri.dims.z / config.framingSpacing⌋₊ + 1 := by
      rcases Nat.lt_trichotomy k (⌊ri.dims.z / config.framingSpacing⌋₊ + 1) with h | h | h
      · exact absurd (c1 k h) (not_le.mpr hk2)
      · exact h
      · exact absurd (hk1 _ h) (not_le.mpr c2)
    refine ⟨hk, ?_⟩
    constructor
    · rintro ⟨j, hj, e⟩
      refine ⟨j, ?_⟩
      rw [← hz j (by omega)]
      exact e
    · rintro ⟨j, e⟩
      have hj : j < ⌊ri.dims.z / config.framingSpacing⌋₊ + 1 :=
        (point_within config ri.dims.z j hs hd).mp e.le
      refine ⟨j, by omega, ?_⟩
      rw [hz j hj.le]
      exact e

/-- C15, as stated, fails: for the demo item `PIPE-120-STD` (depth 120) under
the default configuration (spacing 48, pallet length 250) posts and rungs are
pushed at the depths 65, 113 and 161 only; the trailing depth edge
`(250 + 120) / 2 = 185` gets none, the next step `z = 144` being past the
item's depth. All these values are exact in doubles. -/
theorem cradle_points_counterexample :
    runOptimization64 1 6 defaultConfig [halfPipe] = some halfRun64 ∧
    halfRun64.pallets.map (fun c => (c.items.map fun x =>
        (vertical defaultConfig x.toItem, x.finalDims.z), c.woodFrames.filterMap cradleDepth))
      = [([(false, 120)], [65, 65, 65, 113, 113, 113, 161, 161, 161])] ∧
    ¬ (∀ c ∈ halfRun64.pallets, ∀ x ∈ c.items, vertical defaultConfig x.toItem = false →
      ∃ w ∈ c.woodFrames,
        cradleDepth w = some ((defaultConfig.palletLength + x.finalDims.z) / 2)) := by
  refine ⟨by decide!, by decide!, by decide!⟩

/-- C17, as stated, fails in double arithmetic: with the post spacing typed as
4.8 the demo item `PIPE-240-HVY` (depth 240) has `floor (240 / 4.8) + 1 = 51`,
but the loop variable of line 238, fifty times 4.8 added up in doubles, is
240.00000000000023, past 240, so the run pushes 50 cradle points: 100 posts, 50
rungs and 98 diagonals. -/
theorem cradle_piece_count_counterexample :
    (dims fineConfig pipeItem).z = 240 ∧ vertical fineConfig pipeItem = false ∧
    ⌊(dims fineConfig pipeItem).z / fineConfig.framingSpacing⌋₊ + 1 = 51 ∧
    zStep64 fineConfig 50 = fl 240.00000000000023 ∧
    (dims fineConfig pipeItem).z < zStep64 fineConfig 50 ∧
    (runOptimization64 1 60 fineConfig [pipeItem]).map (fun r => r.pallets.map fun c =>
        (c.items.length, c.woodFrames.countP (isKind "post"),
          c.woodFrames.countP (isKind "rung"), c.woodFrames.countP isDiagonal))
      = some [(1, 100, 50, 98)] := by
  refine ⟨by decide!, by decide!, by decide!, by decide!, by decide!, by decide!⟩

/-! ## Fit failure at a zero post spacing -/

/-- C4, at `framingSpacing = 0`: the fresh input `wideItems` of positive size
holds an item (`WIDE`, footprint 90 + 7 against `effWidth` 82) that fails the
acceptance test of an empty crate, so the claim asks for the fit-failure error.
The other item, `PIPE-240-HVY`, is seeded first and placed flat, the
cradle-point loop of line 238 never advances, and the run returns nothing
however many passes and inner iterations it is allowed: it never reaches the
fit-failure check of line 321. -/
theorem fit_failure_zero_spacing :
    (∀ i ∈ wideItems, Positive i ∧ i.isPlaced = false) ∧
    (∃ i ∈ wideItems, ¬ FitsAlone zeroSpacingConfig i) ∧
    (∀ (passes fuel : Nat), runOptimization passes fuel zeroSpacingConfig wideItems = none) ∧
    ¬ (∃ (passes fuel : Nat) (r : Result),
      runOptimization passes fuel zeroSpacingConfig wideItems = some r ∧
        r.errors = [fitFailure]) := by
  have hq : sortedQueue wideItems = wideItems := by decide!
  have hrow : (fillRow zeroSpacingConfig zeroSpacingConfig.lumberThick wideItems 0
      (newRow 0)).2.rowItems = [⟨0, markPlaced pipeItem, ⟨4.5, 4.5, 240⟩, false⟩] := by
    decide!
  have hpallet : ∀ (fuel n : Nat) (acc : List Pallet),
      palletLoop zeroSpacingConfig fuel n wideItems (newPallet zeroSpacingConfig acc)
        zeroSpacingConfig.lumberThick = none := by
    intro fuel n acc
    cases n with
    | zero => rfl
    | succ n =>
      have h0 : (newPallet zeroSpacingConfig acc).totalWeight = 0 := rfl
      simp only [palletLoop, h0, hrow]
      rw [placeRow_zero_spacing zeroSpacingConfig fuel _ _ _ _ rfl rfl (by norm_num)]
      simp
  have hnone : ∀ (passes fuel : Nat),
      runOptimization passes fuel zeroSpacingConfig wideItems = none := by
    intro passes fuel
    unfold runOptimization
    rw [if_neg (by decide), hq]
    have hlen : 0 < wideItems.length := by decide
    cases passes with
    | zero => simp only [crateLoop, if_pos hlen]
    | succ passes => simp only [crateLoop, if_pos hlen, hpallet]
  refine ⟨by decide!, by decide!, hnone, ?_⟩
  rintro ⟨passes, fuel, r, h, _⟩
  rw [hnone passes fuel] at h
  exact absurd h (by simp)

/-! ## The seeding comparator is not an order -/

/-- C10, on the load order with (length, weight) = (2, 3), (6, 2), (10, 1).
The comparator of lines 115-118 puts the first item before the second and the
second before the third (their lengths are within 5, the heavier goes first)
but the third before the first (lengths 8 apart, the longer goes first): its
outcomes form a cycle. So no arrangement of the three items has every earlier
item in seeded order before every later one, and the claim fails for whatever
the sort returns. The load order is already one non-descending run of the
comparator, and the stable sort leaves it as it is: lengths 2, 6, 10,
ascending, where line 114 announces length descending. -/
theorem seeded_order_fails :
    compareItems (unitItem "C" 4 4 2 3) (unitItem "B" 4 4 6 2) ≤ 0 ∧
    compareItems (unitItem "B" 4 4 6 2) (unitItem "A" 4 4 10 1) ≤ 0 ∧
    0 < compareItems (unitItem "C" 4 4 2 3) (unitItem "A" 4 4 10 1) ∧
    (∀ l : List Item, l.Perm cyclicItems → ¬ l.Pairwise SeededBefore) ∧
    (∀ sort : List Item → List Item,
      ¬ ((sort cyclicItems).Perm cyclicItems ∧ (sort cyclicItems).Pairwise SeededBefore)) ∧
    (sortedQueue cyclicItems).map Item.length = [2, 6, 10] := by
  have hall : ∀ m ∈ cyclicItems.permutations, ¬ m.Pairwise SeededBefore := by decide!
  have hperm : ∀ l : List Item, l.Perm cyclicItems → ¬ l.Pairwise SeededBefore :=
    fun l hl => hall l (List.mem_permutations.mpr hl)
  exact ⟨by decide!, by decide!, by decide!, hperm, fun sort h => hperm _ h.1 h.2,
    by decide!⟩

/-! ## Sample runs -/

theorem sampleRun_eq : runOptimization 3 6 defaultConfig sampleItems = some sampleRun := by
  decide!

theorem samplePass_eq :
    palletLoop defaultConfig 6 6 (sortedQueue sampleItems) (newPallet defaultConfig [])
      defaultConfig.lumberThick = some (samplePass.1, samplePass.2) := by
  decide!

theorem wideRun_eq : runOptimization 2 6 defaultConfig wideItems = some wideRun := by
  decide!

theorem conservation_witness :
    (∀ i ∈ sampleItems, i.isPlaced = false) ∧ sampleRun.errors = [] ∧
    sampleRun.pallets.map (fun c => c.items.map fun x => x.itemNumber)
      = [["PIPE-240-HVY", "CURVED-96"], ["SHORT-POST-60"]] ∧
    ((placedItems sampleRun.pallets).map PlacedItem.toItem).Perm (sampleItems.map markPlaced) :=
  ⟨by decide!, by decide!, by decide!,
    conservation 3 6 defaultConfig sampleItems sampleRun (by decide!) sampleRun_eq (by decide!)⟩

theorem weight_bound_witness :
    0 < defaultConfig.maxWeight ∧
    ∀ c ∈ sampleRun.pallets, c.totalWeight = (c.items.map fun p => p.weight).sum ∧
      c.totalWeight ≤ defaultConfig.maxWeight :=
  ⟨by decide!, weight_bound 3 6 defaultConfig sampleItems sampleRun (by decide!) sampleRun_eq⟩

theorem progress_law_witness :
    ((samplePass.2.items ≠ [] ∧
        (unplaced samplePass.1).length < (sortedQueue sampleItems).length ∧
        crateLoop defaultConfig 6 (2 + 1) (sortedQueue sampleItems) [] =
          (if (unplaced samplePass.1).length = 0 then some ⟨[] ++ [samplePass.2], []⟩
           else crateLoop defaultConfig 6 2 (unplaced samplePass.1) ([] ++ [samplePass.2]))) ∨
      (samplePass.2.items = [] ∧
        (unplaced samplePass.1).length = (sortedQueue sampleItems).length ∧
        crateLoop defaultConfig 6 (2 + 1) (sortedQueue sampleItems) []
          = some ⟨[], [fitFailure]⟩)) ∧
    (∀ c ∈ sampleRun.pallets, c.items ≠ []) :=
  ⟨(progress_law defaultConfig 6).1 2 (sortedQueue sampleItems) [] samplePass.1 samplePass.2
      (by decide!) (by decide!) samplePass_eq,
    (progress_law defaultConfig 6).2 3 sampleItems sampleRun (by decide!) sampleRun_eq⟩

theorem fit_failure_characterisation_witness :
    wideRun.errors = [fitFailure] ∧ wideRun.pallets.length = 1 ∧
    ((wideRun.errors = [fitFailure] ↔ ∃ i ∈ wideItems, ¬ FitsAlone defaultConfig i) ∧
    (∀ i ∈ wideItems, ¬ FitsAlone defaultConfig i →
      ∀ c ∈ wideRun.pallets, ∀ x ∈ c.items, x.toItem ≠ markPlaced i) ∧
    (∀ i ∈ wideItems, (FitsAlone defaultConfig i ↔
      scanItem defaultConfig defaultConfig.lumberThick 0 i (newRow 0)
        = (markPlaced i, acceptState defaultConfig 0 i (newRow 0)))) ∧
    (0 < defaultConfig.framingSpacing → ∃ F : Nat, ∀ (fuel1 passes1 : Nat), F ≤ fuel1 →
      wideItems.length ≤ passes1 →
      ∃ r1, runOptimization passes1 fuel1 defaultConfig wideItems = some r1)) :=
  ⟨by decide!, by decide!,
    fit_failure_characterisation 2 6 defaultConfig wideItems wideRun (by decide!) (by decide!)
      (by decide!) (by decide!) wideRun_eq⟩

theorem width_bound_witness :
    (fillRow defaultConfig defaultConfig.lumberThick (sortedQueue sampleItems) 0
      (newRow 0)).2.rowItems.length = 2 ∧
    footprintSum defaultConfig false
        (fillRow defaultConfig defaultConfig.lumberThick (sortedQueue sampleItems) 0
          (newRow 0)).2.rowItems
      = (fillRow defaultConfig defaultConfig.lumberThick (sortedQueue sampleItems) 0
          (newRow 0)).2.rowWidthUsed ∧
    footprintSum defaultConfig false
        (fillRow defaultConfig defaultConfig.lumberThick (sortedQueue sampleItems) 0
          (newRow 0)).2.rowItems
      ≤ defaultConfig.palletWidth - 2 * defaultConfig.safetyGap :=
  ⟨by decide!,
    width_bound defaultConfig defaultConfig.lumberThick 0 (sortedQueue sampleItems) (by decide!)⟩

theorem standing_selection_witness :
    runOptimization 3 6 defaultConfig sampleItems = some sampleRun ∧
    sampleRun.pallets.map (fun c => c.items.map fun x => (x.itemNumber, x.finalDims))
      = [[("PIPE-240-HVY", ⟨4.5, 4.5, 240⟩), ("CURVED-96", ⟨8, 12, 96⟩)],
          [("SHORT-POST-60", ⟨4, 60, 4⟩)]] ∧
    (∀ c ∈ sampleRun.pallets, ∀ x ∈ c.items,
      (defaultConfig.allowVertical = true ∧ x.length < defaultConfig.maxHeight ∧ x.length < 90 →
        x.finalDims = ⟨x.width, x.length, x.height⟩) ∧
      (¬ (defaultConfig.allowVertical = true ∧ x.length < defaultConfig.maxHeight ∧
          x.length < 90) →
        x.finalDims.z = x.length ∧
        ((x.finalDims.x = x.width ∧ x.finalDims.y = x.height) ∨
          (x.finalDims.x = x.height ∧ x.finalDims.y = x.width)))) :=
  ⟨sampleRun_eq, by decide!,
    (standing_selection 3 6 defaultConfig sampleItems sampleRun sampleRun_eq).2.1⟩

theorem flat_orientation_witness :
    runOptimization 3 6 defaultConfig sampleItems = some sampleRun ∧
    (∃ c ∈ sampleRun.pallets, ∃ x ∈ c.items, vertical defaultConfig x.toItem = false) ∧
    ∀ c ∈ sampleRun.pallets, ∀ x ∈ c.items, vertical defaultConfig x.toItem = false →
      x.finalDims.y = max x.width x.height ∧ x.finalDims.x = min x.width x.height ∧
      x.finalDims.z = x.length :=
  ⟨sampleRun_eq, by decide!,
    flat_orientation 3 6 defaultConfig sampleItems sampleRun sampleRun_eq⟩

theorem over_wide_item_witness :
    0 ≤ defaultConfig.lumberWidth ∧ overWideItem.isPlaced = false ∧
    overWideItem.width > defaultConfig.palletWidth - 2 * defaultConfig.safetyGap ∧
    (vertical defaultConfig overWideItem = true ∨ overWideItem.width ≤ overWideItem.height) ∧
    runOptimization (0 + 1) (5 + 1) defaultConfig [overWideItem] = some ⟨[], [fitFailure]⟩ :=
  ⟨by decide!, by decide!, by decide!, by decide!,
    over_wide_item 0 5 defaultConfig overWideItem (by decide!) (by decide!) (by decide!)
      (by decide!)⟩

theorem lowRun_eq : runOptimization64 1 6 lowConfig [post614] = some lowRun := by
  decide!

theorem tallRun64_eq : runOptimization64 1 6 defaultConfig [tallItem] = some tallRun64 := by
  decide!

theorem crossRun_eq : runOptimization64 2 6 config63 crossItems = some crossRun := by
  decide!

theorem height_bound_rounded_witness :
    runOptimization64 1 6 lowConfig [post614] = some lowRun ∧
    lowRun.pallets.map (fun c => c.items.length) = [1] ∧
    (∀ c ∈ lowRun.pallets, ∀ p ∈ c.items, ∃ y,
      p.position.y = add64 y (div64 p.finalDims.y 2) ∧
      add64 y p.finalDims.y ≤ lowConfig.maxHeight) ∧
    (∀ c ∈ lowRun.pallets, ∀ p ∈ c.items,
      topFace p ≤ lowConfig.maxHeight * (1 + 1 / 2 ^ 51)) :=
  ⟨lowRun_eq, by decide!,
    (height_bound_rounded 1 6 lowConfig [post614] lowRun lowRun_eq).1,
    (height_bound_rounded 1 6 lowConfig [post614] lowRun lowRun_eq).2 (by decide!)
      (by decide!)⟩

theorem standing_legality_rounded_witness :
    0 ≤ lowConfig.lumberThick ∧ IsDouble lowConfig.lumberThick ∧
    (∀ i ∈ [post614], DoubleDims i ∧ RaisesCursor lowConfig i) ∧
    (∃ c ∈ lowRun.pallets, ∃ x ∈ c.items, vertical lowConfig x.toItem = true) ∧
    (∀ c ∈ lowRun.pallets, ∀ x ∈ c.items, vertical lowConfig x.toItem = true →
      x.position.y = add64 lowConfig.lumberThick (div64 x.finalDims.y 2)) ∧
    (∀ c ∈ lowRun.pallets, ∀ x ∈ c.items, vertical lowConfig x.toItem = true →
      |bottomFace x - lowConfig.lumberThick|
        ≤ (lowConfig.lumberThick + x.finalDims.y) / 2 ^ 52) ∧
    (∀ c ∈ lowRun.pallets, ∃ queue first more,
      (∀ i ∈ queue, DoubleDims i ∧ RaisesCursor lowConfig i) ∧
      c.items = first ++ more ∧
      first = placedRow64 lowConfig lowConfig.lumberThick
        (fillRow64 lowConfig lowConfig.lumberThick queue 0 (newRow 0)).2.rowItems
        (startX64 lowConfig (fillRow64 lowConfig lowConfig.lumberThick queue 0 (newRow 0)).2) ∧
      ∀ x ∈ more, vertical lowConfig x.toItem = false) :=
  ⟨by decide!, by decide!, by decide!, by decide!,
    (standing_legality_rounded 1 6 lowConfig [post614] lowRun (by decide!) (by decide!)
      lowRun_eq).1,
    (standing_legality_rounded 1 6 lowConfig [post614] lowRun (by decide!) (by decide!)
      lowRun_eq).2.1 (by decide!),
    (standing_legality_rounded 1 6 lowConfig [post614] lowRun (by decide!) (by decide!)
      lowRun_eq).2.2 (by decide!)⟩

theorem single_standing_row_rounded_witness :
    postItems ≠ [] ∧ postItems.length = 15 ∧
    standingWidth64 0 postItems ≤ effWidth64 defaultConfig ∧
    queueWeight64 0 postItems ≤ defaultConfig.maxWeight ∧
    ∃ crate, crateLoop64 defaultConfig (4 + 2) (0 + 1) postItems [] = some ⟨[crate], []⟩ ∧
      (∀ items : List Item, sortedQueue64 items = postItems →
        runOptimization64 (0 + 1) (4 + 2) defaultConfig items = some ⟨[crate], []⟩) ∧
      crate.items.map PlacedItem.toItem = postItems.map markPlaced ∧
      (∀ x ∈ crate.items, vertical defaultConfig x.toItem = true ∧
        x.finalDims = ⟨x.width, x.length, x.height⟩ ∧
        x.position.y = add64 defaultConfig.lumberThick (div64 x.finalDims.y 2)) ∧
      (0 ≤ defaultConfig.lumberThick → (∀ i ∈ postItems, 0 ≤ i.length) →
        ∀ x ∈ crate.items, |bottomFace x - defaultConfig.lumberThick|
          ≤ (defaultConfig.lumberThick + x.finalDims.y) / 2 ^ 52) :=
  ⟨by decide!, by decide!, by decide!, by decide!,
    single_standing_row_rounded 0 4 defaultConfig postItems (by decide!) (by decide!)
      (by decide!) (by decide!) (by decide!) (by decide!) (by decide!)⟩

theorem crate_height_rounded_witness :
    (∀ i ∈ [tallItem], 0 < i.height ∧ 0 < i.width ∧ 0 < i.length) ∧
    runOptimization64 1 6 defaultConfig [tallItem] = some tallRun64 ∧
    tallRun64.pallets.length = 1 ∧
    (∀ c ∈ tallRun64.pallets, c.currentHeight = 0 ∨ ∃ y t,
      add64 y t ≤ defaultConfig.maxHeight ∧
      (c.currentHeight = add64 y t ∨
        c.currentHeight = add64 y (add64 t (mul64 defaultConfig.lumberThick 2)))) ∧
    (∀ c ∈ tallRun64.pallets, c.currentHeight
      ≤ (defaultConfig.maxHeight + 2 * defaultConfig.lumberThick) * (1 + 1 / 2 ^ 50)) :=
  ⟨by decide!, tallRun64_eq, by decide!,
    (crate_height_rounded 1 6 defaultConfig [tallItem] tallRun64 (by decide!) tallRun64_eq).1,
    (crate_height_rounded 1 6 defaultConfig [tallItem] tallRun64 (by decide!) tallRun64_eq).2
      (by decide!) (by decide!)⟩

theorem no_overlap_rounded_witness :
    0 ≤ config63.lumberWidth ∧ 0 ≤ config63.lumberThick ∧ IsDouble config63.lumberThick ∧
    (∀ i ∈ crossItems, (0 < i.height ∧ 0 < i.width ∧ 0 < i.length) ∧ DoubleDims i) ∧
    runOptimization64 2 6 config63 crossItems = some crossRun ∧
    crossRun.pallets.map (fun c => c.items.length) = [2] ∧
    (∀ c ∈ crossRun.pallets, ∃ slots : List Slot, slots.map Slot.item = c.items ∧
      (∀ s ∈ slots, SlotPosition config63 s) ∧ slots.Pairwise (SlotsApart config63)) ∧
    (∀ c ∈ crossRun.pallets, c.items.Pairwise ApartUpToRounding) :=
  ⟨by decide!, by decide!, by decide!, by decide!, crossRun_eq, by decide!,
    (no_overlap_rounded 2 6 config63 crossItems crossRun (by decide!) (by decide!)
      (by decide!) (by decide!) crossRun_eq).1,
    (no_overlap_rounded 2 6 config63 crossItems crossRun (by decide!) (by decide!)
      (by decide!) (by decide!) crossRun_eq).2 (by decide!) (by decide!)⟩

theorem cradle_piece_count_rounded_witness :
    pipeRowItem.vertical = false ∧
    (∀ j : Nat, j < 6 → zStep64 defaultConfig j ≤ pipeRowItem.dims.z) ∧
    pipeRowItem.dims.z < zStep64 defaultConfig 6 ∧
    ⌊pipeRowItem.dims.z / defaultConfig.framingSpacing⌋₊ + 1 = 6 ∧
    (framing64 defaultConfig 6 1.5 (itemX64 defaultConfig 0 pipeRowItem) pipeRowItem
        = some (cradleSpec64 defaultConfig 1.5 (itemX64 defaultConfig 0 pipeRowItem)
          pipeRowItem 6) ∧
      (cradleSpec64 defaultConfig 1.5 (itemX64 defaultConfig 0 pipeRowItem)
          pipeRowItem 6).countP (isKind "post") = 2 * 6 ∧
      (cradleSpec64 defaultConfig 1.5 (itemX64 defaultConfig 0 pipeRowItem)
          pipeRowItem 6).countP (isKind "rung") = 6 ∧
      (cradleSpec64 defaultConfig 1.5 (itemX64 defaultConfig 0 pipeRowItem)
          pipeRowItem 6).countP (isKind "rail") = 2 ∧
      (cradleSpec64 defaultConfig 1.5 (itemX64 defaultConfig 0 pipeRowItem)
          pipeRowItem 6).countP isDiagonal
        = (if defaultConfig.addBracing = true then 2 * (6 - 1) else 0) ∧
      (cradleSpec64 defaultConfig 1.5 (itemX64 defaultConfig 0 pipeRowItem)
          pipeRowItem 6).length
        = 3 * 6 + 2 + (if defaultConfig.addBracing = true then 2 * (6 - 1) else 0)) :=
  ⟨by decide!, by decide!, by decide!, by decide!,
    (cradle_piece_count_rounded defaultConfig 6 1.5 0 pipeRowItem).2.1 (by decide!) 6
      (by decide!) (by decide!) (by decide!)⟩

theorem cradle_points_rounded_witness :
    halfRowItem.vertical = false ∧
    (∀ j : Nat, j < 3 → zStep64 defaultConfig j ≤ halfRowItem.dims.z) ∧
    halfRowItem.dims.z < zStep64 defaultConfig 3 ∧
    leadDepth64 defaultConfig halfRowItem = 65 ∧
    ∃ pieces, framing64 defaultConfig 6 1.5 (itemX64 defaultConfig 0 halfRowItem) halfRowItem
        = some pieces ∧
      (∀ w ∈ pieces, ∀ z, cradleDepth w = some z →
        ∃ j : Nat, j < 3 ∧ z = add64 (leadDepth64 defaultConfig halfRowItem)
          (zStep64 defaultConfig j)) :=
  ⟨by decide!, by decide!, by decide!, by decide!,
    (cradle_points_rounded defaultConfig 6 1.5 0 halfRowItem (by decide!) 3 (by decide!)
      (by decide!) (by decide!)).imp fun _ h => ⟨h.1, h.2.2.1⟩⟩

end PalletOptimizer
